import Mathlib

/-!
# Verification of the sentinel-tower metagraph sync engine

Shallow embedding of the epoch arithmetic, APY calculator, API-era
detection, and the APY-optimized metagraph sync service of the
`apps/metagraph` package, together with theorems settling the spec claims.

Python integers are modelled as `Int` (arbitrary precision, as in Python);
Python floats that only carry chain data through arithmetic are modelled
as `ℚ`; `datetime` values are modelled as abstract `Int` timestamps.
-/

/- ## Epoch arithmetic (`apps/metagraph/utils.py`)

`settings.TEMPO` and `settings.NUM_BLOCK_DUMPS_PER_EPOCH` are configuration
values; they are passed as explicit parameters here. -/

/-- `get_epoch_duration` from `utils.py`: epoch duration is `tempo + 1`
(documented bittensor off-by-one). -/
def get_epoch_duration (tempo : Int) : Int :=
  tempo + 1

/-- `block_index_in_epoch` from `utils.py`:
`(block + netuid + 2) % get_epoch_duration(tempo)`. -/
def block_index_in_epoch (block netuid tempo : Int) : Int :=
  (block + netuid + 2) % get_epoch_duration tempo

/-- `get_blocks_until_next_epoch` from `utils.py`. -/
def get_blocks_until_next_epoch (block netuid tempo : Int) : Int :=
  let index := block_index_in_epoch block netuid tempo
  if index = 0 then 0 else get_epoch_duration tempo - index

/-- `get_next_epoch_block` from `utils.py`:
`block + (get_blocks_until_next_epoch(...) or get_epoch_duration(tempo))`.
Python `x or y` on integers yields `y` exactly when `x == 0`. -/
def get_next_epoch_block (block netuid tempo : Int) : Int :=
  let u := get_blocks_until_next_epoch block netuid tempo
  block + (if u = 0 then get_epoch_duration tempo else u)

/-- A Python `range(start, stop)` value (half-open integer interval). -/
structure EpochRange where
  start : Int
  stop : Int
deriving DecidableEq

/-- `get_epoch_containing_block` from `utils.py`:
`range(next_epoch_block - get_epoch_duration(TEMPO), next_epoch_block)`. -/
def get_epoch_containing_block (block netuid tempo : Int) : EpochRange :=
  let nxt := get_next_epoch_block block netuid tempo
  ⟨nxt - get_epoch_duration tempo, nxt⟩

/-- `get_dumpable_blocks` from `utils.py`: `numDumps` blocks from
`epoch.start` by float step `TEMPO / NUM_BLOCK_DUMPS_PER_EPOCH`, floored,
plus always the end-of-epoch block `epoch.start + TEMPO`.  The float step
is modelled as a rational. -/
def get_dumpable_blocks (epochStart tempo : Int) (numDumps : Nat) : List Int :=
  let step : ℚ := (tempo : ℚ) / (numDumps : ℚ)
  let ranges := (List.range numDumps).map (fun i => ⌊(epochStart : ℚ) + step * (i : ℚ)⌋)
  ranges ++ [epochStart + tempo]

/- ## APY calculator (`apps/metagraph/services/apy_sync_service.py`) -/

/-- `BLOCKS_PER_YEAR` from `apy_sync_service.py`:
31,557,600 seconds/year / 12 seconds/block. -/
def BLOCKS_PER_YEAR : ℚ := 2629800

/-- `_compute_dividend_apy` from `apy_sync_service.py`, floats modelled
as rationals. -/
def compute_dividend_apy (dividend alpha_out_emission alpha_stake owner_cut : ℚ) : ℚ :=
  if alpha_stake ≤ 0 ∨ alpha_out_emission ≤ 0 ∨ dividend ≤ 0 then 0
  else
    let dividend_share := if dividend > 1 then dividend / 65535 else dividend
    dividend_share * alpha_out_emission * (1 - owner_cut) * (0.5 : ℚ) * BLOCKS_PER_YEAR / alpha_stake * 100

/-- Reference definition of `computeDividendAPY`, written from the claim's
words: 0 on the guard, otherwise
`dividendShare * alphaOut * (1 - ownerCut) * 0.5 * 2629800 / alphaStake * 100`
with `dividendShare = dividend / 65535` when `dividend > 1` else `dividend`. -/
def computeDividendAPY_ref (dividend alphaOut alphaStake ownerCut : ℚ) : ℚ :=
  if alphaStake ≤ 0 ∨ alphaOut ≤ 0 ∨ dividend ≤ 0 then 0
  else
    let dividendShare := if dividend > 1 then dividend / 65535 else dividend
    dividendShare * alphaOut * (1 - ownerCut) * (0.5 : ℚ) * 2629800 / alphaStake * 100

/- ## API-era boundary detection
(`apps/metagraph/management/commands/collect_apy.py`) -/

/-- Outcome of one `get_metagraph_info` probe call: a non-`None` result,
a `None` result, or a raised exception. -/
inductive ProbeResult where
  | ok : ProbeResult
  | noResult : ProbeResult
  | err : ProbeResult
deriving DecidableEq

/-- `True` exactly when the probe call returned a non-`None` result
(the modern query "works"). -/
def probeOk (probe : Int → ProbeResult) (b : Int) : Bool :=
  match probe b with
  | .ok => true
  | _ => false

/-- The `while lo < hi` binary-search loop of `_detect_api_boundary`:
at each midpoint a successful modern query moves `hi` down to `mid`,
anything else moves `lo` up to `mid + 1`; returns `lo`.
Python `//` on ints is floor division, which `Int./` (`Int.ediv`) matches
for the positive divisor 2. -/
def searchBoundary (ok : Int → Bool) (lo hi : Int) : Int :=
  if h : lo < hi then
    if ok ((lo + hi) / 2) then searchBoundary ok lo ((lo + hi) / 2)
    else searchBoundary ok ((lo + hi) / 2 + 1) hi
  else lo
termination_by (hi - lo).toNat
decreasing_by
  · omega
  · omega

/-- `_detect_api_boundary` from `collect_apy.py`: probe `endBlock` (a `None`
result or an exception means the whole range is legacy, sentinel
`endBlock + 1`); probe `startBlock` (a non-`None` result means the whole
range is modern, `none`); otherwise binary-search the boundary. -/
def detect_api_boundary (probe : Int → ProbeResult) (startBlock endBlock : Int) : Option Int :=
  match probe endBlock with
  | .noResult => some (endBlock + 1)
  | .err => some (endBlock + 1)
  | .ok =>
    match probe startBlock with
    | .ok => none
    | _ => some (searchBoundary (probeOk probe) startBlock endBlock)

/-- The synthetic provider of the claim: the modern query succeeds exactly
at blocks `b ≥ B` and raises below. -/
def stepProbe (B b : Int) : ProbeResult :=
  if B ≤ b then .ok else .err

/- ## Epoch-fire block enumeration (`collect_apy.py` / `fast_backfill.py`) -/

/-- Fuel-driven enumeration of `start, start + step, ...` below `stop`.
For `step ≥ 1`, fuel `(stop - start).toNat` is always sufficient. -/
def rangeStepFuel : Nat → Int → Int → Int → List Int
  | 0, _, _, _ => []
  | n + 1, start, stop, step =>
    if start < stop then start :: rangeStepFuel n (start + step) stop step else []

/-- Python `list(range(start, stop, step))` for a positive `step`. -/
def rangeStep (start stop step : Int) : List Int :=
  if 0 < step then rangeStepFuel (stop - start).toNat start stop step else []

/-- `compute_epoch_blocks` from `collect_apy.py`: all blocks in
`[start, end]` with `(block + netuid + 1) % (tempo + 1) == 0`, enumerated
as `range(first, end + 1, period)` from the first such block. -/
def compute_epoch_blocks (netuid tempo start «end» : Int) : List Int :=
  let period := tempo + 1
  let remainder := (start + netuid + 1) % period
  let first := if remainder = 0 then start else start + (period - remainder)
  rangeStep first («end» + 1) period

/- ## APY sync service data model (`apps/metagraph/services/apy_sync_service.py`)

Django rows are modelled as structures held in per-table lists inside
`Store`; the autoincrement primary key is modelled by the shared `nextId`
counter.  `django.utils.timezone.now()` is modelled by an explicit
`now : Int` parameter.  `get_or_create` / `update_or_create` locate the
first row matching the natural key (the database uniqueness constraints
guarantee there is at most one), and a `.save()` on a fetched row is a
first-match in-place update (`updateFirst`). -/

/-- `TAO_TO_RAO` from `apy_sync_service.py`. -/
def TAO_TO_RAO : Int := 10 ^ 9

/-- `_to_rao`: `int(Decimal(str(v)) * TAO_TO_RAO)`.  Python `int()`
truncates toward zero, so this is the exact rational `v * 10^9`
truncated toward zero, computed on the reduced fraction `v.num / v.den`
as `(v.num * 10^9).tdiv v.den` (`Int.tdiv` is truncating division).
The `None ↦ 0` branch is omitted: every call site in this service
passes a number. -/
def to_rao (taoValue : ℚ) : Int :=
  (taoValue.num * TAO_TO_RAO).tdiv (taoValue.den : Int)

/-- A `Coldkey` row: `coldkey` is the unique address. -/
structure ColdkeyRow where
  id : Nat
  coldkey : String
deriving DecidableEq

/-- A `Hotkey` row: `hotkey` is the unique address; `coldkey_id` the
owning coldkey reference; `last_seen` a timestamp. -/
structure HotkeyRow where
  id : Nat
  hotkey : String
  coldkey_id : Nat
  last_seen : Int
deriving DecidableEq

/-- A `Neuron` row, unique per `(hotkey, subnet)`. -/
structure NeuronRow where
  id : Nat
  hotkey_id : Nat
  subnet_netuid : Int
  uid : Int
deriving DecidableEq

/-- A `Block` row keyed by `number`; nullable timestamp/provenance. -/
structure BlockRow where
  number : Int
  timestamp : Option Int
  dump_started_at : Option Int
  dump_finished_at : Option Int
deriving DecidableEq

/-- A `Subnet` row keyed by `netuid`. -/
structure SubnetRow where
  netuid : Int
  name : String
  alpha_out_emission : Int
deriving DecidableEq

/-- A `NeuronSnapshot` row, unique per `(neuron, block)`, with the fields
written by `_sync_neuron_snapshot`. -/
structure NeuronSnapshotRow where
  id : Nat
  neuron_id : Nat
  block_number : Int
  uid : Int
  total_stake : Int
  emissions : Int
  alpha_stake : Int
  dividend_apy : ℚ
  is_validator : Bool
  trust : ℚ
  rank : ℚ
  is_active : Bool
  axon_address : String
  normalized_stake : ℚ
  is_immune : Bool
  has_any_weights : Bool
deriving DecidableEq

/-- A `MechanismMetrics` row, unique per `(snapshot, mech_id)`. -/
structure MechanismMetricsRow where
  snapshot_id : Nat
  mech_id : Int
  dividend : ℚ
  incentive : ℚ
  consensus : ℚ
  validator_trust : ℚ
  weights_sum : ℚ
deriving DecidableEq

/-- A `MetagraphDump` row, unique per `(netuid, block)`. -/
structure MetagraphDumpRow where
  netuid : Int
  block_number : Int
  epoch_position : Option Int
  started_at : Int
  finished_at : Int
deriving DecidableEq

/-- The relational store the sync service writes to. -/
structure Store where
  coldkeys : List ColdkeyRow
  hotkeys : List HotkeyRow
  neurons : List NeuronRow
  blocks : List BlockRow
  subnets : List SubnetRow
  snapshots : List NeuronSnapshotRow
  mechanism_metrics : List MechanismMetricsRow
  dumps : List MetagraphDumpRow
  nextId : Nat
deriving DecidableEq

/-- The per-service-instance caches of `APYSyncService.__init__`:
address → row id maps, `(hotkey_id, subnet_netuid) → neuron id`, and the
set of hotkey ids awaiting the deferred `last_seen` bump. -/
structure Caches where
  coldkey_cache : List (String × Nat)
  hotkey_cache : List (String × Nat)
  neuron_cache : List ((Nat × Int) × Nat)
  hotkeys_to_update : List Nat
deriving DecidableEq

/-- Caches of a freshly constructed `APYSyncService`. -/
def emptyCaches : Caches := ⟨[], [], [], []⟩

/-- The `stats` counters returned by `sync_metagraph`. -/
structure SyncStats where
  coldkeys : Nat
  hotkeys : Nat
  neurons : Nat
  snapshots : Nat
  mechanism_metrics : Nat
deriving DecidableEq

/-- The zero-initialized `stats` dict. -/
def initStats : SyncStats := ⟨0, 0, 0, 0, 0⟩

/-- `DumpMetadata` from `apy_sync_service.py` (datetimes as `Int`). -/
structure DumpMetadata where
  netuid : Int
  epoch_position : String
  started_at : Int
  finished_at : Int
deriving DecidableEq

/-- The per-index data the neuron loop reads off the bittensor
`Metagraph` object.  The optional SDK attributes (`alpha_stake`,
`validator_permit`, `trust`, `ranks`, `active`, `dividends`, `incentive`)
are modelled as present, their documented normal case. -/
structure NeuronRec where
  uid : Int
  hotkey : String
  coldkey : String
  stake : ℚ
  emission : ℚ
  alpha_stake : ℚ
  validator_permit : Bool
  trust : ℚ
  rank : ℚ
  active : Bool
  dividend : ℚ
  incentive : ℚ
deriving DecidableEq

/-- One index of the metagraph arrays: either a well-formed record, or a
malformed one whose attribute conversion (`float(...)`, `int(...)`)
raises an exception carrying `msg`. -/
inductive NeuronInput where
  | valid (r : NeuronRec)
  | malformed (msg : String)
deriving DecidableEq

/-- `True` on a `malformed` entry. -/
def isMalformedInput : NeuronInput → Bool
  | .malformed _ => true
  | .valid _ => false

/-- The parts of the bittensor `Metagraph` object the service reads:
`netuid`, the per-uid arrays (one `NeuronInput` per index), and
`emissions.alpha_out_emission` (0.0 when the SDK attribute is absent,
mirroring `_get_alpha_out_emission`). -/
structure MetagraphInput where
  netuid : Int
  neurons : List NeuronInput
  alpha_out_emission : ℚ
deriving DecidableEq

/-- First row matching a coldkey address. -/
def findColdkey (l : List ColdkeyRow) (address : String) : Option ColdkeyRow :=
  l.find? (fun r => r.coldkey == address)

/-- First row matching a hotkey address. -/
def findHotkey (l : List HotkeyRow) (address : String) : Option HotkeyRow :=
  l.find? (fun r => r.hotkey == address)

/-- First neuron row matching `(hotkey_id, subnet_netuid)`. -/
def findNeuron (l : List NeuronRow) (hotkeyId : Nat) (netuid : Int) : Option NeuronRow :=
  l.find? (fun r => r.hotkey_id == hotkeyId && r.subnet_netuid == netuid)

/-- First block row matching `number`. -/
def findBlock (l : List BlockRow) (number : Int) : Option BlockRow :=
  l.find? (fun r => r.number == number)

/-- First subnet row matching `netuid`. -/
def findSubnet (l : List SubnetRow) (netuid : Int) : Option SubnetRow :=
  l.find? (fun r => r.netuid == netuid)

/-- First snapshot row matching `(neuron_id, block_number)`. -/
def findSnapshot (l : List NeuronSnapshotRow) (neuronId : Nat) (blockNumber : Int) :
    Option NeuronSnapshotRow :=
  l.find? (fun r => r.neuron_id == neuronId && r.block_number == blockNumber)

/-- First mechanism-metrics row matching `(snapshot_id, mech_id)`. -/
def findMechanism (l : List MechanismMetricsRow) (snapshotId : Nat) (mechId : Int) :
    Option MechanismMetricsRow :=
  l.find? (fun r => r.snapshot_id == snapshotId && r.mech_id == mechId)

/-- First dump row matching `(netuid, block_number)`. -/
def findDump (l : List MetagraphDumpRow) (netuid blockNumber : Int) :
    Option MetagraphDumpRow :=
  l.find? (fun r => r.netuid == netuid && r.block_number == blockNumber)

/-- Apply `f` to the first element satisfying `p` (a Django `.save()` on
the row fetched by a unique key). -/
def updateFirst (p : α → Bool) (f : α → α) : List α → List α
  | [] => []
  | x :: xs => if p x then f x :: xs else x :: updateFirst p f xs

/-- Python `set.add` on the modelled id set. -/
def addId (i : Nat) (l : List Nat) : List Nat :=
  if l.contains i then l else i :: l

/-- `_get_or_create_coldkey`: cache hit, else `get_or_create` keyed by the
address; returns the coldkey id. -/
def getOrCreateColdkey (address : String) (σ : Store) (c : Caches) :
    Store × Caches × Nat :=
  match c.coldkey_cache.lookup address with
  | some i => (σ, c, i)
  | none =>
    match findColdkey σ.coldkeys address with
    | some row =>
      (σ, { c with coldkey_cache := (address, row.id) :: c.coldkey_cache }, row.id)
    | none =>
      let row : ColdkeyRow := ⟨σ.nextId, address⟩
      ({ σ with coldkeys := σ.coldkeys ++ [row], nextId := σ.nextId + 1 },
       { c with coldkey_cache := (address, row.id) :: c.coldkey_cache }, row.id)

/-- `_get_or_create_hotkey`: cache hit marks the hotkey for the deferred
`last_seen` bump; otherwise `get_or_create` keyed by the address, with a
coldkey re-link (`.save(update_fields=["coldkey"])`) when an existing
hotkey is linked to a different coldkey.  Newly created hotkeys get
`last_seen = now` and are not marked. -/
def getOrCreateHotkey (address coldkeyAddress : String) (now : Int) (σ : Store) (c : Caches) :
    Store × Caches × Nat :=
  match c.hotkey_cache.lookup address with
  | some i => (σ, { c with hotkeys_to_update := addId i c.hotkeys_to_update }, i)
  | none =>
    let (σ₁, c₁, ckId) := getOrCreateColdkey coldkeyAddress σ c
    match findHotkey σ₁.hotkeys address with
    | some row =>
      let σ₂ := if row.coldkey_id ≠ ckId then
          { σ₁ with hotkeys := (updateFirst (fun h => h.hotkey == address)
              (fun h => { h with coldkey_id := ckId }) σ₁.hotkeys) }
        else σ₁
      (σ₂,
       { c₁ with hotkey_cache := (address, row.id) :: c₁.hotkey_cache,
                 hotkeys_to_update := addId row.id c₁.hotkeys_to_update }, row.id)
    | none =>
      let row : HotkeyRow := ⟨σ₁.nextId, address, ckId, now⟩
      ({ σ₁ with hotkeys := σ₁.hotkeys ++ [row], nextId := σ₁.nextId + 1 },
       { c₁ with hotkey_cache := (address, row.id) :: c₁.hotkey_cache }, row.id)

/-- `_flush_hotkey_last_seen`: one bulk `UPDATE ... SET last_seen = now`
over the marked hotkey ids, then clear the set; returns the number of
matched rows. -/
def flushHotkeyLastSeen (now : Int) (σ : Store) (c : Caches) : Store × Caches × Nat :=
  if c.hotkeys_to_update.isEmpty then (σ, c, 0)
  else
    let touched := c.hotkeys_to_update
    let σ' := { σ with hotkeys := (σ.hotkeys.map
        (fun h => if touched.contains h.id then { h with last_seen := now } else h)) }
    let count := (σ.hotkeys.filter (fun h => touched.contains h.id)).length
    (σ', { c with hotkeys_to_update := [] }, count)

/-- `_sync_block`: `get_or_create` keyed by `number`, then fill-missing-only
updates, saved only when some field actually fills.  The metadata
datetimes are always present, so their Python truthiness checks hold. -/
def syncBlock (blockNumber : Int) (blockTimestamp : Option Int) (dm : DumpMetadata)
    (σ : Store) : Store :=
  match findBlock σ.blocks blockNumber with
  | none =>
    { σ with blocks := σ.blocks ++
        [⟨blockNumber, blockTimestamp, some dm.started_at, some dm.finished_at⟩] }
  | some row =>
    let updTimestamp := blockTimestamp.isSome && row.timestamp.isNone
    let updStarted := row.dump_started_at.isNone
    let updFinished := row.dump_finished_at.isNone
    if updTimestamp || updStarted || updFinished then
      { σ with blocks := (updateFirst (fun b => b.number == blockNumber)
          (fun b =>
            { b with
              timestamp := if updTimestamp then blockTimestamp else b.timestamp,
              dump_started_at :=
                if updStarted then some dm.started_at else b.dump_started_at,
              dump_finished_at :=
                if updFinished then some dm.finished_at else b.dump_finished_at })
          σ.blocks) }
    else σ

/-- `_sync_subnet`: `get_or_create` keyed by `netuid` with defaults
`name = "Subnet {netuid}"` and the rao emission; on an existing row the
emission is re-saved whenever `alpha_out_emission > 0`. -/
def syncSubnet (netuid : Int) (alphaOutEmission : ℚ) (σ : Store) : Store :=
  match findSubnet σ.subnets netuid with
  | none =>
    { σ with subnets := σ.subnets ++
        [⟨netuid, "Subnet " ++ toString netuid, to_rao alphaOutEmission⟩] }
  | some _ =>
    if alphaOutEmission > 0 then
      { σ with subnets := (updateFirst (fun s => s.netuid == netuid)
          (fun s => { s with alpha_out_emission := to_rao alphaOutEmission }) σ.subnets) }
    else σ

/-- `_sync_neuron`: neuron-cache hit returns the cached id unchanged
(note: without any uid check); otherwise `get_or_create` keyed by
`(hotkey, subnet)` followed by a uid update when the stored uid differs
from the observed one.  Returns the neuron id. -/
def syncNeuron (hotkeyId : Nat) (netuid : Int) (uid : Int) (σ : Store) (c : Caches) :
    Store × Caches × Nat :=
  match c.neuron_cache.lookup (hotkeyId, netuid) with
  | some i => (σ, c, i)
  | none =>
    match findNeuron σ.neurons hotkeyId netuid with
    | some row =>
      let σ' := if row.uid ≠ uid then
          { σ with neurons := (updateFirst
              (fun n => n.hotkey_id == hotkeyId && n.subnet_netuid == netuid)
              (fun n => { n with uid := uid }) σ.neurons) }
        else σ
      (σ', { c with neuron_cache := ((hotkeyId, netuid), row.id) :: c.neuron_cache },
       row.id)
    | none =>
      let row : NeuronRow := ⟨σ.nextId, hotkeyId, netuid, uid⟩
      ({ σ with neurons := σ.neurons ++ [row], nextId := σ.nextId + 1 },
       { c with neuron_cache := ((hotkeyId, netuid), row.id) :: c.neuron_cache },
       row.id)

/-- The `defaults` row written by `_sync_neuron_snapshot`'s
`update_or_create` (identity `id` aside). -/
def snapshotDefaults (id neuronId : Nat) (blockNumber uid : Int)
    (totalStake emissions alphaStake dividendApy : ℚ) (isValidator : Bool)
    (trust rank : ℚ) (isActive : Bool) : NeuronSnapshotRow :=
  ⟨id, neuronId, blockNumber, uid, to_rao totalStake, to_rao emissions,
   to_rao alphaStake, dividendApy, isValidator, trust, rank, isActive,
   "", 0, false, false⟩

/-- `_sync_neuron_snapshot`: `update_or_create` keyed by
`(neuron, block)`; returns the snapshot id. -/
def syncNeuronSnapshot (neuronId : Nat) (blockNumber uid : Int)
    (totalStake emissions alphaStake dividendApy : ℚ) (isValidator : Bool)
    (trust rank : ℚ) (isActive : Bool) (σ : Store) : Store × Nat :=
  match findSnapshot σ.snapshots neuronId blockNumber with
  | some row =>
    ({ σ with snapshots := (updateFirst
        (fun s => s.neuron_id == neuronId && s.block_number == blockNumber)
        (fun s => snapshotDefaults s.id neuronId blockNumber uid totalStake emissions
            alphaStake dividendApy isValidator trust rank isActive) σ.snapshots) },
     row.id)
  | none =>
    let row := snapshotDefaults σ.nextId neuronId blockNumber uid totalStake emissions
        alphaStake dividendApy isValidator trust rank isActive
    ({ σ with snapshots := σ.snapshots ++ [row], nextId := σ.nextId + 1 }, row.id)

/-- `_sync_mechanism_metrics` of the APY service: `update_or_create`
keyed by `(snapshot, mech_id)` (the call site passes `mech_id = 0`) with
dividend/incentive and zeroed remaining fields. -/
def syncMechanismMetrics (snapshotId : Nat) (mechId : Int) (dividend incentive : ℚ)
    (σ : Store) : Store :=
  let defaults : MechanismMetricsRow :=
    ⟨snapshotId, mechId, dividend, incentive, 0, 0, 0⟩
  match findMechanism σ.mechanism_metrics snapshotId mechId with
  | some _ =>
    { σ with mechanism_metrics := (updateFirst
        (fun m => m.snapshot_id == snapshotId && m.mech_id == mechId)
        (fun _ => defaults) σ.mechanism_metrics) }
  | none =>
    { σ with mechanism_metrics := σ.mechanism_metrics ++ [defaults] }

/-- The `epoch_position_map.get(...)` of `_sync_metagraph_dump`. -/
def epochPositionCode (s : String) : Option Int :=
  if s == "start" then some 0
  else if s == "inside" then some 1
  else if s == "end" then some 2
  else none

/-- `_sync_metagraph_dump`: `update_or_create` keyed by `(netuid, block)`. -/
def syncMetagraphDump (dm : DumpMetadata) (blockNumber : Int) (σ : Store) : Store :=
  let defaults : MetagraphDumpRow :=
    ⟨dm.netuid, blockNumber, epochPositionCode dm.epoch_position,
     dm.started_at, dm.finished_at⟩
  match findDump σ.dumps dm.netuid blockNumber with
  | some _ =>
    { σ with dumps := (updateFirst
        (fun d => d.netuid == dm.netuid && d.block_number == blockNumber)
        (fun _ => defaults) σ.dumps) }
  | none => { σ with dumps := σ.dumps ++ [defaults] }

/-- One iteration of the neuron loop of `sync_metagraph` on a well-formed
record: skip non-validators; compute the dividend APY; resolve
coldkey/hotkey/neuron through the caches; upsert the snapshot; upsert
mechanism metrics only when `dividend > 0 or incentive > 0`. -/
def processNeuron (netuid : Int) (alphaOutEmission ownerCut : ℚ) (blockNumber now : Int)
    (r : NeuronRec) (acc : Store × Caches × SyncStats) : Store × Caches × SyncStats :=
  let (σ, c, st) := acc
  if !r.validator_permit then acc
  else
    let dividendApy := compute_dividend_apy r.dividend alphaOutEmission r.alpha_stake ownerCut
    let s₁ := getOrCreateColdkey r.coldkey σ c
    let s₂ := getOrCreateHotkey r.hotkey r.coldkey now s₁.1 s₁.2.1
    let s₃ := syncNeuron s₂.2.2 netuid r.uid s₂.1 s₂.2.1
    let s₄ := syncNeuronSnapshot s₃.2.2 blockNumber r.uid r.stake r.emission r.alpha_stake
        dividendApy r.validator_permit r.trust r.rank r.active s₃.1
    let σ₅ := if r.dividend > 0 ∨ r.incentive > 0 then
        syncMechanismMetrics s₄.2 0 r.dividend r.incentive s₄.1
      else s₄.1
    (σ₅, s₃.2.1,
     { coldkeys := st.coldkeys + 1, hotkeys := st.hotkeys + 1,
       neurons := st.neurons + 1, snapshots := st.snapshots + 1,
       mechanism_metrics := st.mechanism_metrics +
         (if r.dividend > 0 ∨ r.incentive > 0 then 1 else 0) })

/-- The neuron loop.  A `malformed` entry aborts the loop at its index
with the exception it raises, returning the mutations made so far. -/
def processNeurons (netuid : Int) (alphaOutEmission ownerCut : ℚ) (blockNumber now : Int) :
    List NeuronInput → Store × Caches × SyncStats →
      (Store × Caches × SyncStats) × Option String
  | [], acc => (acc, none)
  | .valid r :: rest, acc =>
    processNeurons netuid alphaOutEmission ownerCut blockNumber now rest
      (processNeuron netuid alphaOutEmission ownerCut blockNumber now r acc)
  | .malformed msg :: _, acc => (acc, some msg)

/-- The suite inside `with transaction.atomic():` of
`APYSyncService.sync_metagraph`: sync block, subnet, the neuron loop,
the dump record, then the bulk `last_seen` flush.  An exception skips
the remaining steps; the uncommitted mutations and the error are
returned for the transaction wrapper to dispose of. -/
def syncMetagraphBody (mg : MetagraphInput) (blockNumber : Int) (blockTimestamp : Option Int)
    (dm : DumpMetadata) (ownerCut : ℚ) (now : Int) (σ : Store) (c : Caches) :
    (Store × Caches × SyncStats) × Option String :=
  let σ₁ := syncBlock blockNumber blockTimestamp dm σ
  let σ₂ := syncSubnet mg.netuid mg.alpha_out_emission σ₁
  match processNeurons mg.netuid mg.alpha_out_emission ownerCut blockNumber now
      mg.neurons (σ₂, c, initStats) with
  | (acc, some msg) => (acc, some msg)
  | ((σ₃, c₃, st), none) =>
    let σ₄ := syncMetagraphDump dm blockNumber σ₃
    let s₅ := flushHotkeyLastSeen now σ₄ c₃
    ((s₅.1, s₅.2.1, st), none)

/-- `APYSyncService.sync_metagraph`: the body runs inside one
`transaction.atomic()` block.  On success the mutated store, caches and
stats are returned; on an exception every database write of the body is
rolled back (the caller observes the pre-call store), the in-memory
caches keep their mutations (they are Python object state, not database
state), and the exception propagates as `.error`. -/
def sync_metagraph (mg : MetagraphInput) (blockNumber : Int) (blockTimestamp : Option Int)
    (dm : DumpMetadata) (ownerCut : ℚ) (now : Int) (σ : Store) (c : Caches) :
    (Store × Caches) × Except String SyncStats :=
  match syncMetagraphBody mg blockNumber blockTimestamp dm ownerCut now σ c with
  | ((σ', c', st), none) => ((σ', c'), .ok st)
  | ((_, c', _), some msg) => ((σ, c'), .error msg)

/- ## Batch task model (`apps/metagraph/tasks.py`, `fast_apy_sync_batch`) -/

/-- `_get_epoch_position_str` from `tasks.py`. -/
def get_epoch_position_str (blockNumber netuid tempo : Int) (numDumps : Nat) : String :=
  let epoch := get_epoch_containing_block blockNumber netuid tempo
  let dumpable := get_dumpable_blocks epoch.start tempo numDumps
  if dumpable.head? == some blockNumber then "start"
  else if dumpable.getLast? == some blockNumber then "end"
  else "inside"

/-- Outcome of `_get_metagraph_with_fallback` for one `(block, netuid)`
item: a metagraph, `None`, or a raised exception. -/
inductive FetchOutcome where
  | fetched (mg : MetagraphInput)
  | missing
  | raised (msg : String)
deriving DecidableEq

/-- One entry of the `blocks` argument of `fast_apy_sync_batch`,
bundled with what the chain fetch for it does. -/
structure BatchItem where
  block_number : Int
  netuid : Int
  fetch : FetchOutcome
deriving DecidableEq

/-- The `status` field of a per-item `results` entry. -/
inductive ItemStatus where
  | success
  | no_data
  | error
deriving DecidableEq

/-- The aggregate report of `fast_apy_sync_batch`. -/
structure BatchResult where
  total_blocks : Nat
  processed : Nat
  errors : Nat
  statuses : List ItemStatus
deriving DecidableEq

/-- The status `fast_apy_sync_batch` assigns to an item, read off the
item alone: a fetch exception or a sync exception (a malformed record)
is an `error`; a `None` or empty metagraph is `no_data`; otherwise
`success`.  Which case applies is independent of the store. -/
def itemOutcome (it : BatchItem) : ItemStatus :=
  match it.fetch with
  | .raised _ => .error
  | .missing => .no_data
  | .fetched mg =>
    if mg.neurons.isEmpty then .no_data
    else if mg.neurons.any isMalformedInput then .error
    else .success

/-- One iteration of the `for block_number, netuid in blocks:` loop:
the per-item `try/except` catches fetch and sync exceptions, records an
error result and continues; `None`/empty metagraphs record `no_data`;
otherwise the item is synced (its transaction committing independently)
and `processed` incremented. -/
def processBatchItem (tempo : Int) (numDumps : Nat) (ownerCut : ℚ) (now : Int)
    (acc : Store × Caches × BatchResult) (it : BatchItem) : Store × Caches × BatchResult :=
  let (σ, c, res) := acc
  match it.fetch with
  | .raised _ =>
    (σ, c, { res with errors := res.errors + 1, statuses := res.statuses ++ [.error] })
  | .missing =>
    (σ, c, { res with statuses := res.statuses ++ [.no_data] })
  | .fetched mg =>
    if mg.neurons.isEmpty then
      (σ, c, { res with statuses := res.statuses ++ [.no_data] })
    else
      let dm : DumpMetadata :=
        ⟨it.netuid, get_epoch_position_str it.block_number it.netuid tempo numDumps, now, now⟩
      match sync_metagraph mg it.block_number none dm ownerCut now σ c with
      | ((σ', c'), .ok _) =>
        (σ', c', { res with processed := res.processed + 1,
                            statuses := res.statuses ++ [.success] })
      | ((σ', c'), .error _) =>
        (σ', c', { res with errors := res.errors + 1,
                            statuses := res.statuses ++ [.error] })

/-- `fast_apy_sync_batch`: one `APYSyncService` instance (one `Caches`)
is shared across the whole batch; items are processed sequentially and
each non-failing item's transaction commits durably. -/
def fast_apy_sync_batch (tempo : Int) (numDumps : Nat) (ownerCut : ℚ) (now : Int)
    (blocks : List BatchItem) (σ : Store) : Store × BatchResult :=
  let init : Store × Caches × BatchResult := (σ, emptyCaches, ⟨blocks.length, 0, 0, []⟩)
  let out := blocks.foldl (processBatchItem tempo numDumps ownerCut now) init
  (out.1, out.2.2)

/- ## Full-sync mechanism step (`apps/metagraph/services/sync_service.py`) -/

/-- The `mech_data` dict fields read by
`MetagraphSyncService._sync_mechanism_metrics`. -/
structure MechDataInput where
  mech_id : Int
  incentive : ℚ
  dividend : ℚ
  consensus : ℚ
  validator_trust : ℚ
  weights_sum : ℚ
  last_update : Option Int
deriving DecidableEq

/-- A full-sync `MechanismMetrics` row (the full-sync service also writes
`last_update`). -/
structure FullMechanismMetricsRow where
  snapshot_id : Nat
  mech_id : Int
  incentive : ℚ
  dividend : ℚ
  consensus : ℚ
  validator_trust : ℚ
  weights_sum : ℚ
  last_update : Option Int
deriving DecidableEq

/-- `MetagraphSyncService._sync_mechanism_metrics` (sync_service.py):
`update_or_create` keyed by `(snapshot, mech_id)` with all observed
values as defaults — with no dividend/incentive guard. -/
def full_sync_mechanism_metrics (m : MechDataInput) (snapshotId : Nat)
    (mechs : List FullMechanismMetricsRow) : List FullMechanismMetricsRow :=
  let defaults : FullMechanismMetricsRow :=
    ⟨snapshotId, m.mech_id, m.incentive, m.dividend, m.consensus, m.validator_trust,
     m.weights_sum, m.last_update⟩
  match mechs.find? (fun x => x.snapshot_id == snapshotId && x.mech_id == m.mech_id) with
  | some _ =>
    updateFirst (fun x => x.snapshot_id == snapshotId && x.mech_id == m.mech_id)
      (fun _ => defaults) mechs
  | none => mechs ++ [defaults]

/-- The `for mech_data in mechanisms:` loop of
`MetagraphSyncService.sync_metagraph` (step 3, lines 163-167): every
mechanism entry present in the input neuron record is persisted,
zero-valued ones included. -/
def full_sync_mechanisms_step (mechanisms : List MechDataInput) (snapshotId : Nat)
    (mechs : List FullMechanismMetricsRow) : List FullMechanismMetricsRow :=
  mechanisms.foldl (fun acc m => full_sync_mechanism_metrics m snapshotId acc) mechs

/- ## Well-formedness and settledness predicates -/

/-- The store with no rows (a fresh database). -/
def emptyStore : Store := ⟨[], [], [], [], [], [], [], [], 0⟩

/-- The id discipline the database schema enforces: every primary key is
below the autoincrement counter, primary keys are unique per table, and
the `Neuron` table's unique constraint on `(hotkey, subnet)` holds. -/
structure StoreWF (σ : Store) : Prop where
  coldkey_lt : ∀ r ∈ σ.coldkeys, r.id < σ.nextId
  hotkey_lt : ∀ r ∈ σ.hotkeys, r.id < σ.nextId
  neuron_lt : ∀ r ∈ σ.neurons, r.id < σ.nextId
  snapshot_lt : ∀ r ∈ σ.snapshots, r.id < σ.nextId
  hotkey_nodup : (σ.hotkeys.map (fun r => r.id)).Nodup
  neuron_nodup : (σ.neurons.map (fun r => r.id)).Nodup
  snapshot_nodup : (σ.snapshots.map (fun r => r.id)).Nodup
  neuron_key_nodup : (σ.neurons.map (fun r => (r.hotkey_id, r.subnet_netuid))).Nodup

/-- Every cache entry points at the first row bearing its key. -/
structure CachesConsistent (σ : Store) (c : Caches) : Prop where
  coldkey_ok : ∀ p ∈ c.coldkey_cache,
    ∃ row, findColdkey σ.coldkeys p.1 = some row ∧ row.id = p.2
  hotkey_ok : ∀ p ∈ c.hotkey_cache,
    ∃ row, findHotkey σ.hotkeys p.1 = some row ∧ row.id = p.2
  neuron_ok : ∀ p ∈ c.neuron_cache,
    ∃ row, findNeuron σ.neurons p.1.1 p.1.2 = some row ∧ row.id = p.2

/-- The store already holds, for a validator record `r`, exactly the rows
a sync of `r` would write (re-processing `r` therefore writes nothing).
The hotkey's `last_seen` is either already `now` or its id is in the
pending bulk-update set `touched`. -/
def RecSettled (netuid : Int) (alphaOut ownerCut : ℚ) (blockNumber now : Int)
    (touched : List Nat) (r : NeuronRec) (σ : Store) : Prop :=
  r.validator_permit = true →
  ∃ ck hk n s,
    findColdkey σ.coldkeys r.coldkey = some ck ∧
    findHotkey σ.hotkeys r.hotkey = some hk ∧
    hk.coldkey_id = ck.id ∧
    (touched.contains hk.id = true ∨ hk.last_seen = now) ∧
    findNeuron σ.neurons hk.id netuid = some n ∧ n.uid = r.uid ∧
    findSnapshot σ.snapshots n.id blockNumber = some s ∧
    s = snapshotDefaults s.id n.id blockNumber r.uid r.stake r.emission r.alpha_stake
        (compute_dividend_apy r.dividend alphaOut r.alpha_stake ownerCut)
        r.validator_permit r.trust r.rank r.active ∧
    ((r.dividend > 0 ∨ r.incentive > 0) →
      ∃ m, findMechanism σ.mechanism_metrics s.id 0 = some m ∧
        m = ⟨s.id, 0, r.dividend, r.incentive, 0, 0, 0⟩)

/-- The block row for `blockNumber` exists with all fillable fields
already filled (as far as the inputs can fill them). -/
def BlockSettled (blockNumber : Int) (blockTimestamp : Option Int) (σ : Store) : Prop :=
  ∃ b, findBlock σ.blocks blockNumber = some b ∧
    (blockTimestamp.isSome → b.timestamp.isSome) ∧
    b.dump_started_at.isSome ∧ b.dump_finished_at.isSome

/-- The subnet row exists and already carries the rao emission a re-sync
would write. -/
def SubnetSettled (netuid : Int) (alphaOut : ℚ) (σ : Store) : Prop :=
  ∃ s, findSubnet σ.subnets netuid = some s ∧
    (alphaOut > 0 → s.alpha_out_emission = to_rao alphaOut)

/-- The dump row exists with exactly the values a re-sync would write. -/
def DumpSettled (dm : DumpMetadata) (blockNumber : Int) (σ : Store) : Prop :=
  findDump σ.dumps dm.netuid blockNumber =
    some ⟨dm.netuid, blockNumber, epochPositionCode dm.epoch_position,
          dm.started_at, dm.finished_at⟩

/-- The hotkey address carried by a loop entry, when well-formed. -/
def inputAddr : NeuronInput → Option String
  | .valid r => some r.hotkey
  | .malformed _ => none

/-- Every id in the pending bulk-update set belongs to hotkey rows whose
`last_seen` is already `now` (so the bulk update would write nothing). -/
def TouchedFresh (now : Int) (σ : Store) (c : Caches) : Prop :=
  ∀ i ∈ c.hotkeys_to_update, ∀ row ∈ σ.hotkeys, row.id = i → row.last_seen = now

/-- Invariant carried by the neuron loop of a fresh-instance run: the id
discipline holds, the caches agree with the store, every cache key was
put there by an already-processed record, and every processed record is
already settled up to the pending `last_seen` bulk update. -/
def LoopInv (netuid : Int) (alphaOut ownerCut : ℚ) (blockNumber now : Int)
    (done : List NeuronRec) (σ : Store) (c : Caches) : Prop :=
  StoreWF σ ∧ CachesConsistent σ c ∧
  (∀ p ∈ c.hotkey_cache, ∃ r ∈ done, p.1 = r.hotkey) ∧
  (∀ q ∈ c.neuron_cache, ∃ r ∈ done, ∃ hrow ∈ σ.hotkeys,
      hrow.hotkey = r.hotkey ∧ hrow.id = q.1.1) ∧
  (∀ r ∈ done,
      RecSettled netuid alphaOut ownerCut blockNumber now c.hotkeys_to_update r σ)

/- ## Concrete scenarios used by counterexamples and witnesses -/

/-- A minimal validator record: hotkey `"hk1"` on coldkey `"ck1"`,
observed at uid 7, with unit stake and zero dividend/incentive. -/
def c7Record1 : NeuronRec :=
  ⟨7, "hk1", "ck1", 1, 0, 1, true, 0, 0, true, 0, 0⟩

/-- The same hotkey observed at uid 9. -/
def c7Record2 : NeuronRec :=
  { c7Record1 with uid := 9 }

/-- Snapshot of subnet 3 at the first batch block: `"hk1"` at uid 7. -/
def c7Mg1 : MetagraphInput := ⟨3, [.valid c7Record1], 0⟩

/-- Snapshot of subnet 3 at a later batch block: `"hk1"` at uid 9. -/
def c7Mg2 : MetagraphInput := ⟨3, [.valid c7Record2], 0⟩

/-- Dump metadata for the scenario. -/
def c7Dm : DumpMetadata := ⟨3, "inside", 0, 0⟩

/-- First sync performed by a batch task's shared service instance. -/
def c7Run1 : (Store × Caches) × Except String SyncStats :=
  sync_metagraph c7Mg1 100 none c7Dm 0 0 emptyStore emptyCaches

/-- Second sync at a later block, reusing the same instance's caches, as
`fast_apy_sync_batch` does. -/
def c7Run2 : (Store × Caches) × Except String SyncStats :=
  sync_metagraph c7Mg2 200 none c7Dm 0 0 c7Run1.1.1 c7Run1.1.2

/-- A well-formed validator record for the atomicity scenario. -/
def c2Rec : NeuronRec := ⟨0, "h", "c", 0, 0, 0, true, 0, 0, true, 0, 0⟩

/-- A snapshot whose first record is fine and whose second raises. -/
def c2Mg : MetagraphInput := ⟨5, [.valid c2Rec, .malformed "boom"], 0⟩

/-- Dump metadata for the atomicity scenario. -/
def c2Dm : DumpMetadata := ⟨5, "start", 0, 0⟩

/-- A well-formed validator record for the batch scenario. -/
def c8Rec : NeuronRec := ⟨0, "w", "k", 0, 0, 0, true, 0, 0, true, 0, 0⟩

/-- A healthy batch item for `(netuid, block)`. -/
def c8Item (nu b : Int) : BatchItem := ⟨b, nu, .fetched ⟨nu, [.valid c8Rec], 0⟩⟩

/-- The failing third item: its snapshot raises a data-integrity error. -/
def c8Bad : BatchItem := ⟨103, 3, .fetched ⟨3, [.malformed "integrity"], 0⟩⟩

/-- A batch of five items whose third raises. -/
def c8Items : List BatchItem :=
  [c8Item 1 101, c8Item 2 102, c8Bad, c8Item 4 104, c8Item 5 105]

/- ## Helper lemmas: range enumeration -/

theorem rangeStepFuel_mem (step : Int) (hs : 0 < step) :
    ∀ (n : Nat) (start stop b : Int), (stop - start).toNat ≤ n →
      (b ∈ rangeStepFuel n start stop step ↔
        (start ≤ b ∧ b < stop ∧ (b - start) % step = 0)) := by
  intro n
  induction n with
  | zero =>
    intro start stop b h
    simp only [rangeStepFuel, List.not_mem_nil, false_iff]
    intro hc
    omega
  | succ n ih =>
    intro start stop b h
    simp only [rangeStepFuel]
    by_cases hlt : start < stop
    · rw [if_pos hlt]
      have hrec := ih (start + step) stop b (by omega)
      simp only [List.mem_cons, hrec]
      constructor
      · rintro (rfl | ⟨h1, h2, h3⟩)
        · exact ⟨le_refl _, hlt, by simp⟩
        · refine ⟨by omega, h2, ?_⟩
          have e : b - start = b - (start + step) + step * 1 := by ring
          rw [e, Int.add_mul_emod_self_left]
          exact h3
      · rintro ⟨h1, h2, h3⟩
        by_cases hb : b = start
        · exact Or.inl hb
        · have hd : step ∣ (b - start) := Int.dvd_of_emod_eq_zero h3
          have hge : step ≤ b - start := Int.le_of_dvd (by omega) hd
          refine Or.inr ⟨by omega, h2, ?_⟩
          have e : b - (start + step) = b - start + step * (-1) := by ring
          rw [e, Int.add_mul_emod_self_left]
          exact h3
    · rw [if_neg hlt]
      simp only [List.not_mem_nil, false_iff]
      intro hc
      omega

theorem rangeStep_mem (start stop step b : Int) (hs : 0 < step) :
    b ∈ rangeStep start stop step ↔ (start ≤ b ∧ b < stop ∧ (b - start) % step = 0) := by
  unfold rangeStep
  rw [if_pos hs]
  exact rangeStepFuel_mem step hs _ start stop b (le_refl _)

theorem compute_epoch_blocks_mem (netuid tempo start endB b : Int) (ht : 0 < tempo) :
    b ∈ compute_epoch_blocks netuid tempo start endB ↔
      (start ≤ b ∧ b ≤ endB ∧ (b + netuid + 1) % (tempo + 1) = 0) := by
  have hppos : (0 : Int) < tempo + 1 := by omega
  have h0 : 0 ≤ (start + netuid + 1) % (tempo + 1) := Int.emod_nonneg _ (by omega)
  have h1 : (start + netuid + 1) % (tempo + 1) < tempo + 1 := Int.emod_lt_of_pos _ hppos
  have hdvd : (tempo + 1) ∣ (start + netuid + 1 - (start + netuid + 1) % (tempo + 1)) := by
    have hed := Int.emod_add_ediv (start + netuid + 1) (tempo + 1)
    exact ⟨(start + netuid + 1) / (tempo + 1), by linarith⟩
  simp only [compute_epoch_blocks]
  set r := (start + netuid + 1) % (tempo + 1) with hrdef
  set first := if r = 0 then start else start + (tempo + 1 - r) with hfdef
  have hb1 : start ≤ first ∧ first < start + (tempo + 1) := by
    rw [hfdef]; split <;> omega
  have hfmod : (tempo + 1) ∣ (first + netuid + 1) := by
    rw [hfdef]
    split
    · rename_i hz
      rw [hz, sub_zero] at hdvd
      exact hdvd
    · have e : start + (tempo + 1 - r) + netuid + 1 =
          (start + netuid + 1 - r) + (tempo + 1) := by ring
      rw [e]
      exact dvd_add hdvd (dvd_refl _)
  rw [rangeStep_mem _ _ _ _ hppos]
  constructor
  · rintro ⟨hm1, hm2, hm3⟩
    have hd1 : (tempo + 1) ∣ (b - first) := Int.dvd_of_emod_eq_zero hm3
    refine ⟨by omega, by omega, Int.emod_eq_zero_of_dvd ?_⟩
    have e : b + netuid + 1 = (b - first) + (first + netuid + 1) := by ring
    rw [e]
    exact dvd_add hd1 hfmod
  · rintro ⟨hm1, hm2, hm3⟩
    have hd3 : (tempo + 1) ∣ (b + netuid + 1) := Int.dvd_of_emod_eq_zero hm3
    have hdb : (tempo + 1) ∣ (first - b) := by
      have e : first - b = (first + netuid + 1) - (b + netuid + 1) := by ring
      rw [e]
      exact dvd_sub hfmod hd3
    have hfb : first ≤ b := by
      by_contra hcon
      push_neg at hcon
      have : (tempo + 1) ≤ first - b := Int.le_of_dvd (by omega) hdb
      omega
    refine ⟨hfb, by omega, ?_⟩
    refine Int.emod_eq_zero_of_dvd ?_
    have e : b - first = -(first - b) := by ring
    rw [e]
    exact (dvd_neg).mpr hdb

/- ## Claim theorems: pure arithmetic -/

/-- Claim C3: `computeDividendAPY` equals the reference definition written
from the spec: 0 on the guard `alphaStake ≤ 0 ∨ alphaOut ≤ 0 ∨ dividend ≤ 0`,
otherwise `dividendShare * alphaOut * (1 - ownerCut) * 0.5 * 2629800 /
alphaStake * 100` with u16 normalization of `dividend` when it exceeds 1. -/
theorem compute_dividend_apy_eq_ref (d a s o : ℚ) :
    compute_dividend_apy d a s o = computeDividendAPY_ref d a s o := by
  unfold compute_dividend_apy computeDividendAPY_ref BLOCKS_PER_YEAR
  rfl

/-- Claim C4: for `block ≥ 0`, `netuid ≥ 0`, `tempo > 0`, the half-open
range of `get_epoch_containing_block` has length `tempo + 1` and contains
`block`. -/
theorem epoch_containing_block_correct (block netuid tempo : Int)
    (hb : 0 ≤ block) (hn : 0 ≤ netuid) (ht : 0 < tempo) :
    ((get_epoch_containing_block block netuid tempo).stop -
        (get_epoch_containing_block block netuid tempo).start = tempo + 1) ∧
    (get_epoch_containing_block block netuid tempo).start ≤ block ∧
    block < (get_epoch_containing_block block netuid tempo).start + (tempo + 1) := by
  have hppos : (0 : Int) < tempo + 1 := by omega
  have h0 : 0 ≤ (block + netuid + 2) % (tempo + 1) := Int.emod_nonneg _ (by omega)
  have h1 : (block + netuid + 2) % (tempo + 1) < tempo + 1 := Int.emod_lt_of_pos _ hppos
  simp only [get_epoch_containing_block, get_next_epoch_block, get_blocks_until_next_epoch,
    block_index_in_epoch, get_epoch_duration]
  generalize hg : (block + netuid + 2) % (tempo + 1) = idx at h0 h1 ⊢
  by_cases hz : idx = 0
  · rw [if_pos hz, if_pos rfl]
    refine ⟨by ring, by omega, by omega⟩
  · rw [if_neg hz, if_neg (show ¬(tempo + 1 - idx = 0) by omega)]
    refine ⟨by ring, by omega, by omega⟩

/-- Claim C4 witness: instantiation at `block = 1000`, `netuid = 1`,
`tempo = 360`. -/
theorem epoch_containing_block_correct_witness :
    ((get_epoch_containing_block 1000 1 360).stop -
        (get_epoch_containing_block 1000 1 360).start = 360 + 1) ∧
    (get_epoch_containing_block 1000 1 360).start ≤ 1000 ∧
    1000 < (get_epoch_containing_block 1000 1 360).start + (360 + 1) :=
  epoch_containing_block_correct 1000 1 360 (by norm_num) (by norm_num) (by norm_num)

/-- Claim C5: for every epoch and `numDumps ≥ 1` the dumpable blocks
contain the end-of-epoch block `epoch.start + tempo`; for `tempo = 360`,
`numDumps = 3`, epoch start 1000 they are exactly
`[1000, 1120, 1240, 1360]`. -/
theorem dumpable_blocks_spec :
    (∀ (epochStart tempo : Int) (numDumps : Nat), 1 ≤ numDumps →
      (epochStart + tempo) ∈ get_dumpable_blocks epochStart tempo numDumps) ∧
    get_dumpable_blocks 1000 360 3 = [1000, 1120, 1240, 1360] := by
  constructor
  · intro s t n _
    unfold get_dumpable_blocks
    simp
  · norm_num [get_dumpable_blocks, List.range_succ]

/-- Claim C5 witness: instantiation of the universally quantified part at
the scenario values. -/
theorem dumpable_blocks_spec_witness :
    ((1000 : Int) + 360) ∈ get_dumpable_blocks 1000 360 3 :=
  dumpable_blocks_spec.1 1000 360 3 (by norm_num)

/- ## Helper lemma: binary search -/

theorem searchBoundary_threshold (ok : Int → Bool) (B : Int)
    (hok : ∀ b, ok b = true ↔ B ≤ b) :
    ∀ (n : Nat) (lo hi : Int), (hi - lo).toNat ≤ n → lo ≤ B → B ≤ hi →
      searchBoundary ok lo hi = B := by
  intro n
  induction n with
  | zero =>
    intro lo hi hn hlo hhi
    rw [searchBoundary, dif_neg (show ¬ lo < hi by omega)]
    omega
  | succ n ih =>
    intro lo hi hn hlo hhi
    rw [searchBoundary]
    by_cases hlt : lo < hi
    · rw [dif_pos hlt]
      by_cases hOk : ok ((lo + hi) / 2) = true
      · rw [if_pos hOk]
        exact ih lo ((lo + hi) / 2) (by omega) hlo ((hok _).mp hOk)
      · rw [if_neg hOk]
        have hnb : ¬ B ≤ (lo + hi) / 2 := fun hc => hOk ((hok _).mpr hc)
        exact ih ((lo + hi) / 2 + 1) hi (by omega) (by omega) hhi
    · rw [dif_neg hlt]
      omega

/-- Claim C6: for a probe that succeeds exactly at blocks `≥ B`, with
`startBlock < B ≤ endBlock`, the API-era detector returns `B`, the first
block where the modern query succeeds. -/
theorem detect_api_boundary_threshold (B startBlock endBlock : Int)
    (h1 : startBlock < B) (h2 : B ≤ endBlock) :
    detect_api_boundary (stepProbe B) startBlock endBlock = some B := by
  have he : stepProbe B endBlock = .ok := by
    unfold stepProbe
    rw [if_pos h2]
  have hs : stepProbe B startBlock = .err := by
    unfold stepProbe
    rw [if_neg (by omega)]
  unfold detect_api_boundary
  rw [he, hs]
  have hok : ∀ b, probeOk (stepProbe B) b = true ↔ B ≤ b := by
    intro b
    unfold probeOk stepProbe
    by_cases hc : B ≤ b <;> simp [hc]
  exact congrArg some
    (searchBoundary_threshold (probeOk (stepProbe B)) B hok
      (endBlock - startBlock).toNat startBlock endBlock (le_refl _) (by omega) h2)

/-- Claim C6 witness: success exactly at blocks `≥ 500` over `[0, 1000]`
yields boundary `500`. -/
theorem detect_api_boundary_threshold_witness :
    detect_api_boundary (stepProbe 500) 0 1000 = some 500 :=
  detect_api_boundary_threshold 500 0 1000 (by norm_num) (by norm_num)

/-- Claim C10 counterexample: block 359 is returned by
`compute_epoch_blocks` for `netuid = 1`, `tempo = 360` over `[0, 720]`
(it satisfies `(b + netuid + 1) % (tempo + 1) = 0`), yet its
`block_index_in_epoch` is 1, not 0 — it is not an epoch-start block of
the `utils` epoch arithmetic, so the two sets are not equal. -/
theorem compute_epoch_blocks_not_epoch_starts_cex :
    (359 : Int) ∈ compute_epoch_blocks 1 360 0 720 ∧
      ¬ block_index_in_epoch 359 1 360 = 0 := by
  constructor
  · decide
  · decide

/-- Claim C10 amended: `compute_epoch_blocks` returns exactly the blocks
`b ∈ [start, end]` with `(b + netuid + 1) % (tempo + 1) = 0` — the blocks
where the epoch fires — and every such block is the block immediately
AFTER an epoch-start block of the `utils` arithmetic: `b - 1` has
`block_index_in_epoch = 0`.  The two sets are shifted by one, not equal. -/
theorem compute_epoch_blocks_fire_blocks (netuid tempo start endB : Int) (ht : 0 < tempo) :
    (∀ b, b ∈ compute_epoch_blocks netuid tempo start endB ↔
        (start ≤ b ∧ b ≤ endB ∧ (b + netuid + 1) % (tempo + 1) = 0)) ∧
    (∀ b, (b + netuid + 1) % (tempo + 1) = 0 →
        block_index_in_epoch (b - 1) netuid tempo = 0) := by
  constructor
  · intro b
    exact compute_epoch_blocks_mem netuid tempo start endB b ht
  · intro b hb
    unfold block_index_in_epoch get_epoch_duration
    have e : b - 1 + netuid + 2 = b + netuid + 1 := by ring
    rw [e]
    exact hb

/-- Claim C10 amended witness: instantiation at `netuid = 1`,
`tempo = 360`, range `[0, 720]`, block 359. -/
theorem compute_epoch_blocks_fire_blocks_witness :
    ((359 : Int) ∈ compute_epoch_blocks 1 360 0 720 ↔
      ((0 : Int) ≤ 359 ∧ (359 : Int) ≤ 720 ∧ ((359 : Int) + 1 + 1) % (360 + 1) = 0)) ∧
    block_index_in_epoch (359 - 1) 1 360 = 0 := by
  constructor
  · exact (compute_epoch_blocks_fire_blocks 1 360 0 720 (by norm_num)).1 359
  · exact (compute_epoch_blocks_fire_blocks 1 360 0 720 (by norm_num)).2 359 (by decide)

/- ## Shape lemmas: which store and cache fields each operation touches -/

theorem getOrCreateColdkey_shape (a : String) (σ : Store) (c : Caches) :
    ∃ cks n cache i, getOrCreateColdkey a σ c =
      ({ σ with coldkeys := cks, nextId := n }, { c with coldkey_cache := cache }, i) := by
  rcases h : c.coldkey_cache.lookup a with _ | i
  · rcases h2 : findColdkey σ.coldkeys a with _ | row
    · exact ⟨_, _, _, _, by rw [getOrCreateColdkey, h, h2]⟩
    · exact ⟨σ.coldkeys, σ.nextId, _, _, by rw [getOrCreateColdkey, h, h2]⟩
  · exact ⟨σ.coldkeys, σ.nextId, c.coldkey_cache, _, by rw [getOrCreateColdkey, h]⟩

theorem getOrCreateHotkey_shape (a b : String) (now : Int) (σ : Store) (c : Caches) :
    ∃ cks hks n cc hc hu i, getOrCreateHotkey a b now σ c =
      ({ σ with coldkeys := cks, hotkeys := hks, nextId := n },
       { c with coldkey_cache := cc, hotkey_cache := hc, hotkeys_to_update := hu }, i) := by
  rcases h : c.hotkey_cache.lookup a with _ | i
  · obtain ⟨cks, n, cache, i, hck⟩ := getOrCreateColdkey_shape b σ c
    rcases h2 : findHotkey σ.hotkeys a with _ | row
    · exact ⟨_, _, _, _, _, _, _, by
        rw [getOrCreateHotkey, h, hck]; dsimp only; rw [h2]⟩
    · by_cases h3 : row.coldkey_id ≠ i
      · exact ⟨cks, _, n, _, _, _, _, by
          rw [getOrCreateHotkey, h, hck]; dsimp only; rw [h2]; dsimp only; rw [if_pos h3]⟩
      · exact ⟨cks, σ.hotkeys, n, _, _, _, _, by
          rw [getOrCreateHotkey, h, hck]; dsimp only; rw [h2]; dsimp only; rw [if_neg h3]⟩
  · exact ⟨σ.coldkeys, σ.hotkeys, σ.nextId, c.coldkey_cache, c.hotkey_cache, _, _, by
      rw [getOrCreateHotkey, h]⟩

theorem syncNeuron_shape (hkId : Nat) (netuid uid : Int) (σ : Store) (c : Caches) :
    ∃ ns n nc i, syncNeuron hkId netuid uid σ c =
      ({ σ with neurons := ns, nextId := n }, { c with neuron_cache := nc }, i) := by
  rcases h : c.neuron_cache.lookup (hkId, netuid) with _ | i
  · rcases h2 : findNeuron σ.neurons hkId netuid with _ | row
    · exact ⟨_, _, _, _, by rw [syncNeuron, h, h2]⟩
    · by_cases h3 : row.uid ≠ uid
      · exact ⟨_, σ.nextId, _, _, by rw [syncNeuron, h, h2]; dsimp only; rw [if_pos h3]⟩
      · exact ⟨σ.neurons, σ.nextId, _, _, by rw [syncNeuron, h, h2]; dsimp only; rw [if_neg h3]⟩
  · exact ⟨σ.neurons, σ.nextId, c.neuron_cache, _, by rw [syncNeuron, h]⟩

theorem syncNeuronSnapshot_shape (neuronId : Nat) (blockNumber uid : Int)
    (totalStake emissions alphaStake dividendApy : ℚ) (isValidator : Bool)
    (trust rank : ℚ) (isActive : Bool) (σ : Store) :
    ∃ sn n i, syncNeuronSnapshot neuronId blockNumber uid totalStake emissions alphaStake
        dividendApy isValidator trust rank isActive σ =
      ({ σ with snapshots := sn, nextId := n }, i) := by
  rcases h : findSnapshot σ.snapshots neuronId blockNumber with _ | row
  · exact ⟨_, _, _, by rw [syncNeuronSnapshot, h]⟩
  · exact ⟨_, σ.nextId, _, by rw [syncNeuronSnapshot, h]⟩

theorem syncMechanismMetrics_shape (snapshotId : Nat) (mechId : Int)
    (dividend incentive : ℚ) (σ : Store) :
    ∃ ms, syncMechanismMetrics snapshotId mechId dividend incentive σ =
      { σ with mechanism_metrics := ms } := by
  rcases h : findMechanism σ.mechanism_metrics snapshotId mechId with _ | row
  · exact ⟨_, by rw [syncMechanismMetrics, h]⟩
  · exact ⟨_, by rw [syncMechanismMetrics, h]⟩

theorem syncBlock_shape (blockNumber : Int) (blockTimestamp : Option Int)
    (dm : DumpMetadata) (σ : Store) :
    ∃ bs, syncBlock blockNumber blockTimestamp dm σ = { σ with blocks := bs } := by
  rcases h : findBlock σ.blocks blockNumber with _ | row
  · exact ⟨_, by rw [syncBlock, h]⟩
  · unfold syncBlock
    rw [h]
    dsimp only
    split
    · exact ⟨_, rfl⟩
    · exact ⟨σ.blocks, rfl⟩

theorem syncSubnet_shape (netuid : Int) (alphaOut : ℚ) (σ : Store) :
    ∃ ss, syncSubnet netuid alphaOut σ = { σ with subnets := ss } := by
  rcases h : findSubnet σ.subnets netuid with _ | row
  · exact ⟨_, by rw [syncSubnet, h]⟩
  · unfold syncSubnet
    rw [h]
    dsimp only
    split
    · exact ⟨_, rfl⟩
    · exact ⟨σ.subnets, rfl⟩

theorem syncMetagraphDump_shape (dm : DumpMetadata) (blockNumber : Int) (σ : Store) :
    ∃ ds, syncMetagraphDump dm blockNumber σ = { σ with dumps := ds } := by
  rcases h : findDump σ.dumps dm.netuid blockNumber with _ | row
  · exact ⟨_, by rw [syncMetagraphDump]; rw [h]⟩
  · exact ⟨_, by rw [syncMetagraphDump]; rw [h]⟩

theorem flushHotkeyLastSeen_shape (now : Int) (σ : Store) (c : Caches) :
    ∃ hks hu k, flushHotkeyLastSeen now σ c =
      ({ σ with hotkeys := hks }, { c with hotkeys_to_update := hu }, k) := by
  unfold flushHotkeyLastSeen
  split
  · exact ⟨σ.hotkeys, c.hotkeys_to_update, _, rfl⟩
  · exact ⟨_, _, _, rfl⟩

theorem processNeuron_eq_validator (netuid : Int) (alphaOut ownerCut : ℚ)
    (blockNumber now : Int) (r : NeuronRec) (σ : Store) (c : Caches) (st : SyncStats)
    (hv : r.validator_permit = true) :
    processNeuron netuid alphaOut ownerCut blockNumber now r (σ, c, st) =
      (let s₁ := getOrCreateColdkey r.coldkey σ c
       let s₂ := getOrCreateHotkey r.hotkey r.coldkey now s₁.1 s₁.2.1
       let s₃ := syncNeuron s₂.2.2 netuid r.uid s₂.1 s₂.2.1
       let s₄ := syncNeuronSnapshot s₃.2.2 blockNumber r.uid r.stake r.emission
           r.alpha_stake (compute_dividend_apy r.dividend alphaOut r.alpha_stake ownerCut)
           r.validator_permit r.trust r.rank r.active s₃.1
       let σ₅ := if r.dividend > 0 ∨ r.incentive > 0 then
           syncMechanismMetrics s₄.2 0 r.dividend r.incentive s₄.1
         else s₄.1
       (σ₅, s₃.2.1,
        { coldkeys := st.coldkeys + 1, hotkeys := st.hotkeys + 1,
          neurons := st.neurons + 1, snapshots := st.snapshots + 1,
          mechanism_metrics := st.mechanism_metrics +
            (if r.dividend > 0 ∨ r.incentive > 0 then 1 else 0) })) := by
  rw [processNeuron, hv]
  rfl

theorem processNeuron_skip (netuid : Int) (alphaOut ownerCut : ℚ)
    (blockNumber now : Int) (r : NeuronRec) (σ : Store) (c : Caches) (st : SyncStats)
    (hv : r.validator_permit = false) :
    processNeuron netuid alphaOut ownerCut blockNumber now r (σ, c, st) = (σ, c, st) := by
  rw [processNeuron, hv]
  rfl

/- ## Frame bundles: store fields untouched by each operation -/

theorem getOrCreateColdkey_frames : ∀ (a : String) (σ : Store) (c : Caches),
    (getOrCreateColdkey a σ c).1.hotkeys = σ.hotkeys ∧
    (getOrCreateColdkey a σ c).1.neurons = σ.neurons ∧
    (getOrCreateColdkey a σ c).1.blocks = σ.blocks ∧
    (getOrCreateColdkey a σ c).1.subnets = σ.subnets ∧
    (getOrCreateColdkey a σ c).1.snapshots = σ.snapshots ∧
    (getOrCreateColdkey a σ c).1.mechanism_metrics = σ.mechanism_metrics ∧
    (getOrCreateColdkey a σ c).1.dumps = σ.dumps := by
  intro a σ c
  obtain ⟨cks, n, cc, i, h⟩ := getOrCreateColdkey_shape a σ c
  rw [h]
  exact ⟨rfl, rfl, rfl, rfl, rfl, rfl, rfl⟩

theorem getOrCreateHotkey_frames : ∀ (a b : String) (now : Int) (σ : Store) (c : Caches),
    (getOrCreateHotkey a b now σ c).1.neurons = σ.neurons ∧
    (getOrCreateHotkey a b now σ c).1.blocks = σ.blocks ∧
    (getOrCreateHotkey a b now σ c).1.subnets = σ.subnets ∧
    (getOrCreateHotkey a b now σ c).1.snapshots = σ.snapshots ∧
    (getOrCreateHotkey a b now σ c).1.mechanism_metrics = σ.mechanism_metrics ∧
    (getOrCreateHotkey a b now σ c).1.dumps = σ.dumps := by
  intro a b now σ c
  obtain ⟨cks, hks, n, cc, hc, hu, i, h⟩ := getOrCreateHotkey_shape a b now σ c
  rw [h]
  exact ⟨rfl, rfl, rfl, rfl, rfl, rfl⟩

theorem syncNeuron_frames : ∀ (hkId : Nat) (netuid uid : Int) (σ : Store) (c : Caches),
    (syncNeuron hkId netuid uid σ c).1.coldkeys = σ.coldkeys ∧
    (syncNeuron hkId netuid uid σ c).1.hotkeys = σ.hotkeys ∧
    (syncNeuron hkId netuid uid σ c).1.blocks = σ.blocks ∧
    (syncNeuron hkId netuid uid σ c).1.subnets = σ.subnets ∧
    (syncNeuron hkId netuid uid σ c).1.snapshots = σ.snapshots ∧
    (syncNeuron hkId netuid uid σ c).1.mechanism_metrics = σ.mechanism_metrics ∧
    (syncNeuron hkId netuid uid σ c).1.dumps = σ.dumps := by
  intro hkId netuid uid σ c
  obtain ⟨ns, n, nc, i, h⟩ := syncNeuron_shape hkId netuid uid σ c
  rw [h]
  exact ⟨rfl, rfl, rfl, rfl, rfl, rfl, rfl⟩

theorem syncNeuronSnapshot_frames : ∀ (neuronId : Nat) (blockNumber uid : Int)
    (totalStake emissions alphaStake dividendApy : ℚ) (isValidator : Bool)
    (trust rank : ℚ) (isActive : Bool) (σ : Store),
    (syncNeuronSnapshot neuronId blockNumber uid totalStake emissions alphaStake
        dividendApy isValidator trust rank isActive σ).1.coldkeys = σ.coldkeys ∧
    (syncNeuronSnapshot neuronId blockNumber uid totalStake emissions alphaStake
        dividendApy isValidator trust rank isActive σ).1.hotkeys = σ.hotkeys ∧
    (syncNeuronSnapshot neuronId blockNumber uid totalStake emissions alphaStake
        dividendApy isValidator trust rank isActive σ).1.neurons = σ.neurons ∧
    (syncNeuronSnapshot neuronId blockNumber uid totalStake emissions alphaStake
        dividendApy isValidator trust rank isActive σ).1.blocks = σ.blocks ∧
    (syncNeuronSnapshot neuronId blockNumber uid totalStake emissions alphaStake
        dividendApy isValidator trust rank isActive σ).1.subnets = σ.subnets ∧
    (syncNeuronSnapshot neuronId blockNumber uid totalStake emissions alphaStake
        dividendApy isValidator trust rank isActive σ).1.mechanism_metrics = σ.mechanism_metrics ∧
    (syncNeuronSnapshot neuronId blockNumber uid totalStake emissions alphaStake
        dividendApy isValidator trust rank isActive σ).1.dumps = σ.dumps := by
  intro neuronId blockNumber uid totalStake emissions alphaStake dividendApy isValidator
    trust rank isActive σ
  obtain ⟨sn, n, i, h⟩ := syncNeuronSnapshot_shape neuronId blockNumber uid totalStake
    emissions alphaStake dividendApy isValidator trust rank isActive σ
  rw [h]
  exact ⟨rfl, rfl, rfl, rfl, rfl, rfl, rfl⟩

theorem syncMechanismMetrics_frames : ∀ (snapshotId : Nat) (mechId : Int)
    (dividend incentive : ℚ) (σ : Store),
    (syncMechanismMetrics snapshotId mechId dividend incentive σ).coldkeys = σ.coldkeys ∧
    (syncMechanismMetrics snapshotId mechId dividend incentive σ).hotkeys = σ.hotkeys ∧
    (syncMechanismMetrics snapshotId mechId dividend incentive σ).neurons = σ.neurons ∧
    (syncMechanismMetrics snapshotId mechId dividend incentive σ).blocks = σ.blocks ∧
    (syncMechanismMetrics snapshotId mechId dividend incentive σ).subnets = σ.subnets ∧
    (syncMechanismMetrics snapshotId mechId dividend incentive σ).snapshots = σ.snapshots ∧
    (syncMechanismMetrics snapshotId mechId dividend incentive σ).dumps = σ.dumps ∧
    (syncMechanismMetrics snapshotId mechId dividend incentive σ).nextId = σ.nextId := by
  intro snapshotId mechId dividend incentive σ
  obtain ⟨ms, h⟩ := syncMechanismMetrics_shape snapshotId mechId dividend incentive σ
  rw [h]
  exact ⟨rfl, rfl, rfl, rfl, rfl, rfl, rfl, rfl⟩

theorem syncBlock_frames : ∀ (blockNumber : Int) (blockTimestamp : Option Int)
    (dm : DumpMetadata) (σ : Store),
    (syncBlock blockNumber blockTimestamp dm σ).coldkeys = σ.coldkeys ∧
    (syncBlock blockNumber blockTimestamp dm σ).hotkeys = σ.hotkeys ∧
    (syncBlock blockNumber blockTimestamp dm σ).neurons = σ.neurons ∧
    (syncBlock blockNumber blockTimestamp dm σ).subnets = σ.subnets ∧
    (syncBlock blockNumber blockTimestamp dm σ).snapshots = σ.snapshots ∧
    (syncBlock blockNumber blockTimestamp dm σ).mechanism_metrics = σ.mechanism_metrics ∧
    (syncBlock blockNumber blockTimestamp dm σ).dumps = σ.dumps ∧
    (syncBlock blockNumber blockTimestamp dm σ).nextId = σ.nextId := by
  intro blockNumber blockTimestamp dm σ
  obtain ⟨bs, h⟩ := syncBlock_shape blockNumber blockTimestamp dm σ
  rw [h]
  exact ⟨rfl, rfl, rfl, rfl, rfl, rfl, rfl, rfl⟩

theorem syncSubnet_frames : ∀ (netuid : Int) (alphaOut : ℚ) (σ : Store),
    (syncSubnet netuid alphaOut σ).coldkeys = σ.coldkeys ∧
    (syncSubnet netuid alphaOut σ).hotkeys = σ.hotkeys ∧
    (syncSubnet netuid alphaOut σ).neurons = σ.neurons ∧
    (syncSubnet netuid alphaOut σ).blocks = σ.blocks ∧
    (syncSubnet netuid alphaOut σ).snapshots = σ.snapshots ∧
    (syncSubnet netuid alphaOut σ).mechanism_metrics = σ.mechanism_metrics ∧
    (syncSubnet netuid alphaOut σ).dumps = σ.dumps ∧
    (syncSubnet netuid alphaOut σ).nextId = σ.nextId := by
  intro netuid alphaOut σ
  obtain ⟨ss, h⟩ := syncSubnet_shape netuid alphaOut σ
  rw [h]
  exact ⟨rfl, rfl, rfl, rfl, rfl, rfl, rfl, rfl⟩

theorem syncMetagraphDump_frames : ∀ (dm : DumpMetadata) (blockNumber : Int) (σ : Store),
    (syncMetagraphDump dm blockNumber σ).coldkeys = σ.coldkeys ∧
    (syncMetagraphDump dm blockNumber σ).hotkeys = σ.hotkeys ∧
    (syncMetagraphDump dm blockNumber σ).neurons = σ.neurons ∧
    (syncMetagraphDump dm blockNumber σ).blocks = σ.blocks ∧
    (syncMetagraphDump dm blockNumber σ).subnets = σ.subnets ∧
    (syncMetagraphDump dm blockNumber σ).snapshots = σ.snapshots ∧
    (syncMetagraphDump dm blockNumber σ).mechanism_metrics = σ.mechanism_metrics ∧
    (syncMetagraphDump dm blockNumber σ).nextId = σ.nextId := by
  intro dm blockNumber σ
  obtain ⟨ds, h⟩ := syncMetagraphDump_shape dm blockNumber σ
  rw [h]
  exact ⟨rfl, rfl, rfl, rfl, rfl, rfl, rfl, rfl⟩

theorem flushHotkeyLastSeen_frames : ∀ (now : Int) (σ : Store) (c : Caches),
    (flushHotkeyLastSeen now σ c).1.coldkeys = σ.coldkeys ∧
    (flushHotkeyLastSeen now σ c).1.neurons = σ.neurons ∧
    (flushHotkeyLastSeen now σ c).1.blocks = σ.blocks ∧
    (flushHotkeyLastSeen now σ c).1.subnets = σ.subnets ∧
    (flushHotkeyLastSeen now σ c).1.snapshots = σ.snapshots ∧
    (flushHotkeyLastSeen now σ c).1.mechanism_metrics = σ.mechanism_metrics ∧
    (flushHotkeyLastSeen now σ c).1.dumps = σ.dumps ∧
    (flushHotkeyLastSeen now σ c).1.nextId = σ.nextId := by
  intro now σ c
  obtain ⟨hks, hu, k, h⟩ := flushHotkeyLastSeen_shape now σ c
  rw [h]
  exact ⟨rfl, rfl, rfl, rfl, rfl, rfl, rfl, rfl⟩

/- ## Claim C9: sparse mechanism metrics -/

theorem syncMechanismMetrics_on_empty (snapshotId : Nat) (mechId : Int)
    (dividend incentive : ℚ) (σ : Store) (h : σ.mechanism_metrics = []) :
    (syncMechanismMetrics snapshotId mechId dividend incentive σ).mechanism_metrics =
      [⟨snapshotId, mechId, dividend, incentive, 0, 0, 0⟩] := by
  unfold syncMechanismMetrics
  rw [findMechanism, h]
  rfl

/-- Claim C9 counterexample: the full-sync service
(`MetagraphSyncService.sync_metagraph`, step 3) persists every mechanism
entry of the input record without any dividend/incentive guard: starting
from an empty MechanismMetrics table, a neuron record carrying one
mechanism entry with `dividend = 0` and `incentive = 0` produces one
persisted row, not the zero rows the claim requires. -/
theorem full_sync_zero_mechanism_cex :
    (full_sync_mechanisms_step [⟨0, 0, 0, 0, 0, 0, none⟩] 1 []).length = 1 ∧
    ¬ (full_sync_mechanisms_step [⟨0, 0, 0, 0, 0, 0, none⟩] 1 []).length = 0 := by
  constructor
  · rfl
  · intro h
    simp [full_sync_mechanisms_step, full_sync_mechanism_metrics, List.find?] at h

/-- Claim C9 amended: in the APY-optimized sync path
(`APYSyncService.sync_metagraph`), a processed neuron record whose
snapshot has no prior mechanism rows yields exactly one MechanismMetrics
row when it is a validator record with `dividend > 0 or incentive > 0`,
and zero rows otherwise; the full-sync path persists every mechanism
entry present in its input, zero-valued ones included
(`full_sync_zero_mechanism_cex`). -/
theorem apy_mechanism_metrics_sparse (netuid : Int) (alphaOut ownerCut : ℚ)
    (blockNumber now : Int) (r : NeuronRec) (σ : Store) (c : Caches) (st : SyncStats)
    (hmech : σ.mechanism_metrics = []) :
    (processNeuron netuid alphaOut ownerCut blockNumber now r
        (σ, c, st)).1.mechanism_metrics.length =
      if r.validator_permit = true ∧ (r.dividend > 0 ∨ r.incentive > 0) then 1 else 0 := by
  by_cases hv : r.validator_permit = true
  · rw [processNeuron_eq_validator netuid alphaOut ownerCut blockNumber now r σ c st hv]
    dsimp only
    by_cases hd : r.dividend > 0 ∨ r.incentive > 0
    · rw [if_pos hd, if_pos ⟨hv, hd⟩]
      rw [syncMechanismMetrics_on_empty]
      · rfl
      · simp only [syncNeuronSnapshot_frames, syncNeuron_frames, getOrCreateHotkey_frames,
          getOrCreateColdkey_frames]
        exact hmech
    · rw [if_neg hd, if_neg (fun hc => hd hc.2)]
      simp only [syncNeuronSnapshot_frames, syncNeuron_frames, getOrCreateHotkey_frames,
        getOrCreateColdkey_frames]
      rw [hmech]
      rfl
  · rw [processNeuron_skip netuid alphaOut ownerCut blockNumber now r σ c st
      (by revert hv; cases r.validator_permit <;> simp)]
    rw [if_neg (fun hc => hv hc.1)]
    rw [hmech]
    rfl

/-- Claim C9 amended witness: a concrete validator record with positive
dividend on an empty store yields exactly one mechanism row, and the same
record with zero dividend and incentive yields none. -/
theorem apy_mechanism_metrics_sparse_witness :
    (processNeuron 3 0 0 100 0 ⟨7, "hk1", "ck1", 1, 0, 1, true, 0, 0, true, 2, 0⟩
        (emptyStore, emptyCaches, initStats)).1.mechanism_metrics.length = 1 ∧
    (processNeuron 3 0 0 100 0 ⟨7, "hk1", "ck1", 1, 0, 1, true, 0, 0, true, 0, 0⟩
        (emptyStore, emptyCaches, initStats)).1.mechanism_metrics.length = 0 := by
  constructor
  · rw [apy_mechanism_metrics_sparse 3 0 0 100 0 _ emptyStore emptyCaches initStats rfl]
    rw [if_pos ⟨rfl, Or.inl (by norm_num)⟩]
  · rw [apy_mechanism_metrics_sparse 3 0 0 100 0 _ emptyStore emptyCaches initStats rfl]
    rw [if_neg]
    rintro ⟨-, h | h⟩ <;> exact absurd h (by norm_num)

/- ## Claim C2: atomicity of sync_metagraph -/

theorem processNeurons_error (netuid : Int) (alphaOut ownerCut : ℚ)
    (blockNumber now : Int) (msg : String) (post : List NeuronInput) :
    ∀ (pre : List NeuronInput) (acc : Store × Caches × SyncStats),
      (∀ x ∈ pre, isMalformedInput x = false) →
      ∃ acc', processNeurons netuid alphaOut ownerCut blockNumber now
        (pre ++ NeuronInput.malformed msg :: post) acc = (acc', some msg) := by
  intro pre
  induction pre with
  | nil => exact fun acc _ => ⟨acc, rfl⟩
  | cons x rest ih =>
    intro acc hpre
    cases x with
    | valid r =>
      rw [List.cons_append, processNeurons]
      exact ih _ (fun y hy => hpre y (List.mem_cons_of_mem _ hy))
    | malformed m =>
      have hx := hpre (.malformed m) (List.mem_cons_self _ _)
      simp [isMalformedInput] at hx

/-- Claim C2: the whole merge of `sync_metagraph` runs inside one atomic
transaction: whenever any record of the snapshot raises (here: the first
malformed record, after any number of well-formed ones were already
processed inside the transaction), the caller observes the unchanged
pre-call store and the exception propagates — no partially synced state
is ever observable. -/
theorem sync_metagraph_atomic (mg : MetagraphInput) (blockNumber : Int)
    (blockTimestamp : Option Int) (dm : DumpMetadata) (ownerCut : ℚ) (now : Int)
    (σ : Store) (c : Caches) (pre post : List NeuronInput) (msg : String)
    (hsplit : mg.neurons = pre ++ NeuronInput.malformed msg :: post)
    (hpre : ∀ x ∈ pre, isMalformedInput x = false) :
    ∃ c', sync_metagraph mg blockNumber blockTimestamp dm ownerCut now σ c =
      ((σ, c'), Except.error msg) := by
  obtain ⟨acc', hproc⟩ := processNeurons_error mg.netuid mg.alpha_out_emission ownerCut
    blockNumber now msg post pre
    (syncSubnet mg.netuid mg.alpha_out_emission (syncBlock blockNumber blockTimestamp dm σ),
     c, initStats) hpre
  obtain ⟨σe, ce, ste⟩ := acc'
  refine ⟨ce, ?_⟩
  rw [sync_metagraph, syncMetagraphBody, hsplit]
  dsimp only
  rw [hproc]

/-- Claim C2 witness: a snapshot whose second record raises leaves a
fresh store untouched and surfaces the error. -/
theorem sync_metagraph_atomic_witness :
    (sync_metagraph c2Mg 42 none c2Dm 0 0 emptyStore emptyCaches).1.1 = emptyStore ∧
    (sync_metagraph c2Mg 42 none c2Dm 0 0 emptyStore emptyCaches).2 =
      Except.error "boom" := by
  obtain ⟨c', h⟩ := sync_metagraph_atomic c2Mg 42 none c2Dm 0 0 emptyStore emptyCaches
    [.valid c2Rec] [] "boom" rfl
    (by intro x hx; simp only [List.mem_singleton] at hx; subst hx; rfl)
  rw [h]
  exact ⟨rfl, rfl⟩

/- ## Claim C7: uid reassignment -/

/-- Claim C7 counterexample: a batch task's shared `APYSyncService`
instance syncs hotkey `"hk1"` on subnet 3 at uid 7 (block 100), then at a
later block 200 the same snapshot shows the hotkey at uid 9; because
`_sync_neuron` returns its cached `Neuron` without checking the uid, the
stored row still has uid 7 after the second run — not 9 as the claim
requires for later blocks of the same batch. -/
theorem neuron_uid_stale_in_batch_cex :
    c7Run2.1.1.neurons.map (fun n => n.uid) = [7] ∧
    ¬ c7Run2.1.1.neurons.map (fun n => n.uid) = [9] := by
  constructor
  · rfl
  · intro h
    rw [show c7Run2.1.1.neurons.map (fun n => n.uid) = [7] from rfl] at h
    simp at h

/- ## Generic list lemmas for first-match reads and writes -/

theorem find?_append_of_not {α : Type} (l : List α) (x : α) (q : α → Bool)
    (hx : q x = false) : (l ++ [x]).find? q = l.find? q := by
  induction l with
  | nil => simp [List.find?, hx]
  | cons y ys ih =>
    rw [List.cons_append, List.find?_cons, List.find?_cons]
    cases q y
    · exact ih
    · rfl

theorem find?_append_last {α : Type} (l : List α) (x : α) (q : α → Bool)
    (hl : l.find? q = none) (hx : q x = true) : (l ++ [x]).find? q = some x := by
  induction l with
  | nil => simp [List.find?, hx]
  | cons y ys ih =>
    rw [List.find?_cons] at hl
    rw [List.cons_append, List.find?_cons]
    cases hy : q y
    · rw [hy] at hl
      exact ih hl
    · rw [hy] at hl
      exact absurd hl (by simp)

theorem find?_append_some {α : Type} (l l' : List α) (x : α) (q : α → Bool)
    (hl : l.find? q = some x) : (l ++ l').find? q = some x := by
  induction l with
  | nil => simp [List.find?] at hl
  | cons y ys ih =>
    rw [List.find?_cons] at hl
    rw [List.cons_append, List.find?_cons]
    cases hy : q y
    · rw [hy] at hl
      exact ih hl
    · rw [hy] at hl
      exact hl

theorem find?_updateFirst_of_disjoint {α : Type} (p q : α → Bool) (f : α → α)
    (l : List α) (h : ∀ x, p x = true → (q x = false ∧ q (f x) = false)) :
    (updateFirst p f l).find? q = l.find? q := by
  induction l with
  | nil => rfl
  | cons y ys ih =>
    by_cases hp : p y = true
    · obtain ⟨h1, h2⟩ := h y hp
      rw [updateFirst, if_pos hp, List.find?_cons, List.find?_cons, h1, h2]
    · rw [updateFirst, if_neg hp, List.find?_cons, List.find?_cons]
      cases q y
      · exact ih
      · rfl

theorem find?_updateFirst_self {α : Type} (p : α → Bool) (f : α → α) (l : List α)
    (x : α) (hfind : l.find? p = some x) (hp : p (f x) = true) :
    (updateFirst p f l).find? p = some (f x) := by
  induction l with
  | nil => simp [List.find?] at hfind
  | cons y ys ih =>
    rw [List.find?_cons] at hfind
    by_cases hy : p y = true
    · rw [hy] at hfind
      injection hfind with hyx
      subst hyx
      rw [updateFirst, if_pos hy, List.find?_cons, hp]
    · rw [Bool.not_eq_true] at hy
      rw [hy] at hfind
      rw [updateFirst, if_neg (by simp [hy]), List.find?_cons, hy]
      exact ih hfind

theorem updateFirst_eq_self {α : Type} (p : α → Bool) (f : α → α) (l : List α)
    (x : α) (hfind : l.find? p = some x) (hfx : f x = x) : updateFirst p f l = l := by
  induction l with
  | nil => rfl
  | cons y ys ih =>
    rw [List.find?_cons] at hfind
    by_cases hy : p y = true
    · rw [hy] at hfind
      injection hfind with hyx
      subst hyx
      rw [updateFirst, if_pos hy, hfx]
    · rw [Bool.not_eq_true] at hy
      rw [hy] at hfind
      rw [updateFirst, if_neg (by simp [hy]), ih hfind]

theorem updateFirst_map_key {α β : Type} (p : α → Bool) (f : α → α) (g : α → β)
    (l : List α) (hg : ∀ x, p x = true → g (f x) = g x) :
    (updateFirst p f l).map g = l.map g := by
  induction l with
  | nil => rfl
  | cons y ys ih =>
    by_cases hp : p y = true
    · rw [updateFirst, if_pos hp, List.map_cons, List.map_cons, hg y hp]
    · rw [updateFirst, if_neg hp, List.map_cons, List.map_cons, ih]

theorem mem_updateFirst {α : Type} (p : α → Bool) (f : α → α) (l : List α) :
    ∀ x ∈ updateFirst p f l, x ∈ l ∨ ∃ y ∈ l, p y = true ∧ x = f y := by
  induction l with
  | nil => intro x hx; exact absurd hx (List.not_mem_nil x)
  | cons y ys ih =>
    intro x hx
    by_cases hp : p y = true
    · rw [updateFirst, if_pos hp, List.mem_cons] at hx
      rcases hx with rfl | hx
      · exact Or.inr ⟨y, List.mem_cons_self y ys, hp, rfl⟩
      · exact Or.inl (List.mem_cons_of_mem y hx)
    · rw [updateFirst, if_neg hp, List.mem_cons] at hx
      rcases hx with rfl | hx
      · exact Or.inl (List.mem_cons_self x ys)
      · rcases ih x hx with h | ⟨z, hz, hpz, hxz⟩
        · exact Or.inl (List.mem_cons_of_mem y h)
        · exact Or.inr ⟨z, List.mem_cons_of_mem y hz, hpz, hxz⟩

/- ## Claim C8 machinery: per-item behaviour of the batch loop -/

theorem processNeuron_frames (netuid : Int) (alphaOut ownerCut : ℚ) (blockNumber now : Int)
    (r : NeuronRec) (σ : Store) (c : Caches) (st : SyncStats) :
    (processNeuron netuid alphaOut ownerCut blockNumber now r (σ, c, st)).1.blocks = σ.blocks ∧
    (processNeuron netuid alphaOut ownerCut blockNumber now r (σ, c, st)).1.subnets = σ.subnets ∧
    (processNeuron netuid alphaOut ownerCut blockNumber now r (σ, c, st)).1.dumps = σ.dumps := by
  by_cases hv : r.validator_permit = true
  · rw [processNeuron_eq_validator netuid alphaOut ownerCut blockNumber now r σ c st hv]
    dsimp only
    by_cases hd : r.dividend > 0 ∨ r.incentive > 0
    · rw [if_pos hd]
      refine ⟨?_, ?_, ?_⟩ <;>
        simp only [syncMechanismMetrics_frames, syncNeuronSnapshot_frames, syncNeuron_frames,
          getOrCreateHotkey_frames, getOrCreateColdkey_frames]
    · rw [if_neg hd]
      refine ⟨?_, ?_, ?_⟩ <;>
        simp only [syncNeuronSnapshot_frames, syncNeuron_frames,
          getOrCreateHotkey_frames, getOrCreateColdkey_frames]
  · rw [processNeuron_skip netuid alphaOut ownerCut blockNumber now r σ c st
      (by revert hv; cases r.validator_permit <;> simp)]
    exact ⟨rfl, rfl, rfl⟩

theorem processNeurons_ok (netuid : Int) (alphaOut ownerCut : ℚ) (blockNumber now : Int) :
    ∀ (l : List NeuronInput) (acc : Store × Caches × SyncStats),
      (∀ x ∈ l, isMalformedInput x = false) →
      ∃ acc', processNeurons netuid alphaOut ownerCut blockNumber now l acc = (acc', none) ∧
        acc'.1.blocks = acc.1.blocks ∧ acc'.1.subnets = acc.1.subnets ∧
        acc'.1.dumps = acc.1.dumps := by
  intro l
  induction l with
  | nil => exact fun acc _ => ⟨acc, rfl, rfl, rfl, rfl⟩
  | cons x rest ih =>
    intro acc hok
    cases x with
    | malformed m =>
      exact absurd (hok _ (List.mem_cons_self _ _)) (by simp [isMalformedInput])
    | valid r =>
      obtain ⟨σ, c, st⟩ := acc
      rw [processNeurons]
      obtain ⟨acc', h1, h2, h3, h4⟩ :=
        ih (processNeuron netuid alphaOut ownerCut blockNumber now r (σ, c, st))
          (fun y hy => hok y (List.mem_cons_of_mem _ hy))
      obtain ⟨f1, f2, f3⟩ := processNeuron_frames netuid alphaOut ownerCut blockNumber now r σ c st
      exact ⟨acc', h1, by rw [h2, f1], by rw [h3, f2], by rw [h4, f3]⟩

theorem first_malformed_split : ∀ (l : List NeuronInput),
    l.any isMalformedInput = true →
    ∃ pre msg post, l = pre ++ NeuronInput.malformed msg :: post ∧
      ∀ x ∈ pre, isMalformedInput x = false := by
  intro l
  induction l with
  | nil => intro h; simp at h
  | cons x rest ih =>
    intro h
    cases x with
    | malformed m =>
      exact ⟨[], m, rest, rfl, fun x hx => absurd hx (List.not_mem_nil x)⟩
    | valid r =>
      have hrest : rest.any isMalformedInput = true := by
        simpa [isMalformedInput] using h
      obtain ⟨pre, msg, post, hsplit, hpre⟩ := ih hrest
      refine ⟨.valid r :: pre, msg, post, by rw [hsplit, List.cons_append], ?_⟩
      intro x hx
      rcases List.mem_cons.mp hx with rfl | hx
      · rfl
      · exact hpre x hx

theorem sync_metagraph_err (mg : MetagraphInput) (blockNumber : Int)
    (blockTimestamp : Option Int) (dm : DumpMetadata) (ownerCut : ℚ) (now : Int)
    (σ : Store) (c : Caches) (hbad : mg.neurons.any isMalformedInput = true) :
    ∃ c' msg, sync_metagraph mg blockNumber blockTimestamp dm ownerCut now σ c =
      ((σ, c'), Except.error msg) := by
  obtain ⟨pre, msg, post, hsplit, hpre⟩ := first_malformed_split mg.neurons hbad
  obtain ⟨acc', hproc⟩ := processNeurons_error mg.netuid mg.alpha_out_emission ownerCut
    blockNumber now msg post pre
    (syncSubnet mg.netuid mg.alpha_out_emission (syncBlock blockNumber blockTimestamp dm σ),
     c, initStats) hpre
  obtain ⟨σe, ce, ste⟩ := acc'
  refine ⟨ce, msg, ?_⟩
  rw [sync_metagraph, syncMetagraphBody, hsplit]
  dsimp only
  rw [hproc]

theorem syncMetagraphDump_post (dm : DumpMetadata) (blockNumber : Int) (σ : Store) :
    findDump (syncMetagraphDump dm blockNumber σ).dumps dm.netuid blockNumber =
      some ⟨dm.netuid, blockNumber, epochPositionCode dm.epoch_position,
            dm.started_at, dm.finished_at⟩ ∧
    ∀ nu b, ¬(nu = dm.netuid ∧ b = blockNumber) →
      findDump (syncMetagraphDump dm blockNumber σ).dumps nu b = findDump σ.dumps nu b := by
  have hkey : ∀ (x : MetagraphDumpRow),
      (x.netuid == dm.netuid && x.block_number == blockNumber) = true →
      x.netuid = dm.netuid ∧ x.block_number = blockNumber := by
    intro x hx
    simpa using hx
  constructor
  · rcases h : findDump σ.dumps dm.netuid blockNumber with _ | row
    · rw [syncMetagraphDump]
      rw [h]
      rw [findDump]
      exact find?_append_last _ _ _ (by rw [findDump] at h; exact h) (by simp)
    · rw [syncMetagraphDump]
      rw [h]
      rw [findDump]
      have := find?_updateFirst_self
        (fun d => d.netuid == dm.netuid && d.block_number == blockNumber)
        (fun _ => ⟨dm.netuid, blockNumber, epochPositionCode dm.epoch_position,
          dm.started_at, dm.finished_at⟩) σ.dumps row (by rw [findDump] at h; exact h)
        (by simp)
      exact this
  · intro nu b hne
    rcases h : findDump σ.dumps dm.netuid blockNumber with _ | row
    · rw [syncMetagraphDump]
      rw [h]
      rw [findDump, findDump]
      refine find?_append_of_not _ _ _ ?_
      simp only [Bool.and_eq_false_iff, beq_eq_false_iff_ne, ne_eq]
      by_cases hn : nu = dm.netuid
      · exact Or.inr (fun hb => hne ⟨hn, hb.symm ▸ rfl⟩)
      · exact Or.inl (fun hn' => hn hn'.symm)
    · rw [syncMetagraphDump]
      rw [h]
      rw [findDump, findDump]
      refine find?_updateFirst_of_disjoint _ _ _ _ ?_
      intro x hx
      obtain ⟨hx1, hx2⟩ := hkey x hx
      constructor
      · simp only [hx1, hx2, Bool.and_eq_false_iff, beq_eq_false_iff_ne, ne_eq]
        by_cases hn : nu = dm.netuid
        · exact Or.inr (fun hb => hne ⟨hn, hb.symm⟩)
        · exact Or.inl (fun h' => hn h'.symm)
      · dsimp only
        simp only [Bool.and_eq_false_iff, beq_eq_false_iff_ne, ne_eq]
        by_cases hn : nu = dm.netuid
        · exact Or.inr (fun hb => hne ⟨hn, hb.symm⟩)
        · exact Or.inl (fun h' => hn h'.symm)

theorem sync_metagraph_ok_dumps (mg : MetagraphInput) (blockNumber : Int)
    (blockTimestamp : Option Int) (dm : DumpMetadata) (ownerCut : ℚ) (now : Int)
    (σ : Store) (c : Caches)
    (hok : ∀ x ∈ mg.neurons, isMalformedInput x = false) :
    ∃ σ' c' st, sync_metagraph mg blockNumber blockTimestamp dm ownerCut now σ c =
        ((σ', c'), Except.ok st) ∧
      (findDump σ'.dumps dm.netuid blockNumber).isSome ∧
      (∀ nu b, ¬(nu = dm.netuid ∧ b = blockNumber) →
        findDump σ'.dumps nu b = findDump σ.dumps nu b) := by
  obtain ⟨acc', hproc, hb, hs, hd⟩ := processNeurons_ok mg.netuid mg.alpha_out_emission
    ownerCut blockNumber now mg.neurons
    (syncSubnet mg.netuid mg.alpha_out_emission (syncBlock blockNumber blockTimestamp dm σ),
     c, initStats) hok
  obtain ⟨σ₃, c₃, st₃⟩ := acc'
  have hsync : sync_metagraph mg blockNumber blockTimestamp dm ownerCut now σ c =
      (((flushHotkeyLastSeen now (syncMetagraphDump dm blockNumber σ₃) c₃).1,
        (flushHotkeyLastSeen now (syncMetagraphDump dm blockNumber σ₃) c₃).2.1),
       Except.ok st₃) := by
    rw [sync_metagraph, syncMetagraphBody]
    dsimp only
    rw [hproc]
  refine ⟨_, _, st₃, hsync, ?_, ?_⟩
  · simp only [flushHotkeyLastSeen_frames]
    rw [(syncMetagraphDump_post dm blockNumber σ₃).1]
    rfl
  · intro nu b hne
    simp only [flushHotkeyLastSeen_frames]
    rw [(syncMetagraphDump_post dm blockNumber σ₃).2 nu b hne]
    have hd' : σ₃.dumps =
        (syncSubnet mg.netuid mg.alpha_out_emission
          (syncBlock blockNumber blockTimestamp dm σ)).dumps := hd
    rw [findDump, findDump, hd']
    simp only [syncSubnet_frames, syncBlock_frames]

theorem processBatchItem_spec (tempo : Int) (numDumps : Nat) (ownerCut : ℚ) (now : Int)
    (σ : Store) (c : Caches) (res : BatchResult) (it : BatchItem) :
    ∃ σ' c',
      processBatchItem tempo numDumps ownerCut now (σ, c, res) it =
        (σ', c',
         { res with
            processed := res.processed + (if itemOutcome it = .success then 1 else 0),
            errors := res.errors + (if itemOutcome it = .error then 1 else 0),
            statuses := res.statuses ++ [itemOutcome it] }) ∧
      (itemOutcome it = .success →
        (findDump σ'.dumps it.netuid it.block_number).isSome) ∧
      (itemOutcome it ≠ .success → σ' = σ) ∧
      (∀ nu b, ¬(nu = it.netuid ∧ b = it.block_number) →
        findDump σ'.dumps nu b = findDump σ.dumps nu b) := by
  rcases hf : it.fetch with mg | _ | msg
  · by_cases hempty : mg.neurons.isEmpty = true
    · refine ⟨σ, c, ?_, ?_, fun _ => rfl, fun nu b _ => rfl⟩
      · rw [processBatchItem]
        dsimp only
        rw [hf]
        dsimp only
        rw [if_pos hempty]
        rw [show itemOutcome it = ItemStatus.no_data by
          rw [itemOutcome, hf]; dsimp only; rw [if_pos hempty]]
        simp
      · intro hsucc
        rw [itemOutcome, hf] at hsucc
        dsimp only at hsucc
        rw [if_pos hempty] at hsucc
        exact absurd hsucc (by simp)
    · by_cases hbad : mg.neurons.any isMalformedInput = true
      · obtain ⟨c', msg, hsync⟩ := sync_metagraph_err mg it.block_number none
          ⟨it.netuid, get_epoch_position_str it.block_number it.netuid tempo numDumps,
           now, now⟩ ownerCut now σ c hbad
        have hout : itemOutcome it = .error := by
          rw [itemOutcome, hf]
          dsimp only
          rw [if_neg hempty, if_pos hbad]
        refine ⟨σ, c', ?_, ?_, fun _ => rfl, fun nu b _ => rfl⟩
        · rw [processBatchItem]
          dsimp only
          rw [hf]
          dsimp only
          rw [if_neg hempty, hsync, hout]
          simp
        · intro hsucc
          rw [hout] at hsucc
          exact absurd hsucc (by simp)
      · have hok : ∀ x ∈ mg.neurons, isMalformedInput x = false := by
          intro x hx
          by_contra hcon
          rw [Bool.not_eq_false] at hcon
          exact hbad (List.any_eq_true.mpr ⟨x, hx, hcon⟩)
        obtain ⟨σ', c', st, hsync, hdump, hother⟩ := sync_metagraph_ok_dumps mg
          it.block_number none
          ⟨it.netuid, get_epoch_position_str it.block_number it.netuid tempo numDumps,
           now, now⟩ ownerCut now σ c hok
        have hout : itemOutcome it = .success := by
          rw [itemOutcome, hf]
          dsimp only
          rw [if_neg hempty, if_neg (by rw [Bool.not_eq_true] at hbad ⊢; exact hbad)]
        refine ⟨σ', c', ?_, fun _ => hdump, ?_, hother⟩
        · rw [processBatchItem]
          dsimp only
          rw [hf]
          dsimp only
          rw [if_neg hempty, hsync, hout]
          simp
        · intro hsucc
          exact absurd hout hsucc
  · have hout : itemOutcome it = .no_data := by rw [itemOutcome, hf]
    refine ⟨σ, c, ?_, ?_, fun _ => rfl, fun nu b _ => rfl⟩
    · rw [processBatchItem]
      dsimp only
      rw [hf, hout]
      simp
    · intro hsucc
      rw [hout] at hsucc
      exact absurd hsucc (by simp)
  · have hout : itemOutcome it = .error := by rw [itemOutcome, hf]
    refine ⟨σ, c, ?_, ?_, fun _ => rfl, fun nu b _ => rfl⟩
    · rw [processBatchItem]
      dsimp only
      rw [hf, hout]
      simp
    · intro hsucc
      rw [hout] at hsucc
      exact absurd hsucc (by simp)

theorem batch_fold_spec (tempo : Int) (numDumps : Nat) (ownerCut : ℚ) (now : Int) :
    ∀ (items : List BatchItem) (σ : Store) (c : Caches) (res : BatchResult),
      ((items.map fun it => (it.netuid, it.block_number)).Nodup) →
      (∀ it ∈ items, findDump σ.dumps it.netuid it.block_number = none) →
      ∃ σ' c',
        items.foldl (processBatchItem tempo numDumps ownerCut now) (σ, c, res) =
          (σ', c',
           { res with
              processed := res.processed +
                items.countP (fun it => decide (itemOutcome it = .success)),
              errors := res.errors +
                items.countP (fun it => decide (itemOutcome it = .error)),
              statuses := res.statuses ++ items.map itemOutcome }) ∧
        (∀ it ∈ items, itemOutcome it = .success →
          (findDump σ'.dumps it.netuid it.block_number).isSome) ∧
        (∀ it ∈ items, itemOutcome it ≠ .success →
          findDump σ'.dumps it.netuid it.block_number = none) ∧
        (∀ nu b, (∀ it ∈ items, ¬(nu = it.netuid ∧ b = it.block_number)) →
          findDump σ'.dumps nu b = findDump σ.dumps nu b) := by
  intro items
  induction items with
  | nil =>
    intro σ c res _ _
    refine ⟨σ, c, by simp, ?_, ?_, fun nu b _ => rfl⟩
    · intro it hit
      exact absurd hit (List.not_mem_nil it)
    · intro it hit
      exact absurd hit (List.not_mem_nil it)
  | cons it rest ih =>
    intro σ c res hnodup hclean
    rw [List.map_cons, List.nodup_cons] at hnodup
    obtain ⟨hnotin, hrestdup⟩ := hnodup
    obtain ⟨σ₁, c₁, heq1, hsucc1, hskip1, hpres1⟩ :=
      processBatchItem_spec tempo numDumps ownerCut now σ c res it
    have hclean1 : ∀ it' ∈ rest, findDump σ₁.dumps it'.netuid it'.block_number = none := by
      intro it' hit'
      rw [hpres1 it'.netuid it'.block_number ?_]
      · exact hclean it' (List.mem_cons_of_mem _ hit')
      · rintro ⟨h1, h2⟩
        exact hnotin (by
          refine List.mem_map.mpr ⟨it', hit', ?_⟩
          rw [← h1, ← h2])
    obtain ⟨σ', c', heq2, hsucc2, hnone2, hpres2⟩ := ih σ₁ c₁ _ hrestdup hclean1
    have hheadpres : findDump σ'.dumps it.netuid it.block_number =
        findDump σ₁.dumps it.netuid it.block_number := by
      refine hpres2 it.netuid it.block_number ?_
      rintro it' hit' ⟨h1, h2⟩
      exact hnotin (by
        refine List.mem_map.mpr ⟨it', hit', ?_⟩
        rw [← h1, ← h2])
    refine ⟨σ', c', ?_, ?_, ?_, ?_⟩
    · rw [List.foldl_cons, heq1, heq2]
      have hps : res.processed + (if itemOutcome it = ItemStatus.success then 1 else 0) +
          rest.countP (fun x => decide (itemOutcome x = ItemStatus.success)) =
          res.processed +
            (it :: rest).countP (fun x => decide (itemOutcome x = ItemStatus.success)) := by
        rw [List.countP_cons]
        by_cases h1 : itemOutcome it = ItemStatus.success <;>
          simp [h1, decide_eq_true_eq] <;> omega
      have hes : res.errors + (if itemOutcome it = ItemStatus.error then 1 else 0) +
          rest.countP (fun x => decide (itemOutcome x = ItemStatus.error)) =
          res.errors +
            (it :: rest).countP (fun x => decide (itemOutcome x = ItemStatus.error)) := by
        rw [List.countP_cons]
        by_cases h1 : itemOutcome it = ItemStatus.error <;>
          simp [h1, decide_eq_true_eq] <;> omega
      have hstat : (res.statuses ++ [itemOutcome it]) ++ rest.map itemOutcome =
          res.statuses ++ (it :: rest).map itemOutcome := by simp
      rw [hps, hes, hstat]
    · intro it' hit' hout
      rcases List.mem_cons.mp hit' with rfl | hit'
      · rw [hheadpres]
        exact hsucc1 hout
      · exact hsucc2 it' hit' hout
    · intro it' hit' hout
      rcases List.mem_cons.mp hit' with rfl | hit'
      · rw [hheadpres, hskip1 hout]
        exact hclean it' (List.mem_cons_self _ _)
      · exact hnone2 it' hit' hout
    · intro nu b hb
      rw [hpres2 nu b (fun it' hit' => hb it' (List.mem_cons_of_mem _ hit')),
        hpres1 nu b (hb it (List.mem_cons_self _ _))]

/-- Claim C8: for every batch in which exactly one item raises an error
(at any position, with every other item succeeding), the batch loop
catches the failure, continues with the remainder, reports
`total_blocks = n`, `processed = n - 1` and `errors = 1`, and every
non-failing item's sync is durably committed (its `MetagraphDump`
provenance row exists afterwards) while the failing item's is not. -/
theorem fast_apy_sync_batch_partial_failure (tempo : Int) (numDumps : Nat) (ownerCut : ℚ)
    (now : Int) (σ : Store) (pre post : List BatchItem) (bad : BatchItem)
    (hpre : ∀ it ∈ pre, itemOutcome it = ItemStatus.success)
    (hpost : ∀ it ∈ post, itemOutcome it = ItemStatus.success)
    (hbad : itemOutcome bad = ItemStatus.error)
    (hkeys : (((pre ++ bad :: post).map fun it => (it.netuid, it.block_number))).Nodup)
    (hclean : ∀ it ∈ pre ++ bad :: post,
      findDump σ.dumps it.netuid it.block_number = none) :
    (fast_apy_sync_batch tempo numDumps ownerCut now (pre ++ bad :: post) σ).2.total_blocks
        = pre.length + 1 + post.length ∧
    (fast_apy_sync_batch tempo numDumps ownerCut now (pre ++ bad :: post) σ).2.processed
        = pre.length + post.length ∧
    (fast_apy_sync_batch tempo numDumps ownerCut now (pre ++ bad :: post) σ).2.errors = 1 ∧
    (∀ it ∈ pre ++ post,
      (findDump (fast_apy_sync_batch tempo numDumps ownerCut now
          (pre ++ bad :: post) σ).1.dumps it.netuid it.block_number).isSome) ∧
    findDump (fast_apy_sync_batch tempo numDumps ownerCut now
        (pre ++ bad :: post) σ).1.dumps bad.netuid bad.block_number = none := by
  obtain ⟨σ', c', heq, hsucc, hnone, _⟩ := batch_fold_spec tempo numDumps ownerCut now
    (pre ++ bad :: post) σ emptyCaches ⟨(pre ++ bad :: post).length, 0, 0, []⟩ hkeys hclean
  have hcs : (pre ++ bad :: post).countP
      (fun x => decide (itemOutcome x = ItemStatus.success)) =
      pre.length + post.length := by
    rw [List.countP_append, List.countP_cons]
    have e1 : pre.countP (fun x => decide (itemOutcome x = ItemStatus.success)) =
        pre.length :=
      List.countP_eq_length.mpr (fun a ha => by simp [hpre a ha])
    have e2 : post.countP (fun x => decide (itemOutcome x = ItemStatus.success)) =
        post.length :=
      List.countP_eq_length.mpr (fun a ha => by simp [hpost a ha])
    rw [e1, e2, hbad]
    simp
  have hce : (pre ++ bad :: post).countP
      (fun x => decide (itemOutcome x = ItemStatus.error)) = 1 := by
    rw [List.countP_append, List.countP_cons]
    have e1 : pre.countP (fun x => decide (itemOutcome x = ItemStatus.error)) = 0 :=
      List.countP_eq_zero.mpr (fun a ha => by simp [hpre a ha])
    have e2 : post.countP (fun x => decide (itemOutcome x = ItemStatus.error)) = 0 :=
      List.countP_eq_zero.mpr (fun a ha => by simp [hpost a ha])
    rw [e1, e2, hbad]
    simp
  simp only [fast_apy_sync_batch]
  rw [heq]
  refine ⟨by simp only [List.length_append, List.length_cons]; omega, ?_, ?_, ?_, ?_⟩
  · show 0 + (pre ++ bad :: post).countP
        (fun x => decide (itemOutcome x = ItemStatus.success)) =
      pre.length + post.length
    rw [hcs]
    omega
  · show 0 + (pre ++ bad :: post).countP
        (fun x => decide (itemOutcome x = ItemStatus.error)) = 1
    rw [hce]
  · intro it hit
    rcases List.mem_append.mp hit with h | h
    · exact hsucc it (List.mem_append_left _ h) (hpre it h)
    · exact hsucc it (List.mem_append_right _ (List.mem_cons_of_mem _ h)) (hpost it h)
  · refine hnone bad (List.mem_append_right _ (List.mem_cons_self _ _)) ?_
    rw [hbad]
    simp

/-- Claim C8 witness: the concrete batch of five items whose third raises
reports `total = 5`, `processed = 4`, `errors = 1`; item 1's dump row is
committed and the failing item's is absent. -/
theorem fast_apy_sync_batch_partial_failure_witness :
    (fast_apy_sync_batch 360 3 0 0 c8Items emptyStore).2.total_blocks = 5 ∧
    (fast_apy_sync_batch 360 3 0 0 c8Items emptyStore).2.processed = 4 ∧
    (fast_apy_sync_batch 360 3 0 0 c8Items emptyStore).2.errors = 1 ∧
    (findDump (fast_apy_sync_batch 360 3 0 0 c8Items emptyStore).1.dumps 1 101).isSome ∧
    findDump (fast_apy_sync_batch 360 3 0 0 c8Items emptyStore).1.dumps 3 103 = none := by
  have h := fast_apy_sync_batch_partial_failure 360 3 0 0 emptyStore
    [c8Item 1 101, c8Item 2 102] [c8Item 4 104, c8Item 5 105] c8Bad
    (by decide) (by decide) (by decide) (by decide) (by decide)
  have hlist : c8Items =
      [c8Item 1 101, c8Item 2 102] ++ c8Bad :: [c8Item 4 104, c8Item 5 105] := rfl
  rw [hlist]
  obtain ⟨h1, h2, h3, h4, h5⟩ := h
  refine ⟨by rw [h1]; rfl, by rw [h2]; rfl, h3, ?_, h5⟩
  exact h4 (c8Item 1 101) (by simp)

/- ## Claim C1 machinery: id discipline is preserved by every operation -/

theorem lookup_mem {α β : Type} [BEq α] [LawfulBEq α] {l : List (α × β)} {k : α} {v : β}
    (h : l.lookup k = some v) : (k, v) ∈ l := by
  obtain ⟨l₁, l₂, hsplit, -⟩ := List.lookup_eq_some_iff.mp h
  rw [hsplit]
  exact List.mem_append_right _ (List.mem_cons_self _ _)

theorem wf_untouched (σ : Store) (hwf : StoreWF σ) (bs : List BlockRow)
    (ss : List SubnetRow) (ms : List MechanismMetricsRow) (ds : List MetagraphDumpRow) :
    StoreWF { σ with blocks := bs, subnets := ss, mechanism_metrics := ms, dumps := ds } :=
  ⟨hwf.coldkey_lt, hwf.hotkey_lt, hwf.neuron_lt, hwf.snapshot_lt, hwf.hotkey_nodup,
   hwf.neuron_nodup, hwf.snapshot_nodup, hwf.neuron_key_nodup⟩

theorem nodup_map_append_fresh {α : Type} (l : List α) (x : α) (g : α → Nat) (n : Nat)
    (hnodup : (l.map g).Nodup) (hlt : ∀ r ∈ l, g r < n) (hx : g x = n) :
    ((l ++ [x]).map g).Nodup := by
  rw [List.map_append, List.map_singleton]
  refine List.Nodup.append hnodup (List.nodup_singleton _) ?_
  intro y hy hy'
  rw [List.mem_singleton] at hy'
  obtain ⟨r, hr, rfl⟩ := List.mem_map.mp hy
  have := hlt r hr
  omega

theorem wf_append_coldkey (σ : Store) (hwf : StoreWF σ) (a : String) :
    StoreWF { σ with coldkeys := σ.coldkeys ++ [⟨σ.nextId, a⟩], nextId := σ.nextId + 1 } := by
  refine ⟨?_, ?_, ?_, ?_, hwf.hotkey_nodup, hwf.neuron_nodup, hwf.snapshot_nodup,
    hwf.neuron_key_nodup⟩ <;> try dsimp only
  · intro r hr
    rcases List.mem_append.mp hr with h | h
    · have := hwf.coldkey_lt r h
      omega
    · rw [List.mem_singleton] at h
      subst h
      dsimp only
      omega
  · intro r hr
    have := hwf.hotkey_lt r hr
    omega
  · intro r hr
    have := hwf.neuron_lt r hr
    omega
  · intro r hr
    have := hwf.snapshot_lt r hr
    omega

theorem wf_append_hotkey (σ : Store) (hwf : StoreWF σ) (a : String) (ck : Nat) (t : Int) :
    StoreWF { σ with hotkeys := σ.hotkeys ++ [⟨σ.nextId, a, ck, t⟩],
                     nextId := σ.nextId + 1 } := by
  refine ⟨?_, ?_, ?_, ?_, ?_, hwf.neuron_nodup, hwf.snapshot_nodup,
    hwf.neuron_key_nodup⟩ <;> try dsimp only
  · intro r hr
    have := hwf.coldkey_lt r hr
    omega
  · intro r hr
    rcases List.mem_append.mp hr with h | h
    · have := hwf.hotkey_lt r h
      omega
    · rw [List.mem_singleton] at h
      subst h
      dsimp only
      omega
  · intro r hr
    have := hwf.neuron_lt r hr
    omega
  · intro r hr
    have := hwf.snapshot_lt r hr
    omega
  · exact nodup_map_append_fresh _ _ _ σ.nextId hwf.hotkey_nodup hwf.hotkey_lt rfl

theorem wf_append_neuron (σ : Store) (hwf : StoreWF σ) (hkId : Nat) (nu uid : Int)
    (hnone : findNeuron σ.neurons hkId nu = none) :
    StoreWF { σ with neurons := σ.neurons ++ [⟨σ.nextId, hkId, nu, uid⟩],
                     nextId := σ.nextId + 1 } := by
  refine ⟨?_, ?_, ?_, ?_, hwf.hotkey_nodup, ?_, hwf.snapshot_nodup,
    ?_⟩ <;> try dsimp only
  · intro r hr
    have := hwf.coldkey_lt r hr
    omega
  · intro r hr
    have := hwf.hotkey_lt r hr
    omega
  · intro r hr
    rcases List.mem_append.mp hr with h | h
    · have := hwf.neuron_lt r h
      omega
    · rw [List.mem_singleton] at h
      subst h
      dsimp only
      omega
  · intro r hr
    have := hwf.snapshot_lt r hr
    omega
  · exact nodup_map_append_fresh _ _ _ σ.nextId hwf.neuron_nodup hwf.neuron_lt rfl
  · rw [List.map_append, List.map_singleton]
    refine List.Nodup.append hwf.neuron_key_nodup (List.nodup_singleton _) ?_
    intro y hy hy'
    rw [List.mem_singleton] at hy'
    subst hy'
    obtain ⟨r, hr, hkey⟩ := List.mem_map.mp hy
    rw [findNeuron, List.find?_eq_none] at hnone
    refine hnone r hr ?_
    have h1 : r.hotkey_id = hkId := congrArg Prod.fst hkey
    have h2 : r.subnet_netuid = nu := congrArg Prod.snd hkey
    simp [h1, h2]

theorem wf_append_snapshot (σ : Store) (hwf : StoreWF σ) (row : NeuronSnapshotRow)
    (hid : row.id = σ.nextId) :
    StoreWF { σ with snapshots := σ.snapshots ++ [row], nextId := σ.nextId + 1 } := by
  refine ⟨?_, ?_, ?_, ?_, hwf.hotkey_nodup, hwf.neuron_nodup, ?_,
    hwf.neuron_key_nodup⟩ <;> try dsimp only
  · intro r hr
    have := hwf.coldkey_lt r hr
    omega
  · intro r hr
    have := hwf.hotkey_lt r hr
    omega
  · intro r hr
    have := hwf.neuron_lt r hr
    omega
  · intro r hr
    rcases List.mem_append.mp hr with h | h
    · have := hwf.snapshot_lt r h
      omega
    · rw [List.mem_singleton] at h
      subst h
      omega
  · exact nodup_map_append_fresh _ _ _ σ.nextId hwf.snapshot_nodup hwf.snapshot_lt hid

theorem wf_update_hotkeys (σ : Store) (hwf : StoreWF σ) (p : HotkeyRow → Bool)
    (f : HotkeyRow → HotkeyRow) (hid : ∀ x, (f x).id = x.id) :
    StoreWF { σ with hotkeys := updateFirst p f σ.hotkeys } := by
  refine ⟨hwf.coldkey_lt, ?_, hwf.neuron_lt, hwf.snapshot_lt, ?_, hwf.neuron_nodup,
    hwf.snapshot_nodup, hwf.neuron_key_nodup⟩ <;> try dsimp only
  · intro r hr
    rcases mem_updateFirst p f σ.hotkeys r hr with h | ⟨y, hy, -, rfl⟩
    · exact hwf.hotkey_lt r h
    · rw [hid y]
      exact hwf.hotkey_lt y hy
  · rw [updateFirst_map_key p f _ σ.hotkeys (fun x _ => hid x)]
    exact hwf.hotkey_nodup

theorem wf_update_neurons (σ : Store) (hwf : StoreWF σ) (p : NeuronRow → Bool)
    (f : NeuronRow → NeuronRow) (hid : ∀ x, (f x).id = x.id)
    (hkey : ∀ x, (f x).hotkey_id = x.hotkey_id ∧ (f x).subnet_netuid = x.subnet_netuid) :
    StoreWF { σ with neurons := updateFirst p f σ.neurons } := by
  refine ⟨hwf.coldkey_lt, hwf.hotkey_lt, ?_, hwf.snapshot_lt, hwf.hotkey_nodup, ?_,
    hwf.snapshot_nodup, ?_⟩ <;> try dsimp only
  · intro r hr
    rcases mem_updateFirst p f σ.neurons r hr with h | ⟨y, hy, -, rfl⟩
    · exact hwf.neuron_lt r h
    · rw [hid y]
      exact hwf.neuron_lt y hy
  · rw [updateFirst_map_key p f _ σ.neurons (fun x _ => hid x)]
    exact hwf.neuron_nodup
  · rw [updateFirst_map_key p f _ σ.neurons (fun x _ => by
      obtain ⟨h1, h2⟩ := hkey x
      rw [Prod.mk.injEq]
      exact ⟨h1, h2⟩)]
    exact hwf.neuron_key_nodup

theorem wf_update_snapshots (σ : Store) (hwf : StoreWF σ) (p : NeuronSnapshotRow → Bool)
    (f : NeuronSnapshotRow → NeuronSnapshotRow) (hid : ∀ x, (f x).id = x.id) :
    StoreWF { σ with snapshots := updateFirst p f σ.snapshots } := by
  refine ⟨hwf.coldkey_lt, hwf.hotkey_lt, hwf.neuron_lt, ?_, hwf.hotkey_nodup,
    hwf.neuron_nodup, ?_, hwf.neuron_key_nodup⟩ <;> try dsimp only
  · intro r hr
    rcases mem_updateFirst p f σ.snapshots r hr with h | ⟨y, hy, -, rfl⟩
    · exact hwf.snapshot_lt r h
    · rw [hid y]
      exact hwf.snapshot_lt y hy
  · rw [updateFirst_map_key p f _ σ.snapshots (fun x _ => hid x)]
    exact hwf.snapshot_nodup

theorem wf_map_hotkeys (σ : Store) (hwf : StoreWF σ) (g : HotkeyRow → HotkeyRow)
    (hid : ∀ x, (g x).id = x.id) :
    StoreWF { σ with hotkeys := σ.hotkeys.map g } := by
  refine ⟨hwf.coldkey_lt, ?_, hwf.neuron_lt, hwf.snapshot_lt, ?_, hwf.neuron_nodup,
    hwf.snapshot_nodup, hwf.neuron_key_nodup⟩ <;> try dsimp only
  · intro r hr
    obtain ⟨y, hy, rfl⟩ := List.mem_map.mp hr
    rw [hid y]
    exact hwf.hotkey_lt y hy
  · rw [List.map_map]
    have : (fun r => r.id) ∘ g = fun r => r.id := funext (fun x => hid x)
    rw [this]
    exact hwf.hotkey_nodup

theorem getOrCreateColdkey_wf (a : String) (σ : Store) (c : Caches) (hwf : StoreWF σ) :
    StoreWF (getOrCreateColdkey a σ c).1 := by
  rcases h0 : c.coldkey_cache.lookup a with _ | i
  · rcases h1 : findColdkey σ.coldkeys a with _ | row
    · rw [getOrCreateColdkey, h0, h1]
      exact wf_append_coldkey σ hwf a
    · rw [getOrCreateColdkey, h0, h1]
      exact hwf
  · rw [getOrCreateColdkey, h0]
    exact hwf

theorem getOrCreateHotkey_wf (a b : String) (now : Int) (σ : Store) (c : Caches)
    (hwf : StoreWF σ) : StoreWF (getOrCreateHotkey a b now σ c).1 := by
  rcases h0 : c.hotkey_cache.lookup a with _ | i
  · obtain ⟨cks, n, cc, i, hck⟩ := getOrCreateColdkey_shape b σ c
    have hwf₁ : StoreWF ({ σ with coldkeys := cks, nextId := n } : Store) := by
      have h := getOrCreateColdkey_wf b σ c hwf
      rw [hck] at h
      exact h
    rcases h1 : findHotkey σ.hotkeys a with _ | row
    · rw [getOrCreateHotkey, h0, hck]
      dsimp only
      rw [h1]
      exact wf_append_hotkey _ hwf₁ a i now
    · rw [getOrCreateHotkey, h0, hck]
      dsimp only
      rw [h1]
      dsimp only
      split
      · exact wf_update_hotkeys _ hwf₁ _ _ (fun x => rfl)
      · exact hwf₁
  · rw [getOrCreateHotkey, h0]
    exact hwf

theorem syncNeuron_wf (hkId : Nat) (netuid uid : Int) (σ : Store) (c : Caches)
    (hwf : StoreWF σ) : StoreWF (syncNeuron hkId netuid uid σ c).1 := by
  rcases h0 : c.neuron_cache.lookup (hkId, netuid) with _ | i
  · rcases h1 : findNeuron σ.neurons hkId netuid with _ | row
    · rw [syncNeuron, h0, h1]
      exact wf_append_neuron σ hwf hkId netuid uid h1
    · rw [syncNeuron, h0, h1]
      dsimp only
      split
      · exact wf_update_neurons σ hwf _ _ (fun x => rfl) (fun x => ⟨rfl, rfl⟩)
      · exact hwf
  · rw [syncNeuron, h0]
    exact hwf

theorem syncNeuronSnapshot_wf (neuronId : Nat) (blockNumber uid : Int)
    (totalStake emissions alphaStake dividendApy : ℚ) (isValidator : Bool)
    (trust rank : ℚ) (isActive : Bool) (σ : Store) (hwf : StoreWF σ) :
    StoreWF (syncNeuronSnapshot neuronId blockNumber uid totalStake emissions alphaStake
      dividendApy isValidator trust rank isActive σ).1 := by
  rcases h : findSnapshot σ.snapshots neuronId blockNumber with _ | row
  · rw [syncNeuronSnapshot, h]
    exact wf_append_snapshot σ hwf _ rfl
  · rw [syncNeuronSnapshot, h]
    exact wf_update_snapshots σ hwf _ _ (fun x => rfl)

theorem syncMechanismMetrics_wf (snapshotId : Nat) (mechId : Int) (dividend incentive : ℚ)
    (σ : Store) (hwf : StoreWF σ) :
    StoreWF (syncMechanismMetrics snapshotId mechId dividend incentive σ) := by
  obtain ⟨ms, h⟩ := syncMechanismMetrics_shape snapshotId mechId dividend incentive σ
  rw [h]
  exact wf_untouched σ hwf σ.blocks σ.subnets ms σ.dumps

theorem syncBlock_wf (blockNumber : Int) (blockTimestamp : Option Int) (dm : DumpMetadata)
    (σ : Store) (hwf : StoreWF σ) : StoreWF (syncBlock blockNumber blockTimestamp dm σ) := by
  obtain ⟨bs, h⟩ := syncBlock_shape blockNumber blockTimestamp dm σ
  rw [h]
  exact wf_untouched σ hwf bs σ.subnets σ.mechanism_metrics σ.dumps

theorem syncSubnet_wf (netuid : Int) (alphaOut : ℚ) (σ : Store) (hwf : StoreWF σ) :
    StoreWF (syncSubnet netuid alphaOut σ) := by
  obtain ⟨ss, h⟩ := syncSubnet_shape netuid alphaOut σ
  rw [h]
  exact wf_untouched σ hwf σ.blocks ss σ.mechanism_metrics σ.dumps

theorem syncMetagraphDump_wf (dm : DumpMetadata) (blockNumber : Int) (σ : Store)
    (hwf : StoreWF σ) : StoreWF (syncMetagraphDump dm blockNumber σ) := by
  obtain ⟨ds, h⟩ := syncMetagraphDump_shape dm blockNumber σ
  rw [h]
  exact wf_untouched σ hwf σ.blocks σ.subnets σ.mechanism_metrics ds

theorem flushHotkeyLastSeen_wf (now : Int) (σ : Store) (c : Caches) (hwf : StoreWF σ) :
    StoreWF (flushHotkeyLastSeen now σ c).1 := by
  unfold flushHotkeyLastSeen
  split
  · exact hwf
  · exact wf_map_hotkeys σ hwf _ (fun x => by split <;> rfl)

theorem processNeuron_wf (netuid : Int) (alphaOut ownerCut : ℚ) (blockNumber now : Int)
    (r : NeuronRec) (σ : Store) (c : Caches) (st : SyncStats) (hwf : StoreWF σ) :
    StoreWF (processNeuron netuid alphaOut ownerCut blockNumber now r (σ, c, st)).1 := by
  by_cases hv : r.validator_permit = true
  · rw [processNeuron_eq_validator netuid alphaOut ownerCut blockNumber now r σ c st hv]
    dsimp only
    by_cases hd : r.dividend > 0 ∨ r.incentive > 0
    · rw [if_pos hd]
      exact syncMechanismMetrics_wf _ _ _ _ _
        (syncNeuronSnapshot_wf _ _ _ _ _ _ _ _ _ _ _ _
          (syncNeuron_wf _ _ _ _ _
            (getOrCreateHotkey_wf _ _ _ _ _
              (getOrCreateColdkey_wf _ _ _ hwf))))
    · rw [if_neg hd]
      exact syncNeuronSnapshot_wf _ _ _ _ _ _ _ _ _ _ _ _
        (syncNeuron_wf _ _ _ _ _
          (getOrCreateHotkey_wf _ _ _ _ _
            (getOrCreateColdkey_wf _ _ _ hwf)))
  · rw [processNeuron_skip netuid alphaOut ownerCut blockNumber now r σ c st
      (by revert hv; cases r.validator_permit <;> simp)]
    exact hwf

/- ## Claim C1 machinery: generic list and key helpers -/

theorem lookup_none_key {α β : Type} [BEq α] [LawfulBEq α] :
    ∀ (l : List (α × β)) (k : α), l.lookup k = none → ∀ p ∈ l, ¬p.1 = k := by
  intro l k
  induction l with
  | nil => intro _ p hp; exact absurd hp (List.not_mem_nil p)
  | cons q qs ih =>
    intro h p hp
    obtain ⟨a, b⟩ := q
    rw [List.lookup] at h
    by_cases hak : (k == a) = true
    · rw [hak] at h
      exact absurd h (by simp)
    · rw [Bool.not_eq_true] at hak
      rw [hak] at h
      rcases List.mem_cons.mp hp with rfl | hp'
      · intro hh
        dsimp only at hh
        subst hh
        simp at hak
      · exact ih h p hp'

theorem contains_addId_self (i : Nat) (l : List Nat) : (addId i l).contains i = true := by
  rw [addId]
  by_cases h : l.contains i
  · rw [if_pos h]
    exact h
  · rw [if_neg h]
    simp

theorem contains_addId_of (i j : Nat) (l : List Nat) (h : l.contains j = true) :
    (addId i l).contains j = true := by
  rw [addId]
  by_cases hc : l.contains i
  · rw [if_pos hc]
    exact h
  · rw [if_neg hc]
    rw [List.contains_cons, h, Bool.or_true]

theorem mem_addId (i j : Nat) (l : List Nat) (h : j ∈ addId i l) : j = i ∨ j ∈ l := by
  rw [addId] at h
  by_cases hc : l.contains i
  · rw [if_pos hc] at h
    exact Or.inr h
  · rw [if_neg hc] at h
    exact List.mem_cons.mp h

theorem map_eq_self_of_eq {α : Type} (f : α → α) (l : List α)
    (h : ∀ x ∈ l, f x = x) : l.map f = l := by
  induction l with
  | nil => rfl
  | cons y ys ih =>
    rw [List.map_cons, h y (List.mem_cons_self y ys),
      ih (fun x hx => h x (List.mem_cons_of_mem y hx))]

theorem findColdkey_some {l : List ColdkeyRow} {a : String} {row : ColdkeyRow}
    (h : findColdkey l a = some row) : row ∈ l ∧ row.coldkey = a := by
  rw [findColdkey] at h
  refine ⟨List.mem_of_find?_eq_some h, ?_⟩
  simpa using List.find?_some h

theorem findHotkey_some {l : List HotkeyRow} {a : String} {row : HotkeyRow}
    (h : findHotkey l a = some row) : row ∈ l ∧ row.hotkey = a := by
  rw [findHotkey] at h
  refine ⟨List.mem_of_find?_eq_some h, ?_⟩
  simpa using List.find?_some h

theorem findNeuron_some {l : List NeuronRow} {hk : Nat} {nu : Int} {row : NeuronRow}
    (h : findNeuron l hk nu = some row) :
    row ∈ l ∧ row.hotkey_id = hk ∧ row.subnet_netuid = nu := by
  rw [findNeuron] at h
  refine ⟨List.mem_of_find?_eq_some h, ?_⟩
  simpa using List.find?_some h

theorem findSnapshot_some {l : List NeuronSnapshotRow} {nId : Nat} {b : Int}
    {row : NeuronSnapshotRow} (h : findSnapshot l nId b = some row) :
    row ∈ l ∧ row.neuron_id = nId ∧ row.block_number = b := by
  rw [findSnapshot] at h
  refine ⟨List.mem_of_find?_eq_some h, ?_⟩
  simpa using List.find?_some h

theorem hotkey_row_eq_of_id {σ : Store} (hwf : StoreWF σ) {x y : HotkeyRow}
    (hx : x ∈ σ.hotkeys) (hy : y ∈ σ.hotkeys) (h : x.id = y.id) : x = y :=
  List.inj_on_of_nodup_map hwf.hotkey_nodup hx hy h

theorem neuron_row_eq_of_id {σ : Store} (hwf : StoreWF σ) {x y : NeuronRow}
    (hx : x ∈ σ.neurons) (hy : y ∈ σ.neurons) (h : x.id = y.id) : x = y :=
  List.inj_on_of_nodup_map hwf.neuron_nodup hx hy h

theorem snapshot_row_eq_of_id {σ : Store} (hwf : StoreWF σ) {x y : NeuronSnapshotRow}
    (hx : x ∈ σ.snapshots) (hy : y ∈ σ.snapshots) (h : x.id = y.id) : x = y :=
  List.inj_on_of_nodup_map hwf.snapshot_nodup hx hy h

theorem count_neuron_key_le_one :
    ∀ (l : List NeuronRow),
      (l.map (fun r => (r.hotkey_id, r.subnet_netuid))).Nodup → ∀ (h : Nat) (nu : Int),
      l.countP (fun r => r.hotkey_id == h && r.subnet_netuid == nu) ≤ 1 := by
  intro l
  induction l with
  | nil =>
    intro _ h nu
    rw [List.countP_nil]
    exact Nat.zero_le 1
  | cons y ys ih =>
    intro hnodup h nu
    rw [List.map_cons, List.nodup_cons] at hnodup
    obtain ⟨hny, hnys⟩ := hnodup
    rw [List.countP_cons]
    by_cases hy : (y.hotkey_id == h && y.subnet_netuid == nu) = true
    · rw [hy]
      have hkey : y.hotkey_id = h ∧ y.subnet_netuid = nu := by simpa using hy
      have hzero : ys.countP (fun r => r.hotkey_id == h && r.subnet_netuid == nu) = 0 := by
        rw [List.countP_eq_zero]
        intro r hr hpr
        have hk : r.hotkey_id = h ∧ r.subnet_netuid = nu := by simpa using hpr
        exact hny (List.mem_map.mpr ⟨r, hr, by rw [hk.1, hk.2, hkey.1, hkey.2]⟩)
      rw [hzero]
      simp
    · rw [Bool.not_eq_true] at hy
      rw [hy]
      simpa using ih hnys h nu

/- ## Claim C1 machinery: congruence transports for the predicates -/

theorem cachesConsistent_congr (σ σ' : Store) (c : Caches)
    (h1 : σ'.coldkeys = σ.coldkeys) (h2 : σ'.hotkeys = σ.hotkeys)
    (h3 : σ'.neurons = σ.neurons) (hcc : CachesConsistent σ c) :
    CachesConsistent σ' c := by
  refine ⟨?_, ?_, ?_⟩
  · intro p hp
    rw [h1]
    exact hcc.coldkey_ok p hp
  · intro p hp
    rw [h2]
    exact hcc.hotkey_ok p hp
  · intro p hp
    rw [h3]
    exact hcc.neuron_ok p hp

theorem recSettled_congr (netuid : Int) (alphaOut ownerCut : ℚ) (blockNumber now : Int)
    (touched : List Nat) (r : NeuronRec) (σ σ' : Store)
    (h1 : σ'.coldkeys = σ.coldkeys) (h2 : σ'.hotkeys = σ.hotkeys)
    (h3 : σ'.neurons = σ.neurons) (h4 : σ'.snapshots = σ.snapshots)
    (h5 : σ'.mechanism_metrics = σ.mechanism_metrics)
    (hs : RecSettled netuid alphaOut ownerCut blockNumber now touched r σ) :
    RecSettled netuid alphaOut ownerCut blockNumber now touched r σ' := by
  intro hv
  obtain ⟨ck, hk, n, s, hck, hhk, hlink, htouch, hn, huid, hsnap, hdef, hmech⟩ := hs hv
  exact ⟨ck, hk, n, s, by rw [h1]; exact hck, by rw [h2]; exact hhk, hlink, htouch,
    by rw [h3]; exact hn, huid, by rw [h4]; exact hsnap, hdef,
    fun hpos => by rw [h5]; exact hmech hpos⟩

theorem recSettled_mono_touched (netuid : Int) (alphaOut ownerCut : ℚ)
    (blockNumber now : Int) (touched touched' : List Nat) (r : NeuronRec) (σ : Store)
    (hmono : ∀ i, touched.contains i = true → touched'.contains i = true)
    (hs : RecSettled netuid alphaOut ownerCut blockNumber now touched r σ) :
    RecSettled netuid alphaOut ownerCut blockNumber now touched' r σ := by
  intro hv
  obtain ⟨ck, hk, n, s, hck, hhk, hlink, htouch, rest⟩ := hs hv
  refine ⟨ck, hk, n, s, hck, hhk, hlink, ?_, rest⟩
  rcases htouch with h | h
  · exact Or.inl (hmono _ h)
  · exact Or.inr h

theorem blockSettled_congr (blockNumber : Int) (blockTimestamp : Option Int)
    (σ σ' : Store) (h : σ'.blocks = σ.blocks)
    (hs : BlockSettled blockNumber blockTimestamp σ) :
    BlockSettled blockNumber blockTimestamp σ' := by
  obtain ⟨b, hb, rest⟩ := hs
  exact ⟨b, by rw [h]; exact hb, rest⟩

theorem subnetSettled_congr (netuid : Int) (alphaOut : ℚ) (σ σ' : Store)
    (h : σ'.subnets = σ.subnets) (hs : SubnetSettled netuid alphaOut σ) :
    SubnetSettled netuid alphaOut σ' := by
  obtain ⟨s, hfind, rest⟩ := hs
  exact ⟨s, by rw [h]; exact hfind, rest⟩

theorem dumpSettled_congr (dm : DumpMetadata) (blockNumber : Int) (σ σ' : Store)
    (h : σ'.dumps = σ.dumps) (hs : DumpSettled dm blockNumber σ) :
    DumpSettled dm blockNumber σ' := by
  unfold DumpSettled at hs ⊢
  rw [h]
  exact hs

theorem lookup_cons_self {α β : Type} [BEq α] [LawfulBEq α] (k : α) (v : β)
    (l : List (α × β)) : ((k, v) :: l).lookup k = some v := by
  simp [List.lookup]

theorem mem_updateFirst_of_mem {α : Type} (p : α → Bool) (f : α → α) :
    ∀ (l : List α), ∀ x ∈ l, ∃ y ∈ updateFirst p f l, y = x ∨ y = f x := by
  intro l
  induction l with
  | nil => intro x hx; exact absurd hx (List.not_mem_nil x)
  | cons z zs ih =>
    intro x hx
    by_cases hp : p z = true
    · rw [updateFirst, if_pos hp]
      rcases List.mem_cons.mp hx with rfl | hx'
      · exact ⟨f x, List.mem_cons_self _ _, Or.inr rfl⟩
      · exact ⟨x, List.mem_cons_of_mem _ hx', Or.inl rfl⟩
    · rw [updateFirst, if_neg hp]
      rcases List.mem_cons.mp hx with rfl | hx'
      · exact ⟨x, List.mem_cons_self _ _, Or.inl rfl⟩
      · obtain ⟨y, hy, hyy⟩ := ih x hx'
        exact ⟨y, List.mem_cons_of_mem _ hy, hyy⟩

/- ## Claim C1 machinery: what a first run writes, operation by operation -/

theorem getOrCreateColdkey_settle (a : String) (σ : Store) (c : Caches)
    (hwf : StoreWF σ) (hcc : CachesConsistent σ c) :
    ∃ σ₁ c₁ ckid,
      getOrCreateColdkey a σ c = (σ₁, c₁, ckid) ∧
      StoreWF σ₁ ∧ CachesConsistent σ₁ c₁ ∧
      (∃ ck, findColdkey σ₁.coldkeys a = some ck ∧ ck.id = ckid) ∧
      c₁.coldkey_cache.lookup a = some ckid ∧
      (∀ a' ckx, findColdkey σ.coldkeys a' = some ckx →
        findColdkey σ₁.coldkeys a' = some ckx) ∧
      σ₁.hotkeys = σ.hotkeys ∧ σ₁.neurons = σ.neurons ∧ σ₁.snapshots = σ.snapshots ∧
      σ₁.mechanism_metrics = σ.mechanism_metrics ∧ σ₁.blocks = σ.blocks ∧
      σ₁.subnets = σ.subnets ∧ σ₁.dumps = σ.dumps ∧
      c₁.hotkey_cache = c.hotkey_cache ∧ c₁.neuron_cache = c.neuron_cache ∧
      c₁.hotkeys_to_update = c.hotkeys_to_update := by
  rcases h0 : c.coldkey_cache.lookup a with _ | i
  · rcases h1 : findColdkey σ.coldkeys a with _ | row
    · have hnew : findColdkey (σ.coldkeys ++ [⟨σ.nextId, a⟩]) a =
          some ⟨σ.nextId, a⟩ := by
        rw [findColdkey] at h1 ⊢
        exact find?_append_last _ _ _ h1 (by simp)
      refine ⟨{ σ with coldkeys := σ.coldkeys ++ [⟨σ.nextId, a⟩], nextId := σ.nextId + 1 },
        { c with coldkey_cache := (a, σ.nextId) :: c.coldkey_cache }, σ.nextId,
        by rw [getOrCreateColdkey, h0, h1], wf_append_coldkey σ hwf a, ?_,
        ⟨⟨σ.nextId, a⟩, hnew, rfl⟩, lookup_cons_self a σ.nextId c.coldkey_cache, ?_,
        rfl, rfl, rfl, rfl, rfl, rfl, rfl, rfl, rfl, rfl⟩
      · refine ⟨?_, hcc.hotkey_ok, hcc.neuron_ok⟩
        intro p hp
        rcases List.mem_cons.mp hp with rfl | hp'
        · exact ⟨⟨σ.nextId, a⟩, hnew, rfl⟩
        · obtain ⟨rowp, hrp, hip⟩ := hcc.coldkey_ok p hp'
          exact ⟨rowp, by rw [findColdkey] at hrp ⊢; exact find?_append_some _ _ _ _ hrp, hip⟩
      · intro a' ckx hx
        rw [findColdkey] at hx ⊢
        exact find?_append_some _ _ _ _ hx
    · refine ⟨σ, { c with coldkey_cache := (a, row.id) :: c.coldkey_cache }, row.id,
        by rw [getOrCreateColdkey, h0, h1], hwf, ?_, ⟨row, h1, rfl⟩,
        lookup_cons_self a row.id c.coldkey_cache, fun a' ckx hx => hx,
        rfl, rfl, rfl, rfl, rfl, rfl, rfl, rfl, rfl, rfl⟩
      refine ⟨?_, hcc.hotkey_ok, hcc.neuron_ok⟩
      intro p hp
      rcases List.mem_cons.mp hp with rfl | hp'
      · exact ⟨row, h1, rfl⟩
      · exact hcc.coldkey_ok p hp'
  · obtain ⟨row, hrow, hid⟩ := hcc.coldkey_ok (a, i) (lookup_mem h0)
    exact ⟨σ, c, i, by rw [getOrCreateColdkey, h0], hwf, hcc, ⟨row, hrow, hid⟩, h0,
      fun a' ckx hx => hx, rfl, rfl, rfl, rfl, rfl, rfl, rfl, rfl, rfl, rfl⟩

theorem getOrCreateHotkey_settle (a b : String) (now : Int) (σ : Store) (c : Caches)
    (hwf : StoreWF σ) (hcc : CachesConsistent σ c)
    (hmiss : c.hotkey_cache.lookup a = none)
    (ckid : Nat) (hck : c.coldkey_cache.lookup b = some ckid) :
    ∃ σ₂ c₂ hkid,
      getOrCreateHotkey a b now σ c = (σ₂, c₂, hkid) ∧
      StoreWF σ₂ ∧ CachesConsistent σ₂ c₂ ∧
      (∃ hk, findHotkey σ₂.hotkeys a = some hk ∧ hk.id = hkid ∧ hk.coldkey_id = ckid ∧
        (c₂.hotkeys_to_update.contains hk.id = true ∨ hk.last_seen = now)) ∧
      (∀ a' hx, ¬a' = a → findHotkey σ.hotkeys a' = some hx →
        findHotkey σ₂.hotkeys a' = some hx) ∧
      (∀ row ∈ σ.hotkeys, ∃ row₂ ∈ σ₂.hotkeys,
        row₂.hotkey = row.hotkey ∧ row₂.id = row.id) ∧
      (∀ i, c.hotkeys_to_update.contains i = true →
        c₂.hotkeys_to_update.contains i = true) ∧
      (∀ p ∈ c₂.hotkey_cache, p ∈ c.hotkey_cache ∨ p.1 = a) ∧
      σ₂.coldkeys = σ.coldkeys ∧ σ₂.neurons = σ.neurons ∧ σ₂.snapshots = σ.snapshots ∧
      σ₂.mechanism_metrics = σ.mechanism_metrics ∧ σ₂.blocks = σ.blocks ∧
      σ₂.subnets = σ.subnets ∧ σ₂.dumps = σ.dumps ∧
      c₂.coldkey_cache = c.coldkey_cache ∧ c₂.neuron_cache = c.neuron_cache := by
  have hcold : getOrCreateColdkey b σ c = (σ, c, ckid) := by
    rw [getOrCreateColdkey, hck]
  have hkeys : ∀ p ∈ c.hotkey_cache, ¬p.1 = a := lookup_none_key _ _ hmiss
  rcases h1 : findHotkey σ.hotkeys a with _ | row
  · -- get_or_create creates a fresh hotkey row linked to the coldkey
    refine ⟨{ σ with
        hotkeys := (σ.hotkeys ++ [⟨σ.nextId, a, ckid, now⟩]),
        nextId := (σ.nextId + 1) },
      { c with hotkey_cache := ((a, σ.nextId) :: c.hotkey_cache) }, σ.nextId,
      by rw [getOrCreateHotkey, hmiss, hcold]; dsimp only; rw [h1],
      wf_append_hotkey σ hwf a ckid now, ?_, ?_, ?_, ?_, fun i h => h, ?_,
      rfl, rfl, rfl, rfl, rfl, rfl, rfl, rfl, rfl⟩
    · refine ⟨hcc.coldkey_ok, ?_, hcc.neuron_ok⟩
      intro p hp
      rcases List.mem_cons.mp hp with rfl | hp'
      · refine ⟨⟨σ.nextId, a, ckid, now⟩, ?_, rfl⟩
        rw [findHotkey] at h1 ⊢
        exact find?_append_last _ _ _ h1 (by simp)
      · obtain ⟨rowp, hrp, hip⟩ := hcc.hotkey_ok p hp'
        refine ⟨rowp, ?_, hip⟩
        have hne := hkeys p hp'
        have hqx : ((⟨σ.nextId, a, ckid, now⟩ : HotkeyRow).hotkey == p.1) = false := by
          simp only [beq_eq_false_iff_ne]
          exact fun h => hne h.symm
        rw [findHotkey] at hrp ⊢
        dsimp only
        rw [find?_append_of_not σ.hotkeys ⟨σ.nextId, a, ckid, now⟩
          (fun r => r.hotkey == p.1) hqx]
        exact hrp
    · refine ⟨⟨σ.nextId, a, ckid, now⟩, ?_, rfl, rfl, Or.inr rfl⟩
      rw [findHotkey] at h1 ⊢
      exact find?_append_last _ _ _ h1 (by simp)
    · intro a' hx hne hfx
      have hqx : ((⟨σ.nextId, a, ckid, now⟩ : HotkeyRow).hotkey == a') = false := by
        simp only [beq_eq_false_iff_ne]
        exact fun h => hne h.symm
      rw [findHotkey] at hfx ⊢
      dsimp only
      rw [find?_append_of_not σ.hotkeys ⟨σ.nextId, a, ckid, now⟩
        (fun r => r.hotkey == a') hqx]
      exact hfx
    · intro rowx hx
      exact ⟨rowx, List.mem_append_left _ hx, rfl, rfl⟩
    · intro p hp
      rcases List.mem_cons.mp hp with rfl | hp'
      · exact Or.inr rfl
      · exact Or.inl hp'
  · obtain ⟨hrowmem, hrowa⟩ := findHotkey_some h1
    by_cases h3 : row.coldkey_id ≠ ckid
    · -- existing hotkey re-linked to the observed coldkey
      refine ⟨{ σ with
          hotkeys := (updateFirst (fun h => h.hotkey == a) (fun h => { h with coldkey_id := ckid }) σ.hotkeys) },
        { c with
          hotkey_cache := ((a, row.id) :: c.hotkey_cache),
          hotkeys_to_update := (addId row.id c.hotkeys_to_update) }, row.id,
        by rw [getOrCreateHotkey, hmiss, hcold]; dsimp only; rw [h1]; dsimp only;
           rw [if_pos h3],
        wf_update_hotkeys σ hwf _ _ (fun x => rfl), ?_, ?_, ?_, ?_, ?_, ?_,
        rfl, rfl, rfl, rfl, rfl, rfl, rfl, rfl, rfl⟩
      · refine ⟨hcc.coldkey_ok, ?_, hcc.neuron_ok⟩
        intro p hp
        rcases List.mem_cons.mp hp with rfl | hp'
        · refine ⟨{ row with coldkey_id := ckid }, ?_, rfl⟩
          rw [findHotkey] at h1 ⊢
          exact find?_updateFirst_self _ _ _ _ h1 (by simp [hrowa])
        · obtain ⟨rowp, hrp, hip⟩ := hcc.hotkey_ok p hp'
          refine ⟨rowp, ?_, hip⟩
          have hne := hkeys p hp'
          have hdisj : ∀ x : HotkeyRow, ((fun h => h.hotkey == a) x) = true →
              ((fun r => r.hotkey == p.1) x = false ∧
               (fun r => r.hotkey == p.1) ((fun h => { h with coldkey_id := ckid }) x)
                 = false) := by
            intro x hxa
            have hxha : x.hotkey = a := by simpa using hxa
            constructor
            · simp only [beq_eq_false_iff_ne]
              rw [hxha]
              exact fun h => hne h.symm
            · simp only [beq_eq_false_iff_ne]
              rw [hxha]
              exact fun h => hne h.symm
          rw [findHotkey] at hrp ⊢
          dsimp only
          rw [find?_updateFirst_of_disjoint (fun h => h.hotkey == a)
            (fun r => r.hotkey == p.1) (fun h => { h with coldkey_id := ckid })
            σ.hotkeys hdisj]
          exact hrp
      · refine ⟨{ row with coldkey_id := ckid }, ?_, rfl, rfl, Or.inl ?_⟩
        · rw [findHotkey] at h1 ⊢
          exact find?_updateFirst_self _ _ _ _ h1 (by simp [hrowa])
        · exact contains_addId_self row.id c.hotkeys_to_update
      · intro a' hx hne hfx
        have hdisj : ∀ x : HotkeyRow, ((fun h => h.hotkey == a) x) = true →
            ((fun r => r.hotkey == a') x = false ∧
             (fun r => r.hotkey == a') ((fun h => { h with coldkey_id := ckid }) x)
               = false) := by
          intro x hxa
          have hxha : x.hotkey = a := by simpa using hxa
          constructor
          · simp only [beq_eq_false_iff_ne]
            rw [hxha]
            exact fun h => hne h.symm
          · simp only [beq_eq_false_iff_ne]
            rw [hxha]
            exact fun h => hne h.symm
        rw [findHotkey] at hfx ⊢
        dsimp only
        rw [find?_updateFirst_of_disjoint (fun h => h.hotkey == a)
          (fun r => r.hotkey == a') (fun h => { h with coldkey_id := ckid })
          σ.hotkeys hdisj]
        exact hfx
      · intro rowx hx
        obtain ⟨y, hy, hyy⟩ := mem_updateFirst_of_mem _ _ σ.hotkeys rowx hx
        rcases hyy with rfl | rfl
        · exact ⟨y, hy, rfl, rfl⟩
        · exact ⟨_, hy, rfl, rfl⟩
      · exact fun i h => contains_addId_of _ _ _ h
      · intro p hp
        rcases List.mem_cons.mp hp with rfl | hp'
        · exact Or.inr rfl
        · exact Or.inl hp'
    · -- existing hotkey already linked: pure read
      have hckid : row.coldkey_id = ckid := not_not.mp h3
      refine ⟨σ,
        { c with
          hotkey_cache := ((a, row.id) :: c.hotkey_cache),
          hotkeys_to_update := (addId row.id c.hotkeys_to_update) }, row.id,
        by rw [getOrCreateHotkey, hmiss, hcold]; dsimp only; rw [h1]; dsimp only;
           rw [if_neg h3],
        hwf, ?_,
        ⟨row, h1, rfl, hckid, Or.inl (contains_addId_self row.id c.hotkeys_to_update)⟩,
        fun a' hx hne hfx => hfx, fun rowx hx => ⟨rowx, hx, rfl, rfl⟩,
        fun i h => contains_addId_of _ _ _ h, ?_,
        rfl, rfl, rfl, rfl, rfl, rfl, rfl, rfl, rfl⟩
      · refine ⟨hcc.coldkey_ok, ?_, hcc.neuron_ok⟩
        intro p hp
        rcases List.mem_cons.mp hp with rfl | hp'
        · exact ⟨row, h1, rfl⟩
        · exact hcc.hotkey_ok p hp'
      · intro p hp
        rcases List.mem_cons.mp hp with rfl | hp'
        · exact Or.inr rfl
        · exact Or.inl hp'

theorem neuron_pred_false (row : NeuronRow) (h' : Nat) (nu' : Int)
    (hne : ¬(row.hotkey_id = h' ∧ row.subnet_netuid = nu')) :
    (row.hotkey_id == h' && row.subnet_netuid == nu') = false := by
  by_cases h1 : row.hotkey_id = h'
  · by_cases h2 : row.subnet_netuid = nu'
    · exact absurd ⟨h1, h2⟩ hne
    · simp [h2]
  · simp [h1]

theorem snapshot_pred_false (row : NeuronSnapshotRow) (n' : Nat) (b' : Int)
    (hne : ¬(row.neuron_id = n' ∧ row.block_number = b')) :
    (row.neuron_id == n' && row.block_number == b') = false := by
  by_cases h1 : row.neuron_id = n'
  · by_cases h2 : row.block_number = b'
    · exact absurd ⟨h1, h2⟩ hne
    · simp [h2]
  · simp [h1]

theorem mech_pred_false (row : MechanismMetricsRow) (s' : Nat) (m' : Int)
    (hne : ¬(row.snapshot_id = s' ∧ row.mech_id = m')) :
    (row.snapshot_id == s' && row.mech_id == m') = false := by
  by_cases h1 : row.snapshot_id = s'
  · by_cases h2 : row.mech_id = m'
    · exact absurd ⟨h1, h2⟩ hne
    · simp [h2]
  · simp [h1]

theorem syncNeuron_settle (hkId : Nat) (netuid uid : Int) (σ : Store) (c : Caches)
    (hwf : StoreWF σ) (hcc : CachesConsistent σ c)
    (hmiss : c.neuron_cache.lookup (hkId, netuid) = none) :
    ∃ σ₃ c₃ nid,
      syncNeuron hkId netuid uid σ c = (σ₃, c₃, nid) ∧
      StoreWF σ₃ ∧ CachesConsistent σ₃ c₃ ∧
      (∃ n, findNeuron σ₃.neurons hkId netuid = some n ∧ n.id = nid ∧ n.uid = uid) ∧
      (∀ h' nu' nx, ¬(h' = hkId ∧ nu' = netuid) → findNeuron σ.neurons h' nu' = some nx →
        findNeuron σ₃.neurons h' nu' = some nx) ∧
      (∀ q ∈ c₃.neuron_cache, q ∈ c.neuron_cache ∨ q.1 = (hkId, netuid)) ∧
      σ₃.coldkeys = σ.coldkeys ∧ σ₃.hotkeys = σ.hotkeys ∧ σ₃.snapshots = σ.snapshots ∧
      σ₃.mechanism_metrics = σ.mechanism_metrics ∧ σ₃.blocks = σ.blocks ∧
      σ₃.subnets = σ.subnets ∧ σ₃.dumps = σ.dumps ∧
      c₃.coldkey_cache = c.coldkey_cache ∧ c₃.hotkey_cache = c.hotkey_cache ∧
      c₃.hotkeys_to_update = c.hotkeys_to_update := by
  have hkeys := lookup_none_key _ _ hmiss
  rcases h1 : findNeuron σ.neurons hkId netuid with _ | row
  · refine ⟨{ σ with
        neurons := (σ.neurons ++ [⟨σ.nextId, hkId, netuid, uid⟩]),
        nextId := (σ.nextId + 1) },
      { c with neuron_cache := (((hkId, netuid), σ.nextId) :: c.neuron_cache) }, σ.nextId,
      by rw [syncNeuron, hmiss, h1], wf_append_neuron σ hwf hkId netuid uid h1,
      ?_, ?_, ?_, ?_, rfl, rfl, rfl, rfl, rfl, rfl, rfl, rfl, rfl, rfl⟩
    · refine ⟨hcc.coldkey_ok, hcc.hotkey_ok, ?_⟩
      intro q hq
      rcases List.mem_cons.mp hq with rfl | hq'
      · refine ⟨⟨σ.nextId, hkId, netuid, uid⟩, ?_, rfl⟩
        rw [findNeuron] at h1 ⊢
        exact find?_append_last _ _ _ h1 (by simp)
      · obtain ⟨rowq, hrq, hiq⟩ := hcc.neuron_ok q hq'
        refine ⟨rowq, ?_, hiq⟩
        have hne := hkeys q hq'
        have hqx : ((⟨σ.nextId, hkId, netuid, uid⟩ : NeuronRow).hotkey_id == q.1.1 &&
            (⟨σ.nextId, hkId, netuid, uid⟩ : NeuronRow).subnet_netuid == q.1.2) = false := by
          refine neuron_pred_false _ _ _ ?_
          intro hb
          exact hne (Prod.ext_iff.mpr ⟨hb.1.symm, hb.2.symm⟩)
        rw [findNeuron] at hrq ⊢
        dsimp only
        rw [find?_append_of_not σ.neurons ⟨σ.nextId, hkId, netuid, uid⟩
          (fun r => r.hotkey_id == q.1.1 && r.subnet_netuid == q.1.2) hqx]
        exact hrq
    · refine ⟨⟨σ.nextId, hkId, netuid, uid⟩, ?_, rfl, rfl⟩
      rw [findNeuron] at h1 ⊢
      exact find?_append_last _ _ _ h1 (by simp)
    · intro h' nu' nx hne hfx
      have hqx : ((⟨σ.nextId, hkId, netuid, uid⟩ : NeuronRow).hotkey_id == h' &&
          (⟨σ.nextId, hkId, netuid, uid⟩ : NeuronRow).subnet_netuid == nu') = false := by
        refine neuron_pred_false _ _ _ ?_
        intro hb
        exact hne ⟨hb.1.symm, hb.2.symm⟩
      rw [findNeuron] at hfx ⊢
      dsimp only
      rw [find?_append_of_not σ.neurons ⟨σ.nextId, hkId, netuid, uid⟩
        (fun r => r.hotkey_id == h' && r.subnet_netuid == nu') hqx]
      exact hfx
    · intro q hq
      rcases List.mem_cons.mp hq with rfl | hq'
      · exact Or.inr rfl
      · exact Or.inl hq'
  · obtain ⟨hrowmem, hrowk, hrownu⟩ := findNeuron_some h1
    by_cases h3 : row.uid ≠ uid
    · have hdisj : ∀ (s' : Nat) (m' : Int), ¬(s' = hkId ∧ m' = netuid) →
          ∀ x : NeuronRow, ((fun n => n.hotkey_id == hkId && n.subnet_netuid == netuid) x)
            = true →
          ((fun r => r.hotkey_id == s' && r.subnet_netuid == m') x = false ∧
           (fun r => r.hotkey_id == s' && r.subnet_netuid == m')
             ((fun n => { n with uid := uid }) x) = false) := by
        intro s' m' hne x hx
        have hxk : x.hotkey_id = hkId ∧ x.subnet_netuid = netuid := by simpa using hx
        constructor
        · refine neuron_pred_false _ _ _ ?_
          intro hb
          exact hne ⟨by rw [← hb.1, hxk.1], by rw [← hb.2, hxk.2]⟩
        · refine neuron_pred_false _ _ _ ?_
          intro hb
          exact hne ⟨by rw [← hb.1]; exact hxk.1, by rw [← hb.2]; exact hxk.2⟩
      refine ⟨{ σ with
          neurons := (updateFirst (fun n => n.hotkey_id == hkId && n.subnet_netuid == netuid) (fun n => { n with uid := uid }) σ.neurons) },
        { c with neuron_cache := (((hkId, netuid), row.id) :: c.neuron_cache) }, row.id,
        by rw [syncNeuron, hmiss, h1]; dsimp only; rw [if_pos h3],
        wf_update_neurons σ hwf _ _ (fun x => rfl) (fun x => ⟨rfl, rfl⟩),
        ?_, ?_, ?_, ?_, rfl, rfl, rfl, rfl, rfl, rfl, rfl, rfl, rfl, rfl⟩
      · refine ⟨hcc.coldkey_ok, hcc.hotkey_ok, ?_⟩
        intro q hq
        rcases List.mem_cons.mp hq with rfl | hq'
        · refine ⟨{ row with uid := uid }, ?_, rfl⟩
          rw [findNeuron] at h1 ⊢
          exact find?_updateFirst_self _ _ _ _ h1 (by simp [hrowk, hrownu])
        · obtain ⟨rowq, hrq, hiq⟩ := hcc.neuron_ok q hq'
          refine ⟨rowq, ?_, hiq⟩
          have hne := hkeys q hq'
          rw [findNeuron] at hrq ⊢
          dsimp only
          rw [find?_updateFirst_of_disjoint
            (fun n => n.hotkey_id == hkId && n.subnet_netuid == netuid)
            (fun r => r.hotkey_id == q.1.1 && r.subnet_netuid == q.1.2)
            (fun n => { n with uid := uid }) σ.neurons
            (hdisj q.1.1 q.1.2 (fun hb =>
              hne (Prod.ext_iff.mpr ⟨hb.1, hb.2⟩)))]
          exact hrq
      · refine ⟨{ row with uid := uid }, ?_, rfl, rfl⟩
        rw [findNeuron] at h1 ⊢
        exact find?_updateFirst_self _ _ _ _ h1 (by simp [hrowk, hrownu])
      · intro h' nu' nx hne hfx
        rw [findNeuron] at hfx ⊢
        dsimp only
        rw [find?_updateFirst_of_disjoint
          (fun n => n.hotkey_id == hkId && n.subnet_netuid == netuid)
          (fun r => r.hotkey_id == h' && r.subnet_netuid == nu')
          (fun n => { n with uid := uid }) σ.neurons
          (hdisj h' nu' hne)]
        exact hfx
      · intro q hq
        rcases List.mem_cons.mp hq with rfl | hq'
        · exact Or.inr rfl
        · exact Or.inl hq'
    · have huid : row.uid = uid := not_not.mp h3
      refine ⟨σ, { c with neuron_cache := (((hkId, netuid), row.id) :: c.neuron_cache) },
        row.id,
        by rw [syncNeuron, hmiss, h1]; dsimp only; rw [if_neg h3],
        hwf, ?_, ⟨row, h1, rfl, huid⟩, fun h' nu' nx hne hfx => hfx, ?_,
        rfl, rfl, rfl, rfl, rfl, rfl, rfl, rfl, rfl, rfl⟩
      · refine ⟨hcc.coldkey_ok, hcc.hotkey_ok, ?_⟩
        intro q hq
        rcases List.mem_cons.mp hq with rfl | hq'
        · exact ⟨row, h1, rfl⟩
        · exact hcc.neuron_ok q hq'
      · intro q hq
        rcases List.mem_cons.mp hq with rfl | hq'
        · exact Or.inr rfl
        · exact Or.inl hq'

theorem syncNeuronSnapshot_settle (nId : Nat) (b uid : Int)
    (ts em as apy : ℚ) (iv : Bool) (tr rk : ℚ) (ia : Bool) (σ : Store)
    (hwf : StoreWF σ) :
    ∃ σ₄ sid,
      syncNeuronSnapshot nId b uid ts em as apy iv tr rk ia σ = (σ₄, sid) ∧
      StoreWF σ₄ ∧
      (∃ s, findSnapshot σ₄.snapshots nId b = some s ∧ s.id = sid ∧
        s = snapshotDefaults s.id nId b uid ts em as apy iv tr rk ia) ∧
      (∀ n' b' sx, ¬(n' = nId ∧ b' = b) → findSnapshot σ.snapshots n' b' = some sx →
        findSnapshot σ₄.snapshots n' b' = some sx) ∧
      σ₄.coldkeys = σ.coldkeys ∧ σ₄.hotkeys = σ.hotkeys ∧ σ₄.neurons = σ.neurons ∧
      σ₄.mechanism_metrics = σ.mechanism_metrics ∧ σ₄.blocks = σ.blocks ∧
      σ₄.subnets = σ.subnets ∧ σ₄.dumps = σ.dumps := by
  rcases h1 : findSnapshot σ.snapshots nId b with _ | row
  · refine ⟨{ σ with
        snapshots := (σ.snapshots ++ [snapshotDefaults σ.nextId nId b uid ts em as apy iv tr rk ia]),
        nextId := (σ.nextId + 1) }, σ.nextId,
      by rw [syncNeuronSnapshot, h1]; rfl, wf_append_snapshot σ hwf _ rfl, ?_, ?_,
      rfl, rfl, rfl, rfl, rfl, rfl, rfl⟩
    · refine ⟨snapshotDefaults σ.nextId nId b uid ts em as apy iv tr rk ia, ?_, rfl, rfl⟩
      rw [findSnapshot] at h1 ⊢
      exact find?_append_last _ _ _ h1 (by simp [snapshotDefaults])
    · intro n' b' sx hne hfx
      have hqx : ((snapshotDefaults σ.nextId nId b uid ts em as apy iv tr rk ia).neuron_id
          == n' && (snapshotDefaults σ.nextId nId b uid ts em as apy iv tr rk
            ia).block_number == b') = false := by
        refine snapshot_pred_false _ _ _ ?_
        intro hb
        exact hne ⟨hb.1.symm, hb.2.symm⟩
      rw [findSnapshot] at hfx ⊢
      dsimp only
      rw [find?_append_of_not σ.snapshots _
        (fun r => r.neuron_id == n' && r.block_number == b') hqx]
      exact hfx
  · obtain ⟨hrowmem, hrown, hrowb⟩ := findSnapshot_some h1
    have hdisj : ∀ (n' : Nat) (b' : Int), ¬(n' = nId ∧ b' = b) →
        ∀ x : NeuronSnapshotRow,
        ((fun s => s.neuron_id == nId && s.block_number == b) x) = true →
        ((fun r => r.neuron_id == n' && r.block_number == b') x = false ∧
         (fun r => r.neuron_id == n' && r.block_number == b')
           ((fun s => snapshotDefaults s.id nId b uid ts em as apy iv tr rk ia) x)
             = false) := by
      intro n' b' hne x hx
      have hxk : x.neuron_id = nId ∧ x.block_number = b := by simpa using hx
      constructor
      · refine snapshot_pred_false _ _ _ ?_
        intro hb
        exact hne ⟨by rw [← hb.1, hxk.1], by rw [← hb.2, hxk.2]⟩
      · refine snapshot_pred_false _ _ _ ?_
        intro hb
        exact hne ⟨hb.1.symm, hb.2.symm⟩
    refine ⟨{ σ with
        snapshots := (updateFirst (fun s => s.neuron_id == nId && s.block_number == b) (fun s => snapshotDefaults s.id nId b uid ts em as apy iv tr rk ia) σ.snapshots) },
      row.id,
      by rw [syncNeuronSnapshot, h1],
      wf_update_snapshots σ hwf _ _ (fun x => rfl), ?_, ?_,
      rfl, rfl, rfl, rfl, rfl, rfl, rfl⟩
    · refine ⟨snapshotDefaults row.id nId b uid ts em as apy iv tr rk ia, ?_, rfl, rfl⟩
      rw [findSnapshot] at h1 ⊢
      exact find?_updateFirst_self _ _ _ _ h1 (by simp [snapshotDefaults])
    · intro n' b' sx hne hfx
      rw [findSnapshot] at hfx ⊢
      dsimp only
      rw [find?_updateFirst_of_disjoint
        (fun s => s.neuron_id == nId && s.block_number == b)
        (fun r => r.neuron_id == n' && r.block_number == b')
        (fun s => snapshotDefaults s.id nId b uid ts em as apy iv tr rk ia)
        σ.snapshots (hdisj n' b' hne)]
      exact hfx

theorem syncMechanismMetrics_settle (sId : Nat) (mid : Int) (d inc : ℚ) (σ : Store) :
    findMechanism (syncMechanismMetrics sId mid d inc σ).mechanism_metrics sId mid =
        some ⟨sId, mid, d, inc, 0, 0, 0⟩ ∧
      (∀ s' m' mx, ¬(s' = sId ∧ m' = mid) →
        findMechanism σ.mechanism_metrics s' m' = some mx →
        findMechanism (syncMechanismMetrics sId mid d inc σ).mechanism_metrics s' m'
          = some mx) := by
  rcases h1 : findMechanism σ.mechanism_metrics sId mid with _ | row
  · constructor
    · rw [syncMechanismMetrics, h1]
      dsimp only
      rw [findMechanism] at h1 ⊢
      exact find?_append_last _ _ _ h1 (by simp)
    · intro s' m' mx hne hfx
      rw [syncMechanismMetrics, h1]
      have hqx : ((⟨sId, mid, d, inc, 0, 0, 0⟩ : MechanismMetricsRow).snapshot_id == s' &&
          (⟨sId, mid, d, inc, 0, 0, 0⟩ : MechanismMetricsRow).mech_id == m') = false := by
        refine mech_pred_false _ _ _ ?_
        intro hb
        exact hne ⟨hb.1.symm, hb.2.symm⟩
      rw [findMechanism] at hfx ⊢
      dsimp only
      rw [find?_append_of_not σ.mechanism_metrics _
        (fun r => r.snapshot_id == s' && r.mech_id == m') hqx]
      exact hfx
  · constructor
    · rw [syncMechanismMetrics, h1]
      dsimp only
      rw [findMechanism] at h1 ⊢
      exact find?_updateFirst_self _ _ _ _ h1 (by simp)
    · intro s' m' mx hne hfx
      rw [syncMechanismMetrics, h1]
      have hdisj : ∀ x : MechanismMetricsRow,
          ((fun m => m.snapshot_id == sId && m.mech_id == mid) x) = true →
          ((fun r => r.snapshot_id == s' && r.mech_id == m') x = false ∧
           (fun r => r.snapshot_id == s' && r.mech_id == m')
             ((fun _ => (⟨sId, mid, d, inc, 0, 0, 0⟩ : MechanismMetricsRow)) x)
               = false) := by
        intro x hx
        have hxk : x.snapshot_id = sId ∧ x.mech_id = mid := by simpa using hx
        constructor
        · refine mech_pred_false _ _ _ ?_
          intro hb
          exact hne ⟨by rw [← hb.1, hxk.1], by rw [← hb.2, hxk.2]⟩
        · refine mech_pred_false _ _ _ ?_
          intro hb
          exact hne ⟨hb.1.symm, hb.2.symm⟩
      rw [findMechanism] at hfx ⊢
      dsimp only
      rw [find?_updateFirst_of_disjoint
        (fun m => m.snapshot_id == sId && m.mech_id == mid)
        (fun r => r.snapshot_id == s' && r.mech_id == m')
        (fun _ => (⟨sId, mid, d, inc, 0, 0, 0⟩ : MechanismMetricsRow))
        σ.mechanism_metrics hdisj]
      exact hfx

theorem findBlock_some {l : List BlockRow} {b : Int} {row : BlockRow}
    (h : findBlock l b = some row) : row ∈ l ∧ row.number = b := by
  rw [findBlock] at h
  refine ⟨List.mem_of_find?_eq_some h, ?_⟩
  simpa using List.find?_some h

theorem findSubnet_some {l : List SubnetRow} {nu : Int} {row : SubnetRow}
    (h : findSubnet l nu = some row) : row ∈ l ∧ row.netuid = nu := by
  rw [findSubnet] at h
  refine ⟨List.mem_of_find?_eq_some h, ?_⟩
  simpa using List.find?_some h

theorem syncBlock_settle (b : Int) (ts : Option Int) (dm : DumpMetadata) (σ : Store) :
    BlockSettled b ts (syncBlock b ts dm σ) := by
  rcases h1 : findBlock σ.blocks b with _ | row
  · rw [syncBlock, h1]
    refine ⟨⟨b, ts, some dm.started_at, some dm.finished_at⟩, ?_, fun h => h, rfl, rfl⟩
    rw [findBlock] at h1 ⊢
    dsimp only
    exact find?_append_last _ _ _ h1 (by simp)
  · rw [syncBlock, h1]
    dsimp only
    obtain ⟨hmem, hnum⟩ := findBlock_some h1
    by_cases hcond : (ts.isSome && row.timestamp.isNone || row.dump_started_at.isNone
        || row.dump_finished_at.isNone) = true
    · rw [if_pos hcond]
      refine ⟨{ row with
          timestamp := (if (ts.isSome && row.timestamp.isNone) = true then ts
            else row.timestamp),
          dump_started_at := (if row.dump_started_at.isNone = true then some dm.started_at
            else row.dump_started_at),
          dump_finished_at := (if row.dump_finished_at.isNone = true then some dm.finished_at
            else row.dump_finished_at) }, ?_, ?_, ?_, ?_⟩
      · rw [findBlock] at h1 ⊢
        dsimp only
        exact find?_updateFirst_self _ _ _ _ h1 (by simp [hnum])
      · intro hts
        dsimp only
        cases hu : (ts.isSome && row.timestamp.isNone)
        · rw [if_neg (by exact Bool.false_ne_true)]
          rcases hrt : row.timestamp with _ | v
          · rw [hrt] at hu
            rw [hts] at hu
            simp at hu
          · rfl
        · rw [if_pos rfl]
          exact hts
      · dsimp only
        cases row.dump_started_at <;> rfl
      · dsimp only
        cases row.dump_finished_at <;> rfl
    · rw [if_neg hcond]
      rw [Bool.not_eq_true, Bool.or_eq_false_iff, Bool.or_eq_false_iff] at hcond
      obtain ⟨⟨hc1, hc2⟩, hc3⟩ := hcond
      refine ⟨row, h1, ?_, ?_, ?_⟩
      · intro hts
        rcases hrt : row.timestamp with _ | v
        · rw [hrt, hts] at hc1
          simp at hc1
        · rfl
      · rcases hst : row.dump_started_at with _ | v
        · rw [hst] at hc2
          simp at hc2
        · rfl
      · rcases hft : row.dump_finished_at with _ | v
        · rw [hft] at hc3
          simp at hc3
        · rfl

theorem syncSubnet_settle (netuid : Int) (alpha : ℚ) (σ : Store) :
    SubnetSettled netuid alpha (syncSubnet netuid alpha σ) := by
  rcases h1 : findSubnet σ.subnets netuid with _ | row
  · rw [syncSubnet, h1]
    refine ⟨⟨netuid, "Subnet " ++ toString netuid, to_rao alpha⟩, ?_, fun _ => rfl⟩
    rw [findSubnet] at h1 ⊢
    dsimp only
    exact find?_append_last _ _ _ h1 (by simp)
  · rw [syncSubnet, h1]
    dsimp only
    obtain ⟨hmem, hnu⟩ := findSubnet_some h1
    by_cases ha : alpha > 0
    · rw [if_pos ha]
      refine ⟨{ row with alpha_out_emission := to_rao alpha }, ?_, fun _ => rfl⟩
      rw [findSubnet] at h1 ⊢
      dsimp only
      exact find?_updateFirst_self _ _ _ _ h1 (by simp [hnu])
    · rw [if_neg ha]
      exact ⟨row, h1, fun hpos => absurd hpos ha⟩

theorem syncMetagraphDump_settle (dm : DumpMetadata) (b : Int) (σ : Store) :
    DumpSettled dm b (syncMetagraphDump dm b σ) := by
  unfold DumpSettled
  rcases h1 : findDump σ.dumps dm.netuid b with _ | row
  · rw [syncMetagraphDump, h1]
    dsimp only
    rw [findDump] at h1 ⊢
    exact find?_append_last _ _ _ h1 (by simp)
  · rw [syncMetagraphDump, h1]
    dsimp only
    rw [findDump] at h1 ⊢
    exact find?_updateFirst_self _ _ _ _ h1 (by simp)

theorem syncBlock_noop (b : Int) (ts : Option Int) (dm : DumpMetadata) (σ : Store)
    (hs : BlockSettled b ts σ) : syncBlock b ts dm σ = σ := by
  obtain ⟨row, hfind, hts, hst, hfin⟩ := hs
  rw [syncBlock, hfind]
  dsimp only
  have h1 : (ts.isSome && row.timestamp.isNone) = false := by
    cases hx : ts.isSome
    · rw [Bool.false_and]
    · obtain ⟨v, hv⟩ := Option.isSome_iff_exists.mp (hts hx)
      rw [hv]
      simp
  obtain ⟨v2, hv2⟩ := Option.isSome_iff_exists.mp hst
  obtain ⟨v3, hv3⟩ := Option.isSome_iff_exists.mp hfin
  rw [h1, hv2, hv3]
  simp

theorem syncSubnet_noop (netuid : Int) (alpha : ℚ) (σ : Store)
    (hs : SubnetSettled netuid alpha σ) : syncSubnet netuid alpha σ = σ := by
  obtain ⟨row, hfind, hα⟩ := hs
  rw [syncSubnet, hfind]
  dsimp only
  by_cases ha : alpha > 0
  · rw [if_pos ha]
    rw [updateFirst_eq_self _ _ _ row (by rw [findSubnet] at hfind; exact hfind)
      (by rw [← hα ha])]
  · rw [if_neg ha]

theorem syncMetagraphDump_noop (dm : DumpMetadata) (b : Int) (σ : Store)
    (hs : DumpSettled dm b σ) : syncMetagraphDump dm b σ = σ := by
  unfold DumpSettled at hs
  rw [syncMetagraphDump, hs]
  dsimp only
  rw [findDump] at hs
  rw [updateFirst_eq_self _ _ _ _ hs rfl]

theorem flushHotkeyLastSeen_noop (now : Int) (σ : Store) (c : Caches)
    (htf : TouchedFresh now σ c) : (flushHotkeyLastSeen now σ c).1 = σ := by
  rw [flushHotkeyLastSeen]
  by_cases he : c.hotkeys_to_update.isEmpty
  · rw [if_pos he]
  · rw [if_neg he]
    dsimp only
    have hmap : σ.hotkeys.map (fun h => if c.hotkeys_to_update.contains h.id then { h with last_seen := now } else h) = σ.hotkeys := by
      refine map_eq_self_of_eq _ _ ?_
      intro x hx
      by_cases hcx : c.hotkeys_to_update.contains x.id = true
      · rw [if_pos hcx]
        have hin : x.id ∈ c.hotkeys_to_update := by simpa using hcx
        have hls := htf x.id hin x hx rfl
        rw [← hls]
      · rw [if_neg hcx]
    rw [hmap]

theorem flush_settles (netuid : Int) (alphaOut ownerCut : ℚ) (blockNumber now : Int)
    (r : NeuronRec) (σ : Store) (c : Caches)
    (hs : RecSettled netuid alphaOut ownerCut blockNumber now c.hotkeys_to_update r σ) :
    RecSettled netuid alphaOut ownerCut blockNumber now []
      r (flushHotkeyLastSeen now σ c).1 := by
  intro hv
  obtain ⟨ck, hk, n, s, hck, hhk, hlink, htouch, hn, huid, hsnap, hdef, hmech⟩ := hs hv
  rw [flushHotkeyLastSeen]
  by_cases he : c.hotkeys_to_update.isEmpty
  · rw [if_pos he]
    refine ⟨ck, hk, n, s, hck, hhk, hlink, ?_, hn, huid, hsnap, hdef, hmech⟩
    rcases htouch with h | h
    · exfalso
      rw [List.isEmpty_iff] at he
      rw [he] at h
      simp at h
    · exact Or.inr h
  · rw [if_neg he]
    dsimp only
    have hcomp : ((fun x : HotkeyRow => x.hotkey == r.hotkey) ∘
        (fun h => if c.hotkeys_to_update.contains h.id then { h with last_seen := now } else h))
        = (fun x : HotkeyRow => x.hotkey == r.hotkey) := by
      funext x
      dsimp only [Function.comp]
      by_cases hcx : c.hotkeys_to_update.contains x.id = true
      · rw [if_pos hcx]
      · rw [if_neg hcx]
    refine ⟨ck, (fun h : HotkeyRow => if c.hotkeys_to_update.contains h.id then { h with last_seen := now } else h) hk, n, s, hck, ?_, ?_, ?_, ?_, huid, hsnap, hdef, hmech⟩
    · rw [findHotkey]
      dsimp only
      rw [List.find?_map, hcomp]
      rw [findHotkey] at hhk
      rw [hhk]
      rfl
    · dsimp only
      by_cases hchk : c.hotkeys_to_update.contains hk.id = true
      · rw [if_pos hchk]
        exact hlink
      · rw [if_neg hchk]
        exact hlink
    · refine Or.inr ?_
      dsimp only
      by_cases hchk : c.hotkeys_to_update.contains hk.id = true
      · rw [if_pos hchk]
      · rw [if_neg hchk]
        rcases htouch with h | h
        · exact absurd h hchk
        · exact h
    · dsimp only
      by_cases hchk : c.hotkeys_to_update.contains hk.id = true
      · rw [if_pos hchk]
        exact hn
      · rw [if_neg hchk]
        exact hn

theorem processNeuron_inv_step (netuid : Int) (alphaOut ownerCut : ℚ)
    (blockNumber now : Int) (r : NeuronRec) (done : List NeuronRec)
    (σ : Store) (c : Caches) (st : SyncStats)
    (hinv : LoopInv netuid alphaOut ownerCut blockNumber now done σ c)
    (hfresh : ∀ r' ∈ done, ¬r.hotkey = r'.hotkey) :
    LoopInv netuid alphaOut ownerCut blockNumber now (r :: done)
      (processNeuron netuid alphaOut ownerCut blockNumber now r (σ, c, st)).1
      (processNeuron netuid alphaOut ownerCut blockNumber now r (σ, c, st)).2.1 := by
  obtain ⟨hwf, hcc, hhkeys, hnkeys, hsettled⟩ := hinv
  by_cases hv : r.validator_permit = true
  case neg =>
    rw [processNeuron_skip netuid alphaOut ownerCut blockNumber now r σ c st
      (by revert hv; cases r.validator_permit <;> simp)]
    refine ⟨hwf, hcc, ?_, ?_, ?_⟩
    · intro p hp
      obtain ⟨r', hr', hpr⟩ := hhkeys p hp
      exact ⟨r', List.mem_cons_of_mem _ hr', hpr⟩
    · intro q hq
      obtain ⟨r', hr', rest⟩ := hnkeys q hq
      exact ⟨r', List.mem_cons_of_mem _ hr', rest⟩
    · intro r'' hr''
      rcases List.mem_cons.mp hr'' with rfl | hd''
      · exact fun hv' => absurd hv' hv
      · exact hsettled r'' hd''
  case pos =>
    rw [processNeuron_eq_validator netuid alphaOut ownerCut blockNumber now r σ c st hv]
    dsimp only
    obtain ⟨σ₁, c₁, ckid, heq1, hwf1, hcc1, ⟨ck, hck, hckid⟩, hlk1, hstab1, hkeq1, hneq1,
      hsneq1, hmmeq1, hbeq1, hsueq1, hdeq1, hhc1, hnc1, htu1⟩ :=
      getOrCreateColdkey_settle r.coldkey σ c hwf hcc
    rw [heq1]
    dsimp only
    have hmiss : c₁.hotkey_cache.lookup r.hotkey = none := by
      rw [hhc1]
      rcases hl : c.hotkey_cache.lookup r.hotkey with _ | i
      · rfl
      · obtain ⟨r', hr', hpr⟩ := hhkeys (r.hotkey, i) (lookup_mem hl)
        exact absurd hpr (hfresh r' hr')
    obtain ⟨σ₂, c₂, hkid, heq2, hwf2, hcc2, ⟨hk, hhk, hhkid, hhklink, hhktouch⟩, hstab2,
      htrans2, htmono2, hkeys2, hceq2, hneq2, hsneq2, hmmeq2, hbeq2, hsueq2, hdeq2,
      hckc2, hnc2⟩ :=
      getOrCreateHotkey_settle r.hotkey r.coldkey now σ₁ c₁ hwf1 hcc1 hmiss ckid hlk1
    rw [heq2]
    dsimp only
    have hnmiss : c₂.neuron_cache.lookup (hkid, netuid) = none := by
      rw [hnc2, hnc1]
      rcases hl : c.neuron_cache.lookup (hkid, netuid) with _ | j
      · rfl
      · exfalso
        obtain ⟨r', hr', hrow, hrowmem, hrowaddr, hrowid⟩ :=
          hnkeys ((hkid, netuid), j) (lookup_mem hl)
        have hrowmem1 : hrow ∈ σ₁.hotkeys := by
          rw [hkeq1]
          exact hrowmem
        obtain ⟨row₂, hrow₂mem, hrow₂addr, hrow₂id⟩ := htrans2 hrow hrowmem1
        obtain ⟨hkmem, hkaddr⟩ := findHotkey_some hhk
        have hide : row₂.id = hk.id := by
          rw [hrow₂id, hrowid, hhkid]
        have hroweq : row₂ = hk := hotkey_row_eq_of_id hwf2 hrow₂mem hkmem hide
        refine hfresh r' hr' ?_
        rw [← hkaddr, ← hroweq, hrow₂addr, hrowaddr]
    obtain ⟨σ₃, c₃, nid, heq3, hwf3, hcc3, ⟨n, hn, hnid, hnuid⟩, hstab3, hnkeys3, hceq3,
      hkeq3, hsneq3, hmmeq3, hbeq3, hsueq3, hdeq3, hckc3, hhc3, htu3⟩ :=
      syncNeuron_settle hkid netuid r.uid σ₂ c₂ hwf2 hcc2 hnmiss
    rw [heq3]
    dsimp only
    obtain ⟨σ₄, sid, heq4, hwf4, ⟨s, hs, hsid, hsdef⟩, hstab4, hceq4, hkeq4, hneq4, hmmeq4,
      hbeq4, hsueq4, hdeq4⟩ :=
      syncNeuronSnapshot_settle nid blockNumber r.uid r.stake r.emission r.alpha_stake
        (compute_dividend_apy r.dividend alphaOut r.alpha_stake ownerCut)
        r.validator_permit r.trust r.rank r.active σ₃ hwf3
    rw [heq4]
    dsimp only
    have hccnew : CachesConsistent σ₄ c₃ :=
      cachesConsistent_congr σ₃ σ₄ c₃ hceq4 hkeq4 hneq4 hcc3
    have hkeysnew : ∀ p ∈ c₃.hotkey_cache, ∃ r' ∈ r :: done, p.1 = r'.hotkey := by
      intro p hp
      rw [hhc3] at hp
      rcases hkeys2 p hp with hp' | hp'
      · rw [hhc1] at hp'
        obtain ⟨r', hr', hpr⟩ := hhkeys p hp'
        exact ⟨r', List.mem_cons_of_mem _ hr', hpr⟩
      · exact ⟨r, List.mem_cons_self _ _, hp'⟩
    have hnkeysnew : ∀ q ∈ c₃.neuron_cache, ∃ r' ∈ r :: done, ∃ hrow ∈ σ₄.hotkeys,
        hrow.hotkey = r'.hotkey ∧ hrow.id = q.1.1 := by
      intro q hq
      rcases hnkeys3 q hq with hq' | hq'
      · rw [hnc2, hnc1] at hq'
        obtain ⟨r', hr', hrow, hrowmem, hrowaddr, hrowid⟩ := hnkeys q hq'
        have hrowmem1 : hrow ∈ σ₁.hotkeys := by
          rw [hkeq1]
          exact hrowmem
        obtain ⟨row₂, hrow₂mem, hrow₂addr, hrow₂id⟩ := htrans2 hrow hrowmem1
        refine ⟨r', List.mem_cons_of_mem _ hr', row₂, ?_, ?_, ?_⟩
        · rw [hkeq4, hkeq3]
          exact hrow₂mem
        · rw [hrow₂addr, hrowaddr]
        · rw [hrow₂id, hrowid]
      · obtain ⟨hkmem, hkaddr⟩ := findHotkey_some hhk
        refine ⟨r, List.mem_cons_self _ _, hk, ?_, hkaddr, ?_⟩
        · rw [hkeq4, hkeq3]
          exact hkmem
        · rw [hq', hhkid]
    have hckσ₄ : findColdkey σ₄.coldkeys r.coldkey = some ck := by
      rw [hceq4, hceq3, hceq2]
      exact hck
    have hhkσ₄ : findHotkey σ₄.hotkeys r.hotkey = some hk := by
      rw [hkeq4, hkeq3]
      exact hhk
    have hnσ₄ : findNeuron σ₄.neurons hk.id netuid = some n := by
      rw [hneq4, hhkid]
      exact hn
    have hsσ₄ : findSnapshot σ₄.snapshots n.id blockNumber = some s := by
      rw [hnid]
      exact hs
    have hsdefn : s = snapshotDefaults s.id n.id blockNumber r.uid r.stake r.emission
        r.alpha_stake (compute_dividend_apy r.dividend alphaOut r.alpha_stake ownerCut)
        r.validator_permit r.trust r.rank r.active := by
      rw [hnid]
      exact hsdef
    have htouchσ₄ : c₃.hotkeys_to_update.contains hk.id = true ∨ hk.last_seen = now := by
      rw [htu3]
      exact hhktouch
    have hpres : ∀ r'' ∈ done, r''.validator_permit = true →
        ∃ ck' hk' n' s',
          findColdkey σ₄.coldkeys r''.coldkey = some ck' ∧
          findHotkey σ₄.hotkeys r''.hotkey = some hk' ∧
          hk'.coldkey_id = ck'.id ∧
          (c₃.hotkeys_to_update.contains hk'.id = true ∨ hk'.last_seen = now) ∧
          findNeuron σ₄.neurons hk'.id netuid = some n' ∧ n'.uid = r''.uid ∧
          findSnapshot σ₄.snapshots n'.id blockNumber = some s' ∧
          (s' = snapshotDefaults s'.id n'.id blockNumber r''.uid r''.stake r''.emission
            r''.alpha_stake
            (compute_dividend_apy r''.dividend alphaOut r''.alpha_stake ownerCut)
            r''.validator_permit r''.trust r''.rank r''.active) ∧
          ¬s'.id = sid ∧
          ((r''.dividend > 0 ∨ r''.incentive > 0) →
            ∃ m', findMechanism σ₄.mechanism_metrics s'.id 0 = some m' ∧
              m' = ⟨s'.id, 0, r''.dividend, r''.incentive, 0, 0, 0⟩) := by
      intro r'' hr'' hv''
      obtain ⟨ck', hk', n', s', h1', h2', h3', h4', h5', h6', h7', h8', h9'⟩ :=
        hsettled r'' hr'' hv''
      have hne'' : ¬r''.hotkey = r.hotkey := fun h => (hfresh r'' hr'') h.symm
      have hck'σ₄ : findColdkey σ₄.coldkeys r''.coldkey = some ck' := by
        rw [hceq4, hceq3, hceq2]
        exact hstab1 r''.coldkey ck' h1'
      have hk'σ₂ : findHotkey σ₂.hotkeys r''.hotkey = some hk' := by
        refine hstab2 r''.hotkey hk' hne'' ?_
        rw [hkeq1]
        exact h2'
      have hkdist : ¬hk'.id = hkid := by
        intro hide
        obtain ⟨hk'mem, hk'addr⟩ := findHotkey_some hk'σ₂
        obtain ⟨hkmem, hkaddr⟩ := findHotkey_some hhk
        have heqrow : hk' = hk := hotkey_row_eq_of_id hwf2 hk'mem hkmem
          (by rw [hide, ← hhkid])
        refine hne'' ?_
        rw [← hk'addr, heqrow, hkaddr]
      have hn'σ₃ : findNeuron σ₃.neurons hk'.id netuid = some n' := by
        refine hstab3 hk'.id netuid n' (fun hb => hkdist hb.1) ?_
        rw [hneq2, hneq1]
        exact h5'
      have hndist : ¬n'.id = nid := by
        intro hide
        obtain ⟨n'mem, n'k, n'nu⟩ := findNeuron_some hn'σ₃
        obtain ⟨nmem, nk, nnu⟩ := findNeuron_some hn
        have heqrow : n' = n := neuron_row_eq_of_id hwf3 n'mem nmem (by rw [hide, ← hnid])
        refine hkdist ?_
        rw [← n'k, heqrow, nk]
      have hs'σ₄ : findSnapshot σ₄.snapshots n'.id blockNumber = some s' := by
        refine hstab4 n'.id blockNumber s' (fun hb => hndist hb.1) ?_
        rw [hsneq3, hsneq2, hsneq1]
        exact h7'
      have hsdist : ¬s'.id = sid := by
        intro hide
        obtain ⟨s'mem, s'n, s'b⟩ := findSnapshot_some hs'σ₄
        obtain ⟨smem, sn, sb⟩ := findSnapshot_some hs
        have heqrow : s' = s := snapshot_row_eq_of_id hwf4 s'mem smem (by rw [hide, ← hsid])
        refine hndist ?_
        rw [← s'n, heqrow, sn]
      have htouch4 : c₃.hotkeys_to_update.contains hk'.id = true ∨ hk'.last_seen = now := by
        rcases h4' with h | h
        · refine Or.inl ?_
          rw [htu3]
          refine htmono2 _ ?_
          rw [htu1]
          exact h
        · exact Or.inr h
      refine ⟨ck', hk', n', s', hck'σ₄, ?_, h3', htouch4, ?_, h6', hs'σ₄, h8', hsdist, ?_⟩
      · rw [hkeq4, hkeq3]
        exact hk'σ₂
      · rw [hneq4]
        exact hn'σ₃
      · intro hpos
        obtain ⟨m', hm', hmv⟩ := h9' hpos
        refine ⟨m', ?_, hmv⟩
        rw [hmmeq4, hmmeq3, hmmeq2, hmmeq1]
        exact hm'
    by_cases hd : r.dividend > 0 ∨ r.incentive > 0
    · rw [if_pos hd]
      obtain ⟨hm, hmstab⟩ := syncMechanismMetrics_settle sid 0 r.dividend r.incentive σ₄
      obtain ⟨mfc, mfh, mfn, mfb, mfsu, mfs, mfd, mfnid⟩ :=
        syncMechanismMetrics_frames sid 0 r.dividend r.incentive σ₄
      refine ⟨syncMechanismMetrics_wf sid 0 r.dividend r.incentive σ₄ hwf4,
        cachesConsistent_congr σ₄ _ c₃ mfc mfh mfn hccnew, hkeysnew, ?_, ?_⟩
      · intro q hq
        obtain ⟨r', hr', hrow, hrowmem, hrowaddr, hrowid⟩ := hnkeysnew q hq
        refine ⟨r', hr', hrow, ?_, hrowaddr, hrowid⟩
        rw [mfh]
        exact hrowmem
      · intro r'' hr''
        rcases List.mem_cons.mp hr'' with rfl | hd''
        · intro hv'
          refine ⟨ck, hk, n, s, ?_, ?_, ?_, htouchσ₄, ?_, hnuid, ?_, hsdefn, ?_⟩
          · rw [mfc]
            exact hckσ₄
          · rw [mfh]
            exact hhkσ₄
          · rw [hhklink, hckid]
          · rw [mfn]
            exact hnσ₄
          · rw [mfs]
            exact hsσ₄
          · intro hpos
            refine ⟨⟨sid, 0, r''.dividend, r''.incentive, 0, 0, 0⟩, ?_, ?_⟩
            · rw [hsid]
              exact hm
            · rw [hsid]
        · intro hv''
          obtain ⟨ck', hk', n', s', p1, p2, p3, p4, p5, p6, p7, p8, pdist, p9⟩ :=
            hpres r'' hd'' hv''
          refine ⟨ck', hk', n', s', ?_, ?_, p3, p4, ?_, p6, ?_, p8, ?_⟩
          · rw [mfc]
            exact p1
          · rw [mfh]
            exact p2
          · rw [mfn]
            exact p5
          · rw [mfs]
            exact p7
          · intro hpos
            obtain ⟨m', hm', hmv⟩ := p9 hpos
            exact ⟨m', hmstab s'.id 0 m' (fun hb => pdist hb.1) hm', hmv⟩
    · rw [if_neg hd]
      refine ⟨hwf4, hccnew, hkeysnew, hnkeysnew, ?_⟩
      intro r'' hr''
      rcases List.mem_cons.mp hr'' with rfl | hd''
      · intro hv'
        refine ⟨ck, hk, n, s, hckσ₄, hhkσ₄, ?_, htouchσ₄, hnσ₄, hnuid, hsσ₄, hsdefn, ?_⟩
        · rw [hhklink, hckid]
        · intro hpos
          exact absurd hpos hd
      · intro hv''
        obtain ⟨ck', hk', n', s', p1, p2, p3, p4, p5, p6, p7, p8, pdist, p9⟩ :=
          hpres r'' hd'' hv''
        exact ⟨ck', hk', n', s', p1, p2, p3, p4, p5, p6, p7, p8, p9⟩

theorem processNeurons_none_all_valid (netuid : Int) (alphaOut ownerCut : ℚ)
    (blockNumber now : Int) :
    ∀ (rs : List NeuronInput) (acc acc' : Store × Caches × SyncStats),
      processNeurons netuid alphaOut ownerCut blockNumber now rs acc = (acc', none) →
      ∀ x ∈ rs, ∃ r, x = NeuronInput.valid r := by
  intro rs
  induction rs with
  | nil =>
    intro acc acc' h x hx
    exact absurd hx (List.not_mem_nil x)
  | cons y ys ih =>
    intro acc acc' h x hx
    cases y with
    | malformed m =>
      rw [processNeurons] at h
      injection h with _ hbad
      exact absurd hbad (by simp)
    | valid r =>
      rcases List.mem_cons.mp hx with rfl | hx'
      · exact ⟨r, rfl⟩
      · rw [processNeurons] at h
        exact ih _ _ h x hx'

theorem processNeurons_establish (netuid : Int) (alphaOut ownerCut : ℚ)
    (blockNumber now : Int) :
    ∀ (rs : List NeuronInput) (done : List NeuronRec) (σ : Store) (c : Caches)
      (st : SyncStats) (σ' : Store) (c' : Caches) (st' : SyncStats),
      LoopInv netuid alphaOut ownerCut blockNumber now done σ c →
      ((done.map (fun r => r.hotkey)) ++ rs.filterMap inputAddr).Nodup →
      processNeurons netuid alphaOut ownerCut blockNumber now rs (σ, c, st)
        = ((σ', c', st'), none) →
      ∃ done', (∀ r' ∈ done, r' ∈ done') ∧
        (∀ r', NeuronInput.valid r' ∈ rs → r' ∈ done') ∧
        LoopInv netuid alphaOut ownerCut blockNumber now done' σ' c' := by
  intro rs
  induction rs with
  | nil =>
    intro done σ c st σ' c' st' hinv hnodup heq
    rw [processNeurons] at heq
    injection heq with ha hb
    injection ha with hσ hrest
    injection hrest with hcs hst
    subst hσ
    subst hcs
    refine ⟨done, fun r' h => h, ?_, hinv⟩
    intro r' hr'
    exact absurd hr' (List.not_mem_nil _)
  | cons x rest ih =>
    intro done σ c st σ' c' st' hinv hnodup heq
    cases x with
    | malformed m =>
      rw [processNeurons] at heq
      injection heq with _ hbad
      exact absurd hbad (by simp)
    | valid r =>
      rw [processNeurons] at heq
      have hfma : (NeuronInput.valid r :: rest).filterMap inputAddr
          = r.hotkey :: rest.filterMap inputAddr := rfl
      rw [hfma] at hnodup
      have hdisj := (List.nodup_append.mp hnodup).2.2
      have hfresh : ∀ r' ∈ done, ¬r.hotkey = r'.hotkey := by
        intro r' hr' he
        refine hdisj (a := r.hotkey) ?_ ?_
        · rw [he]
          exact List.mem_map.mpr ⟨r', hr', rfl⟩
        · exact List.mem_cons_self _ _
      have hnodup' : ((r :: done).map (fun r => r.hotkey)
          ++ rest.filterMap inputAddr).Nodup := by
        rw [List.map_cons, List.cons_append]
        exact (List.perm_middle.nodup_iff).mp hnodup
      obtain ⟨done', hsub', hmem', hinv'⟩ := ih (r :: done)
        (processNeuron netuid alphaOut ownerCut blockNumber now r (σ, c, st)).1
        (processNeuron netuid alphaOut ownerCut blockNumber now r (σ, c, st)).2.1
        (processNeuron netuid alphaOut ownerCut blockNumber now r (σ, c, st)).2.2
        σ' c' st'
        (processNeuron_inv_step netuid alphaOut ownerCut blockNumber now r done σ c st
          hinv hfresh)
        hnodup' heq
      refine ⟨done', fun r' h => hsub' r' (List.mem_cons_of_mem _ h), ?_, hinv'⟩
      intro r' hr'
      rcases List.mem_cons.mp hr' with hEq | hr'rest
      · injection hEq with hrr
        rw [hrr]
        exact hsub' r (List.mem_cons_self _ _)
      · exact hmem' r' hr'rest

theorem sync_metagraph_ok_settled (mg : MetagraphInput) (blockNumber : Int)
    (blockTimestamp : Option Int) (dm : DumpMetadata) (ownerCut : ℚ) (now : Int)
    (σ σ' : Store) (c' : Caches) (st : SyncStats)
    (hwf : StoreWF σ)
    (hnodup : (mg.neurons.filterMap inputAddr).Nodup)
    (heq : sync_metagraph mg blockNumber blockTimestamp dm ownerCut now σ emptyCaches
      = ((σ', c'), Except.ok st)) :
    StoreWF σ' ∧ BlockSettled blockNumber blockTimestamp σ' ∧
    SubnetSettled mg.netuid mg.alpha_out_emission σ' ∧ DumpSettled dm blockNumber σ' ∧
    (∀ x ∈ mg.neurons, ∃ r0, x = NeuronInput.valid r0) ∧
    (∀ r, NeuronInput.valid r ∈ mg.neurons →
      RecSettled mg.netuid mg.alpha_out_emission ownerCut blockNumber now [] r σ') := by
  rcases hp : processNeurons mg.netuid mg.alpha_out_emission ownerCut blockNumber now
      mg.neurons
      (syncSubnet mg.netuid mg.alpha_out_emission (syncBlock blockNumber blockTimestamp dm σ),
       emptyCaches, initStats) with ⟨⟨σ₃, c₃, st₃⟩, err⟩
  cases err with
  | some msg =>
    have hsync : sync_metagraph mg blockNumber blockTimestamp dm ownerCut now σ emptyCaches
        = ((σ, c₃), Except.error msg) := by
      rw [sync_metagraph, syncMetagraphBody]
      dsimp only
      rw [hp]
    rw [heq] at hsync
    injection hsync with _ hbad
    injection hbad
  | none =>
    have hsync : sync_metagraph mg blockNumber blockTimestamp dm ownerCut now σ emptyCaches
        = (((flushHotkeyLastSeen now (syncMetagraphDump dm blockNumber σ₃) c₃).1,
            (flushHotkeyLastSeen now (syncMetagraphDump dm blockNumber σ₃) c₃).2.1),
           Except.ok st₃) := by
      rw [sync_metagraph, syncMetagraphBody]
      dsimp only
      rw [hp]
    rw [heq] at hsync
    injection hsync with hpair hst
    injection hpair with hσ'eq hc'eq
    have hwf₂ : StoreWF (syncSubnet mg.netuid mg.alpha_out_emission
        (syncBlock blockNumber blockTimestamp dm σ)) :=
      syncSubnet_wf _ _ _ (syncBlock_wf _ _ _ _ hwf)
    have hinv0 : LoopInv mg.netuid mg.alpha_out_emission ownerCut blockNumber now []
        (syncSubnet mg.netuid mg.alpha_out_emission
          (syncBlock blockNumber blockTimestamp dm σ)) emptyCaches := by
      refine ⟨hwf₂, ⟨?_, ?_, ?_⟩, ?_, ?_, ?_⟩
      · intro p hp'
        exact absurd hp' (List.not_mem_nil p)
      · intro p hp'
        exact absurd hp' (List.not_mem_nil p)
      · intro p hp'
        exact absurd hp' (List.not_mem_nil p)
      · intro p hp'
        exact absurd hp' (List.not_mem_nil p)
      · intro q hq'
        exact absurd hq' (List.not_mem_nil q)
      · intro r' hr'
        exact absurd hr' (List.not_mem_nil r')
    have hnodup0 : ((([] : List NeuronRec).map (fun r => r.hotkey))
        ++ mg.neurons.filterMap inputAddr).Nodup := by
      rw [List.map_nil, List.nil_append]
      exact hnodup
    obtain ⟨done', hsub', hmem', hinv₃⟩ := processNeurons_establish mg.netuid
      mg.alpha_out_emission ownerCut blockNumber now mg.neurons [] _ emptyCaches initStats
      σ₃ c₃ st₃ hinv0 hnodup0 hp
    obtain ⟨hwf₃, hcc₃, hhk₃, hnk₃, hset₃⟩ := hinv₃
    have hallvalid : ∀ x ∈ mg.neurons, isMalformedInput x = false := by
      intro x hx
      obtain ⟨r, hr⟩ := processNeurons_none_all_valid mg.netuid mg.alpha_out_emission
        ownerCut blockNumber now mg.neurons _ _ hp x hx
      rw [hr]
      rfl
    obtain ⟨acc', hproc', hab, hasu, had⟩ := processNeurons_ok mg.netuid
      mg.alpha_out_emission ownerCut blockNumber now mg.neurons
      (syncSubnet mg.netuid mg.alpha_out_emission (syncBlock blockNumber blockTimestamp dm σ),
       emptyCaches, initStats) hallvalid
    rw [hp] at hproc'
    injection hproc' with ha _
    rw [← ha] at hab hasu had
    dsimp only at hab hasu had
    have hbs₂ : BlockSettled blockNumber blockTimestamp
        (syncSubnet mg.netuid mg.alpha_out_emission
          (syncBlock blockNumber blockTimestamp dm σ)) := by
      refine blockSettled_congr _ _ _ _ ?_ (syncBlock_settle blockNumber blockTimestamp dm σ)
      exact (syncSubnet_frames mg.netuid mg.alpha_out_emission _).2.2.2.1
    have hss₂ : SubnetSettled mg.netuid mg.alpha_out_emission
        (syncSubnet mg.netuid mg.alpha_out_emission
          (syncBlock blockNumber blockTimestamp dm σ)) :=
      syncSubnet_settle mg.netuid mg.alpha_out_emission _
    have hbs₃ : BlockSettled blockNumber blockTimestamp σ₃ :=
      blockSettled_congr _ _ _ _ hab hbs₂
    have hss₃ : SubnetSettled mg.netuid mg.alpha_out_emission σ₃ :=
      subnetSettled_congr _ _ _ _ hasu hss₂
    obtain ⟨dfc, dfh, dfn, dfb, dfsu, dfs, dfm, dfnid⟩ :=
      syncMetagraphDump_frames dm blockNumber σ₃
    have hwf₄ : StoreWF (syncMetagraphDump dm blockNumber σ₃) :=
      syncMetagraphDump_wf dm blockNumber σ₃ hwf₃
    obtain ⟨ffc, ffn, ffb, ffsu, ffs, ffm, ffd, ffnid⟩ :=
      flushHotkeyLastSeen_frames now (syncMetagraphDump dm blockNumber σ₃) c₃
    have hwf' : StoreWF σ' := by
      rw [hσ'eq]
      exact flushHotkeyLastSeen_wf now _ c₃ hwf₄
    refine ⟨hwf', ?_, ?_, ?_, ?_, ?_⟩
    · rw [hσ'eq]
      exact blockSettled_congr _ _ _ _ ffb
        (blockSettled_congr _ _ _ _ dfb hbs₃)
    · rw [hσ'eq]
      exact subnetSettled_congr _ _ _ _ ffsu
        (subnetSettled_congr _ _ _ _ dfsu hss₃)
    · rw [hσ'eq]
      exact dumpSettled_congr _ _ _ _ ffd (syncMetagraphDump_settle dm blockNumber σ₃)
    · intro x hx
      exact processNeurons_none_all_valid mg.netuid mg.alpha_out_emission ownerCut
        blockNumber now mg.neurons _ _ hp x hx
    · intro r hr
      have hset : RecSettled mg.netuid mg.alpha_out_emission ownerCut blockNumber now
          c₃.hotkeys_to_update r (syncMetagraphDump dm blockNumber σ₃) :=
        recSettled_congr _ _ _ _ _ _ _ _ _ dfc dfh dfn dfs dfm (hset₃ r (hmem' r hr))
      rw [hσ'eq]
      exact flush_settles mg.netuid mg.alpha_out_emission ownerCut blockNumber now r
        (syncMetagraphDump dm blockNumber σ₃) c₃ hset

theorem getOrCreateColdkey_noop (a : String) (σ : Store) (c : Caches) (ck : ColdkeyRow)
    (hcc : CachesConsistent σ c) (hfind : findColdkey σ.coldkeys a = some ck) :
    ∃ c₁, getOrCreateColdkey a σ c = (σ, c₁, ck.id) ∧
      CachesConsistent σ c₁ ∧
      c₁.coldkey_cache.lookup a = some ck.id ∧
      c₁.hotkey_cache = c.hotkey_cache ∧ c₁.neuron_cache = c.neuron_cache ∧
      c₁.hotkeys_to_update = c.hotkeys_to_update := by
  rcases h0 : c.coldkey_cache.lookup a with _ | i
  · refine ⟨{ c with coldkey_cache := ((a, ck.id) :: c.coldkey_cache) },
      by rw [getOrCreateColdkey, h0, hfind], ?_,
      lookup_cons_self a ck.id c.coldkey_cache, rfl, rfl, rfl⟩
    refine ⟨?_, hcc.hotkey_ok, hcc.neuron_ok⟩
    intro p hp
    rcases List.mem_cons.mp hp with rfl | hp'
    · exact ⟨ck, hfind, rfl⟩
    · exact hcc.coldkey_ok p hp'
  · obtain ⟨row, hrow, hid⟩ := hcc.coldkey_ok (a, i) (lookup_mem h0)
    have hre : row = ck := by
      rw [hrow] at hfind
      exact Option.some.inj hfind
    have hieq : i = ck.id := by
      rw [hre] at hid
      exact hid.symm
    subst hieq
    exact ⟨c, by rw [getOrCreateColdkey, h0], hcc, h0, rfl, rfl, rfl⟩

theorem getOrCreateHotkey_noop (a b : String) (now : Int) (σ : Store) (c : Caches)
    (ck : ColdkeyRow) (hk : HotkeyRow)
    (hcc : CachesConsistent σ c)
    (hckfind : findColdkey σ.coldkeys b = some ck)
    (hhkfind : findHotkey σ.hotkeys a = some hk)
    (hlink : hk.coldkey_id = ck.id) :
    ∃ c₂, getOrCreateHotkey a b now σ c = (σ, c₂, hk.id) ∧
      CachesConsistent σ c₂ ∧
      c₂.neuron_cache = c.neuron_cache ∧
      (∀ i, i ∈ c₂.hotkeys_to_update → i ∈ c.hotkeys_to_update ∨ i = hk.id) := by
  rcases h0 : c.hotkey_cache.lookup a with _ | i
  · obtain ⟨c₁, hcold, hcc₁, hlk₁, hhc₁, hnc₁, htu₁⟩ :=
      getOrCreateColdkey_noop b σ c ck hcc hckfind
    have hnorelink : ¬hk.coldkey_id ≠ ck.id := fun h => h hlink
    refine ⟨{ c₁ with
        hotkey_cache := ((a, hk.id) :: c₁.hotkey_cache),
        hotkeys_to_update := (addId hk.id c₁.hotkeys_to_update) }, ?_, ?_, ?_, ?_⟩
    · rw [getOrCreateHotkey, h0, hcold]
      dsimp only
      rw [hhkfind]
      dsimp only
      rw [if_neg hnorelink]
    · refine ⟨hcc₁.coldkey_ok, ?_, hcc₁.neuron_ok⟩
      intro p hp
      rcases List.mem_cons.mp hp with rfl | hp'
      · exact ⟨hk, hhkfind, rfl⟩
      · exact hcc₁.hotkey_ok p hp'
    · exact hnc₁
    · intro i hi
      dsimp only at hi
      rcases mem_addId _ _ _ hi with h | h
      · exact Or.inr h
      · rw [htu₁] at h
        exact Or.inl h
  · obtain ⟨row, hrow, hid⟩ := hcc.hotkey_ok (a, i) (lookup_mem h0)
    have hre : row = hk := by
      rw [hrow] at hhkfind
      exact Option.some.inj hhkfind
    have hieq : i = hk.id := by
      rw [hre] at hid
      exact hid.symm
    subst hieq
    refine ⟨{ c with hotkeys_to_update := (addId hk.id c.hotkeys_to_update) },
      by rw [getOrCreateHotkey, h0], ⟨hcc.coldkey_ok, hcc.hotkey_ok, hcc.neuron_ok⟩,
      rfl, ?_⟩
    intro j hj
    rcases mem_addId _ _ _ hj with h | h
    · exact Or.inr h
    · exact Or.inl h

theorem syncNeuron_noop (hkId : Nat) (netuid uid : Int) (σ : Store) (c : Caches)
    (n : NeuronRow) (hcc : CachesConsistent σ c)
    (hfind : findNeuron σ.neurons hkId netuid = some n) (huid : n.uid = uid) :
    ∃ c₃, syncNeuron hkId netuid uid σ c = (σ, c₃, n.id) ∧
      CachesConsistent σ c₃ ∧
      c₃.hotkeys_to_update = c.hotkeys_to_update := by
  rcases h0 : c.neuron_cache.lookup (hkId, netuid) with _ | i
  · have hnoupd : ¬n.uid ≠ uid := fun h => h huid
    refine ⟨{ c with neuron_cache := (((hkId, netuid), n.id) :: c.neuron_cache) },
      ?_, ?_, rfl⟩
    · rw [syncNeuron, h0, hfind]
      dsimp only
      rw [if_neg hnoupd]
    · refine ⟨hcc.coldkey_ok, hcc.hotkey_ok, ?_⟩
      intro q hq
      rcases List.mem_cons.mp hq with rfl | hq'
      · exact ⟨n, hfind, rfl⟩
      · exact hcc.neuron_ok q hq'
  · obtain ⟨row, hrow, hid⟩ := hcc.neuron_ok ((hkId, netuid), i) (lookup_mem h0)
    have hre : row = n := by
      rw [hrow] at hfind
      exact Option.some.inj hfind
    have hieq : i = n.id := by
      rw [hre] at hid
      exact hid.symm
    subst hieq
    exact ⟨c, by rw [syncNeuron, h0], hcc, rfl⟩

theorem syncNeuronSnapshot_noop (nId : Nat) (b uid : Int) (ts em as apy : ℚ) (iv : Bool)
    (tr rk : ℚ) (ia : Bool) (σ : Store) (s : NeuronSnapshotRow)
    (hfind : findSnapshot σ.snapshots nId b = some s)
    (hdef : s = snapshotDefaults s.id nId b uid ts em as apy iv tr rk ia) :
    syncNeuronSnapshot nId b uid ts em as apy iv tr rk ia σ = (σ, s.id) := by
  rw [syncNeuronSnapshot, hfind]
  dsimp only
  rw [updateFirst_eq_self _ _ _ s (by rw [findSnapshot] at hfind; exact hfind)
    (by rw [← hdef])]

theorem syncMechanismMetrics_noop (sId : Nat) (mid : Int) (d inc : ℚ) (σ : Store)
    (hfind : findMechanism σ.mechanism_metrics sId mid
      = some ⟨sId, mid, d, inc, 0, 0, 0⟩) :
    syncMechanismMetrics sId mid d inc σ = σ := by
  rw [syncMechanismMetrics, hfind]
  dsimp only
  rw [updateFirst_eq_self _ _ _ _ (by rw [findMechanism] at hfind; exact hfind) rfl]

theorem processNeuron_noop (netuid : Int) (alphaOut ownerCut : ℚ) (blockNumber now : Int)
    (r : NeuronRec) (σ : Store) (c : Caches) (st : SyncStats)
    (hwf : StoreWF σ) (hcc : CachesConsistent σ c) (htf : TouchedFresh now σ c)
    (hs : RecSettled netuid alphaOut ownerCut blockNumber now [] r σ) :
    (processNeuron netuid alphaOut ownerCut blockNumber now r (σ, c, st)).1 = σ ∧
    CachesConsistent σ
      (processNeuron netuid alphaOut ownerCut blockNumber now r (σ, c, st)).2.1 ∧
    TouchedFresh now σ
      (processNeuron netuid alphaOut ownerCut blockNumber now r (σ, c, st)).2.1 := by
  by_cases hv : r.validator_permit = true
  · obtain ⟨ck, hk, n, s, hck, hhk, hlink, htouch, hn, huid, hsnap, hdef, hmech⟩ := hs hv
    have hlast : hk.last_seen = now := by
      rcases htouch with h | h
      · simp at h
      · exact h
    rw [processNeuron_eq_validator netuid alphaOut ownerCut blockNumber now r σ c st hv]
    dsimp only
    obtain ⟨c₁, heq1, hcc₁, hlk₁, hhc₁, hnc₁, htu₁⟩ :=
      getOrCreateColdkey_noop r.coldkey σ c ck hcc hck
    rw [heq1]
    dsimp only
    obtain ⟨c₂, heq2, hcc₂, hnc₂, htu₂⟩ :=
      getOrCreateHotkey_noop r.hotkey r.coldkey now σ c₁ ck hk hcc₁ hck hhk hlink
    rw [heq2]
    dsimp only
    obtain ⟨c₃, heq3, hcc₃, htu₃⟩ := syncNeuron_noop hk.id netuid r.uid σ c₂ n hcc₂ hn huid
    rw [heq3]
    dsimp only
    rw [syncNeuronSnapshot_noop n.id blockNumber r.uid r.stake r.emission r.alpha_stake
      (compute_dividend_apy r.dividend alphaOut r.alpha_stake ownerCut)
      r.validator_permit r.trust r.rank r.active σ s hsnap hdef]
    dsimp only
    have hmechnoop : (if r.dividend > 0 ∨ r.incentive > 0 then
        syncMechanismMetrics s.id 0 r.dividend r.incentive σ else σ) = σ := by
      by_cases hd : r.dividend > 0 ∨ r.incentive > 0
      · rw [if_pos hd]
        obtain ⟨m, hm, hmv⟩ := hmech hd
        rw [hmv] at hm
        exact syncMechanismMetrics_noop s.id 0 r.dividend r.incentive σ hm
      · rw [if_neg hd]
    rw [hmechnoop]
    refine ⟨rfl, hcc₃, ?_⟩
    intro i hi row hrowmem hrowid
    rw [htu₃] at hi
    rcases htu₂ i hi with h | h
    · rw [htu₁] at h
      exact htf i h row hrowmem hrowid
    · subst h
      obtain ⟨hkmem, hkaddr⟩ := findHotkey_some hhk
      have hroweq : row = hk := hotkey_row_eq_of_id hwf hrowmem hkmem hrowid
      rw [hroweq, hlast]
  · rw [processNeuron_skip netuid alphaOut ownerCut blockNumber now r σ c st
      (by revert hv; cases r.validator_permit <;> simp)]
    exact ⟨rfl, hcc, htf⟩

theorem processNeurons_noop (netuid : Int) (alphaOut ownerCut : ℚ)
    (blockNumber now : Int) :
    ∀ (rs : List NeuronInput) (σ : Store) (c : Caches) (st : SyncStats),
      StoreWF σ → CachesConsistent σ c → TouchedFresh now σ c →
      (∀ x ∈ rs, ∃ r, x = NeuronInput.valid r ∧
        RecSettled netuid alphaOut ownerCut blockNumber now [] r σ) →
      ∃ c' st', processNeurons netuid alphaOut ownerCut blockNumber now rs (σ, c, st)
          = ((σ, c', st'), none) ∧
        CachesConsistent σ c' ∧ TouchedFresh now σ c' := by
  intro rs
  induction rs with
  | nil =>
    intro σ c st hwf hcc htf hall
    exact ⟨c, st, rfl, hcc, htf⟩
  | cons x rest ih =>
    intro σ c st hwf hcc htf hall
    obtain ⟨r, hx, hset⟩ := hall x (List.mem_cons_self _ _)
    subst hx
    rw [processNeurons]
    obtain ⟨h1, h2, h3⟩ := processNeuron_noop netuid alphaOut ownerCut blockNumber now
      r σ c st hwf hcc htf hset
    obtain ⟨c'', st'', hrec, hcc'', htf''⟩ := ih σ
      (processNeuron netuid alphaOut ownerCut blockNumber now r (σ, c, st)).2.1
      (processNeuron netuid alphaOut ownerCut blockNumber now r (σ, c, st)).2.2
      hwf h2 h3 (fun y hy => hall y (List.mem_cons_of_mem _ hy))
    refine ⟨c'', st'', ?_, hcc'', htf''⟩
    have hacc : processNeuron netuid alphaOut ownerCut blockNumber now r (σ, c, st)
        = (σ, (processNeuron netuid alphaOut ownerCut blockNumber now r (σ, c, st)).2.1,
           (processNeuron netuid alphaOut ownerCut blockNumber now r (σ, c, st)).2.2) := by
      have hx : ((processNeuron netuid alphaOut ownerCut blockNumber now r (σ, c, st)).1,
          (processNeuron netuid alphaOut ownerCut blockNumber now r (σ, c, st)).2.1,
          (processNeuron netuid alphaOut ownerCut blockNumber now r (σ, c, st)).2.2)
          = (σ, (processNeuron netuid alphaOut ownerCut blockNumber now r (σ, c, st)).2.1,
             (processNeuron netuid alphaOut ownerCut blockNumber now r (σ, c, st)).2.2) := by
        rw [h1]
      exact hx
    rw [hacc]
    exact hrec

theorem sync_metagraph_noop (mg : MetagraphInput) (blockNumber : Int)
    (blockTimestamp : Option Int) (dm : DumpMetadata) (ownerCut : ℚ) (now : Int)
    (σ : Store) (hwf : StoreWF σ)
    (hbs : BlockSettled blockNumber blockTimestamp σ)
    (hss : SubnetSettled mg.netuid mg.alpha_out_emission σ)
    (hds : DumpSettled dm blockNumber σ)
    (hall : ∀ x ∈ mg.neurons, ∃ r, x = NeuronInput.valid r ∧
      RecSettled mg.netuid mg.alpha_out_emission ownerCut blockNumber now [] r σ) :
    ∃ c' st', sync_metagraph mg blockNumber blockTimestamp dm ownerCut now σ emptyCaches
      = ((σ, c'), Except.ok st') := by
  have hccem : CachesConsistent σ emptyCaches :=
    ⟨fun p hp => absurd hp (List.not_mem_nil p),
     fun p hp => absurd hp (List.not_mem_nil p),
     fun p hp => absurd hp (List.not_mem_nil p)⟩
  have htfem : TouchedFresh now σ emptyCaches := fun i hi => absurd hi (List.not_mem_nil i)
  obtain ⟨c', st', hrec, hcc', htf'⟩ := processNeurons_noop mg.netuid
    mg.alpha_out_emission ownerCut blockNumber now mg.neurons σ emptyCaches initStats
    hwf hccem htfem hall
  refine ⟨(flushHotkeyLastSeen now σ c').2.1, st', ?_⟩
  rw [sync_metagraph, syncMetagraphBody]
  dsimp only
  rw [syncBlock_noop blockNumber blockTimestamp dm σ hbs]
  rw [syncSubnet_noop mg.netuid mg.alpha_out_emission σ hss]
  rw [hrec]
  dsimp only
  rw [syncMetagraphDump_noop dm blockNumber σ hds]
  rw [flushHotkeyLastSeen_noop now σ c' htf']

/-- Claim C1: re-running `sync_metagraph` with identical inputs on a fresh
service instance is idempotent.  Under the database constraints (`StoreWF`:
primary keys below the autoincrement counter and unique, and the `Neuron`
unique constraint on `(hotkey, subnet)`) and the metagraph invariant that
each hotkey appears at most once in a snapshot, the store after the second
run equals the store after the first run: no new rows of any entity type
and no changed field values.  On an error both runs roll back to the same
pre-call store. -/
theorem sync_metagraph_idempotent (mg : MetagraphInput) (blockNumber : Int)
    (blockTimestamp : Option Int) (dm : DumpMetadata) (ownerCut : ℚ) (now : Int)
    (σ : Store) (hwf : StoreWF σ)
    (hnodup : (mg.neurons.filterMap inputAddr).Nodup) :
    (sync_metagraph mg blockNumber blockTimestamp dm ownerCut now
        (sync_metagraph mg blockNumber blockTimestamp dm ownerCut now σ
          emptyCaches).1.1 emptyCaches).1.1
      = (sync_metagraph mg blockNumber blockTimestamp dm ownerCut now σ
          emptyCaches).1.1 := by
  rcases h1 : sync_metagraph mg blockNumber blockTimestamp dm ownerCut now σ emptyCaches
    with ⟨⟨σ', c'⟩, res⟩
  cases res with
  | error msg =>
    have hσ' : σ' = σ := by
      rw [sync_metagraph] at h1
      rcases hb : syncMetagraphBody mg blockNumber blockTimestamp dm ownerCut now σ
        emptyCaches with ⟨⟨σb, cb, stb⟩, err⟩
      rw [hb] at h1
      cases err with
      | none =>
        injection h1 with _ hbad
        injection hbad
      | some m =>
        injection h1 with hpair _
        injection hpair with h1' _
        exact h1'.symm
    show (sync_metagraph mg blockNumber blockTimestamp dm ownerCut now σ'
      emptyCaches).1.1 = σ'
    rw [hσ', h1]
    exact hσ'
  | ok st =>
    obtain ⟨hwf', hbs', hss', hds', hvalid', hset'⟩ :=
      sync_metagraph_ok_settled mg blockNumber blockTimestamp dm ownerCut now σ σ' c' st
        hwf hnodup h1
    have hall : ∀ x ∈ mg.neurons, ∃ r, x = NeuronInput.valid r ∧
        RecSettled mg.netuid mg.alpha_out_emission ownerCut blockNumber now [] r σ' := by
      intro x hx
      obtain ⟨r, hr⟩ := hvalid' x hx
      exact ⟨r, hr, hset' r (hr ▸ hx)⟩
    obtain ⟨c'', st'', h2⟩ := sync_metagraph_noop mg blockNumber blockTimestamp dm
      ownerCut now σ' hwf' hbs' hss' hds' hall
    show (sync_metagraph mg blockNumber blockTimestamp dm ownerCut now σ'
      emptyCaches).1.1 = σ'
    rw [h2]

/-- Claim C1 witness: a concrete double run — subnet 3 snapshot with one
validator record, starting from the empty store — reaches the same store
the second time. -/
theorem sync_metagraph_idempotent_witness :
    (sync_metagraph c7Mg1 100 none c7Dm 0 0
        (sync_metagraph c7Mg1 100 none c7Dm 0 0 emptyStore emptyCaches).1.1
        emptyCaches).1.1
      = (sync_metagraph c7Mg1 100 none c7Dm 0 0 emptyStore emptyCaches).1.1 :=
  sync_metagraph_idempotent c7Mg1 100 none c7Dm 0 0 emptyStore
    ⟨by decide, by decide, by decide, by decide, by decide, by decide, by decide,
     by decide⟩
    (by decide)

/-- Claim C7 (amended): on a sync run executed by a FRESH service instance
(empty caches), if the run succeeds then for every validator record of the
snapshot the Neuron row of its hotkey on the synced subnet carries exactly
the observed uid, and there is exactly one Neuron row for that
`(hotkey, subnet)` pair — the existing row is updated in place, no
duplicate is created.  The uid-reflects-latest-observation guarantee does
NOT extend to later blocks processed by a batch task that reuses one
service instance: the neuron cache of `_sync_neuron` returns the cached
row without any uid check (see the counterexample). -/
theorem sync_metagraph_uid_update (mg : MetagraphInput) (blockNumber : Int)
    (blockTimestamp : Option Int) (dm : DumpMetadata) (ownerCut : ℚ) (now : Int)
    (σ : Store) (r : NeuronRec)
    (hwf : StoreWF σ) (hnodup : (mg.neurons.filterMap inputAddr).Nodup)
    (hmem : NeuronInput.valid r ∈ mg.neurons) (hv : r.validator_permit = true)
    (hok : ∃ st, (sync_metagraph mg blockNumber blockTimestamp dm ownerCut now σ
      emptyCaches).2 = Except.ok st) :
    ∃ hk, findHotkey (sync_metagraph mg blockNumber blockTimestamp dm ownerCut now σ
        emptyCaches).1.1.hotkeys r.hotkey = some hk ∧
      (∃ n, findNeuron (sync_metagraph mg blockNumber blockTimestamp dm ownerCut now σ
          emptyCaches).1.1.neurons hk.id mg.netuid = some n ∧ n.uid = r.uid) ∧
      (sync_metagraph mg blockNumber blockTimestamp dm ownerCut now σ
          emptyCaches).1.1.neurons.countP
        (fun nr => nr.hotkey_id == hk.id && nr.subnet_netuid == mg.netuid) = 1 := by
  obtain ⟨st, hst⟩ := hok
  have heq : sync_metagraph mg blockNumber blockTimestamp dm ownerCut now σ emptyCaches
      = (((sync_metagraph mg blockNumber blockTimestamp dm ownerCut now σ
           emptyCaches).1.1,
          (sync_metagraph mg blockNumber blockTimestamp dm ownerCut now σ
           emptyCaches).1.2), Except.ok st) := by
    rw [← hst]
  obtain ⟨hwf', _, _, _, _, hset'⟩ :=
    sync_metagraph_ok_settled mg blockNumber blockTimestamp dm ownerCut now σ _ _ st
      hwf hnodup heq
  obtain ⟨ck, hk, n, s, hck, hhk, hlink, htouch, hn, huid, hsnap, hdef, hmech⟩ :=
    hset' r hmem hv
  refine ⟨hk, hhk, ⟨n, hn, huid⟩, ?_⟩
  have hle := count_neuron_key_le_one
    (sync_metagraph mg blockNumber blockTimestamp dm ownerCut now σ
      emptyCaches).1.1.neurons hwf'.neuron_key_nodup hk.id mg.netuid
  have hpos : 0 < (sync_metagraph mg blockNumber blockTimestamp dm ownerCut now σ
      emptyCaches).1.1.neurons.countP
      (fun nr => nr.hotkey_id == hk.id && nr.subnet_netuid == mg.netuid) := by
    rw [List.countP_pos]
    obtain ⟨nmem, nk, nnu⟩ := findNeuron_some hn
    exact ⟨n, nmem, by simp [nk, nnu]⟩
  omega

/-- Claim C7 witness: the hotkey `"hk1"` holds a Neuron row at uid 7 on
subnet 3 (written by a first sync); a second sync by a fresh instance
observes it at uid 9 and the single row now carries uid 9. -/
theorem sync_metagraph_uid_update_witness :
    ∃ hk, findHotkey (sync_metagraph c7Mg2 200 none c7Dm 0 0
        (sync_metagraph c7Mg1 100 none c7Dm 0 0 emptyStore emptyCaches).1.1
        emptyCaches).1.1.hotkeys c7Record2.hotkey = some hk ∧
      (∃ n, findNeuron (sync_metagraph c7Mg2 200 none c7Dm 0 0
          (sync_metagraph c7Mg1 100 none c7Dm 0 0 emptyStore emptyCaches).1.1
          emptyCaches).1.1.neurons hk.id c7Mg2.netuid = some n ∧ n.uid = c7Record2.uid) ∧
      (sync_metagraph c7Mg2 200 none c7Dm 0 0
          (sync_metagraph c7Mg1 100 none c7Dm 0 0 emptyStore emptyCaches).1.1
          emptyCaches).1.1.neurons.countP
        (fun nr => nr.hotkey_id == hk.id && nr.subnet_netuid == c7Mg2.netuid) = 1 :=
  sync_metagraph_uid_update c7Mg2 200 none c7Dm 0 0
    (sync_metagraph c7Mg1 100 none c7Dm 0 0 emptyStore emptyCaches).1.1 c7Record2
    ⟨by decide, by decide, by decide, by decide, by decide, by decide, by decide,
     by decide⟩
    (by decide) (List.mem_cons_self _ _) (by decide)
    ⟨⟨1, 1, 1, 1, 0⟩, rfl⟩
